import Mathlib

/-!
# Herd of Grazing Cows: simulation core

A shallow embedding of the simulation core of `herd_of_grazing_cows.cpp`
(field grid, herd movement and harvest, growth, time bank, upgrade economy).

Conventions of the embedding:
* C++ `int` and `qint64` values are `Int`. The settings (`herdSpeed`,
  `growthAmount`, `dayRate`, `fieldSize`, herd size and position) are bounded
  by their gates and never overflow. The super-day counter is the one `int`
  that an input (the clock) can push out of range: the conversion
  `static_cast<int>` and the addition into `superDays` are modelled on 32 bits
  (`castInt32`, `wrapInt32`).
* C++ `double` values (`money`, `totalMoney`, `totalCleared`, `superExtra`,
  upgrade `price` and `multiplier`) are rationals `ℚ` that hold the exact value
  of the double. Every addition, subtraction and multiplication on `money`,
  `totalMoney`, `totalCleared` and `price` is followed by `roundDouble`, the
  IEEE 754 rounding to the nearest double (ties to even), and the constants
  1.3 and 1.15 are the doubles nearest to them. The integer base prices and the
  multipliers 2.0 and 2.5 are doubles as they stand.
* `superExtra` only ever holds whole numbers of milliseconds (sums of integers
  and `fmod` remainders of those), on which double addition, comparison and
  `fmod` are exact; they are taken exactly. The quotient
  `superExtra / 5 / dayRate` and the product `dayRate * 0.85` are used only
  through their integer parts, which are those of the exact quotient and
  product for whole-millisecond surpluses and for the day lengths 1 to 1000
  that occur; they are taken exactly as well.
* `rand()` is an external stream of naturals handed to each operation that
  draws from it; `QDateTime::currentMSecsSinceEpoch()` is an argument.
* The closures `onBuy` and `canBuy` stored in an `Upgrade` capture `this`;
  they are represented by an `UpgradeKind` tag interpreted by `onBuy` and
  `canBuy` below.
* The Qt user interface (`createUI`, `updateUI`, painting) has no effect on
  the simulation state and is left out.
-/

namespace HerdOfGrazingCows

/-- Stream of values returned by successive calls of `rand()`. -/
abbrev Rand := Nat → Nat

/-- Game display width in pixels. -/
def width : Int := 500

/-- Game display height in pixels. -/
def height : Int := 500

/-- Maximum grass growth level. -/
def maxGrowth : Int := 15

/-- Available field sizes (cell size in pixels) for the zoom levels. -/
def fieldSizes : List Int := [50, 25, 20, 10, 5, 4, 2, 1]

/-- Tag standing for the pair of closures `onBuy` / `canBuy` of an upgrade. -/
inductive UpgradeKind where
  | herdSpeed
  | herdSize
  | fieldSize
  | growthRate
  | dayRate
deriving DecidableEq, Repr

/-- The `Upgrade` struct (display strings left out). -/
structure Upgrade where
  name : String
  price : ℚ
  multiplier : ℚ
  level : Int
  kind : UpgradeKind
deriving DecidableEq

/-- Simulation state: the data members of `Herd_of_Grazing_Cows`. -/
structure Game where
  money : ℚ
  totalMoney : ℚ
  grid : List (List Int)
  herdX : Int
  herdY : Int
  herdWidth : Int
  herdHeight : Int
  herdSpeed : Int
  herdDirectionUp : Bool
  growthAmount : Int
  fieldSize : Int
  dayRate : Int
  totalCleared : ℚ
  lastDay : Int
  superExtra : ℚ
  superDays : Int
  upgrades : List Upgrade

/-- The lookup `fieldSizes[i]`; an index outside the table reads as 1. -/
def fieldSizeAt (i : Int) : Int :=
  if 0 ≤ i then fieldSizes.getD i.toNat 1 else 1

/-- The expression `width / fieldSizes[fieldSize]`. -/
def gridWidth (s : Game) : Int := width / fieldSizeAt s.fieldSize

/-- The expression `height / fieldSizes[fieldSize]`. -/
def gridHeight (s : Game) : Int := height / fieldSizeAt s.fieldSize

/-- Read of `grid[x][y]`; a read outside the grid gives 0. -/
def getCell (g : List (List Int)) (x y : Int) : Int :=
  if 0 ≤ x ∧ 0 ≤ y then (g.getD x.toNat []).getD y.toNat 0 else 0

/-- Write `grid[x][y] = v`; a write outside the grid changes nothing. -/
def setCell (g : List (List Int)) (x y : Int) (v : Int) : List (List Int) :=
  if 0 ≤ x ∧ 0 ≤ y then g.set x.toNat ((g.getD x.toNat []).set y.toNat v) else g

/-- Truncation of a double toward zero: the value of `static_cast<int>` and of
the cast `(int)` whenever it fits the type `int`. -/
def truncToInt (q : ℚ) : Int := if 0 ≤ q then Int.floor q else Int.ceil q

/-- The C library `fmod`: the remainder has the sign of the dividend. -/
def fmod (a b : ℚ) : ℚ := a - b * (truncToInt (a / b) : ℚ)

/-- Nearest integer to `y`, a tie going to the even neighbour. -/
def roundHalfEven (y : ℚ) : Int :=
  if y - (⌊y⌋ : ℚ) < 1 / 2 then ⌊y⌋
  else if 1 / 2 < y - (⌊y⌋ : ℚ) then ⌊y⌋ + 1
  else if ⌊y⌋ % 2 = 0 then ⌊y⌋ else ⌊y⌋ + 1

/-- The `double` nearest to the exact value `q` (IEEE 754 binary64: 53
significant bits, round to nearest, ties to even): the value a double
operation stores when its exact result is `q`. The significand of `q` is
scaled into `[2^52, 2^53)` and rounded to an integer. The exponent range is
not limited; no value of the program comes near its ends. -/
def roundDouble (q : ℚ) : ℚ :=
  if q = 0 then 0
  else (roundHalfEven (q / (2 : ℚ) ^ (Int.log 2 |q| - 52)) : ℚ) * (2 : ℚ) ^ (Int.log 2 |q| - 52)

/-- Conversion `static_cast<int>` of a double into the 32-bit `int`:
truncation toward zero when the result fits. Outside the range of `int` the
conversion has no defined result in C++; the model takes `INT_MIN`, the value
the x86-64 conversion instruction returns. -/
def castInt32 (q : ℚ) : Int :=
  if -2 ^ 31 ≤ truncToInt q ∧ truncToInt q < 2 ^ 31 then truncToInt q else -2 ^ 31

/-- Result of 32-bit `int` arithmetic whose exact result is `n`: reduction
modulo 2^32 into `[-2^31, 2^31)`. -/
def wrapInt32 (n : Int) : Int := (n + 2 ^ 31) % 2 ^ 32 - 2 ^ 31

/-- `generateField`: every cell is overwritten with `rand() % maxGrowth`,
columns outermost, so cell `(i, j)` takes call number `i * gridHeight + j`. -/
def generateField (r : Rand) (s : Game) : Game :=
  let gw := (gridWidth s).toNat
  let gh := (gridHeight s).toNat
  { s with grid := (List.range gw).map (fun i =>
      (List.range gh).map (fun j => ((r (i * gh + j) : Nat) : Int) % maxGrowth)) }

/-- `regenerateField`: clear the grid, then generate it again. -/
def regenerateField (r : Rand) (s : Game) : Game :=
  generateField r { s with grid := [] }

/-- The availability closures `canBuy` of the five upgrades. -/
def canBuy (k : UpgradeKind) (s : Game) : Bool :=
  match k with
  | .herdSpeed => decide (s.herdSpeed < 50)
  | .herdSize =>
      let maxSize := height / fieldSizeAt s.fieldSize
      decide (s.herdHeight < maxSize) && decide (s.herdWidth < maxSize)
  | .fieldSize => decide (s.fieldSize < (fieldSizes.length : Int) - 1)
  | .growthRate => decide (s.growthAmount < 100)
  | .dayRate => decide (s.dayRate > 1)

/-- The effect closures `onBuy` of the five upgrades. -/
def onBuy (k : UpgradeKind) (r : Rand) (s : Game) : Game :=
  match k with
  | .herdSpeed => { s with herdSpeed := s.herdSpeed + 1 }
  | .herdSize =>
      let s1 := if s.herdWidth = s.herdHeight
        then { s with herdWidth := s.herdWidth + 1 }
        else { s with herdHeight := s.herdHeight + 1 }
      { s1 with herdX := 0, herdY := 0 }
  | .fieldSize =>
      regenerateField r
        { s with fieldSize := min (s.fieldSize + 1) ((fieldSizes.length : Int) - 1) }
  | .growthRate => { s with growthAmount := s.growthAmount + 2 }
  | .dayRate =>
      { s with dayRate := max 1 (truncToInt ((s.dayRate : ℚ) * 0.85)) }

/-- `Upgrade::buy` on the upgrade stored at index `i` of `upgrades`. -/
def Upgrade.buy (i : Nat) (r : Rand) (s : Game) : Game :=
  match s.upgrades[i]? with
  | none => s
  | some u =>
      if canBuy u.kind s then
        let s1 := onBuy u.kind r s
        let u1 : Upgrade :=
          { u with level := u.level + 1, price := roundDouble (u.price * u.multiplier) }
        { s1 with upgrades := s1.upgrades.set i u1 }
      else s

/-- `getUpgrade`: position of the first upgrade whose name is `name`
(the returned pointer), `none` for `nullptr`. -/
def getUpgrade (name : String) (s : Game) : Option Nat :=
  s.upgrades.findIdx? (fun u => u.name == name)

/-- Common body of the five `buy...Upgrade` slots, which differ only in the
name they look up. -/
def buyNamed (name : String) (r : Rand) (s : Game) : Game :=
  match getUpgrade name s with
  | none => s
  | some i =>
      match s.upgrades[i]? with
      | none => s
      | some u =>
          if s.money ≥ u.price ∧ canBuy u.kind s = true then
            let s1 := Upgrade.buy i r s
            let newPrice := (s1.upgrades.getD i u).price
            let m := roundDouble (s1.money - newPrice)
            { s1 with money := if m < 0 then 0 else m }
          else s

/-- Slot `buySpeedUpgrade`. -/
def buySpeedUpgrade (r : Rand) (s : Game) : Game := buyNamed "herdSpeed" r s

/-- Slot `buySizeUpgrade`. -/
def buySizeUpgrade (r : Rand) (s : Game) : Game := buyNamed "herdSize" r s

/-- Slot `buyFieldUpgrade`. -/
def buyFieldUpgrade (r : Rand) (s : Game) : Game := buyNamed "fieldSize" r s

/-- Slot `buyGrowthUpgrade`. -/
def buyGrowthUpgrade (r : Rand) (s : Game) : Game := buyNamed "growthRate" r s

/-- Slot `buyDayUpgrade`. -/
def buyDayUpgrade (r : Rand) (s : Game) : Game := buyNamed "dayRate" r s

/-- Time-bank part of `herdDay`: the elapsed time since the last day, less
the nominal day length, is added to `superExtra`; a surplus above five day
lengths is converted into super days, the quotient being converted to `int`
and added to the `int` counter `superDays`. -/
def timeBank (currentTime : Int) (s : Game) : Game :=
  let timeDifference := currentTime - s.lastDay
  let s1 := { s with lastDay := currentTime,
                     superExtra := s.superExtra + ((timeDifference - s.dayRate : Int) : ℚ) }
  if s1.superExtra > ((s1.dayRate * 5 : Int) : ℚ) then
    { s1 with superDays :=
                wrapInt32 (s1.superDays + castInt32 (s1.superExtra / 5 / (s1.dayRate : ℚ))),
              superExtra := fmod s1.superExtra ((s1.dayRate * 5 : Int) : ℚ) }
  else s1

/-- Body of the two inner loops of `herdDay` for the cell `(tX, tY)`. -/
def harvestCell (gw gh : Int) (s : Game) (tX tY : Int) : Game :=
  if tX < gw ∧ tY < gh ∧ getCell s.grid tX tY ≥ 5 then
    let value : ℚ := 1 * (if s.superDays > 0 then 5 else 1)
    { s with grid := setCell s.grid tX tY 0,
             money := roundDouble (s.money + value),
             totalMoney := roundDouble (s.totalMoney + value),
             totalCleared := roundDouble (s.totalCleared + 1),
             superDays := if s.superDays > 0 then s.superDays - 1 else s.superDays }
  else s

/-- The harvest loops of one sub-move: `x` over the herd width (outer), `y`
over the herd height (inner). -/
def harvest (gw gh : Int) (s : Game) : Game :=
  (List.range s.herdWidth.toNat).foldl (fun (s1 : Game) (x : Nat) =>
    (List.range s1.herdHeight.toNat).foldl (fun (s2 : Game) (y : Nat) =>
      harvestCell gw gh s2 ((x : Int) + s2.herdX) ((y : Int) + s2.herdY)) s1) s

/-- The herd movement pattern of one sub-move. -/
def moveHerd (gw gh : Int) (s : Game) : Game :=
  if s.herdDirectionUp then
    if s.herdY > 0 then
      { s with herdY := s.herdY - 1 }
    else if s.herdX ≥ gw - s.herdWidth then
      { s with herdDirectionUp := false, herdX := 0, herdY := 0 }
    else
      { s with herdX := min (s.herdX + s.herdWidth) (gw - s.herdWidth),
               herdDirectionUp := false }
  else
    if s.herdY < gh - s.herdHeight then
      { s with herdY := s.herdY + 1 }
    else if s.herdX ≥ gw - s.herdWidth then
      { s with herdDirectionUp := false, herdX := 0, herdY := 0 }
    else
      { s with herdX := min (s.herdX + s.herdWidth) (gw - s.herdWidth),
               herdDirectionUp := true }

/-- One iteration of the outer loop of `herdDay`: harvest, then move. -/
def herdSubMove (gw gh : Int) (s : Game) : Game :=
  moveHerd gw gh (harvest gw gh s)

/-- `herdDay`: time bank, then `herdSpeed` sub-moves on the grid dimensions
read once before the loop. -/
def herdDay (currentTime : Int) (s : Game) : Game :=
  let s1 := timeBank currentTime s
  let gw := gridWidth s1
  let gh := gridHeight s1
  (herdSubMove gw gh)^[s1.herdSpeed.toNat] s1

/-- One iteration of the loop of `growthDay`, drawing `rx` then `ry`. -/
def growCell (gw gh : Int) (g : List (List Int)) (rx ry : Nat) : List (List Int) :=
  let x := (rx : Int) % gw
  let y := (ry : Int) % gh
  if getCell g x y < maxGrowth then
    setCell g x y (min maxGrowth (getCell g x y + 1))
  else g

/-- `growthDay`: iteration `i` uses calls `2 i` and `2 i + 1` of `rand()`. -/
def growthDay (r : Rand) (s : Game) : Game :=
  let gw := gridWidth s
  let gh := gridHeight s
  let g1 := (List.range s.growthAmount.toNat).foldl
    (fun g i => growCell gw gh g (r (2 * i)) (r (2 * i + 1))) s.grid
  { s with grid := g1 }

/-- `gameUpdate`: one simulated day. -/
def gameUpdate (currentTime : Int) (r : Rand) (s : Game) : Game :=
  growthDay r (herdDay currentTime s)

/-- The constant `sizeMultiplier = 1.3`: the double nearest to 1.3. -/
def sizeMultiplier : ℚ := roundDouble 1.3

/-- The constant `growthMultiplier = 1.15`: the double nearest to 1.15. -/
def growthMultiplier : ℚ := roundDouble 1.15

/-- The constant `dayMultiplier = 1.15`: the double nearest to 1.15. -/
def dayMultiplier : ℚ := roundDouble 1.15

/-- `initializeUpgrades`: the five upgrades, in the order they are appended,
with the base prices and multipliers of the class declaration. -/
def initializeUpgrades : List Upgrade :=
  [ { name := "herdSpeed", price := 50, multiplier := 2.0, level := 0, kind := .herdSpeed },
    { name := "herdSize", price := 75, multiplier := sizeMultiplier, level := 0,
      kind := .herdSize },
    { name := "fieldSize", price := 150, multiplier := 2.5, level := 0, kind := .fieldSize },
    { name := "growthRate", price := 10, multiplier := growthMultiplier, level := 0,
      kind := .growthRate },
    { name := "dayRate", price := 5, multiplier := dayMultiplier, level := 0,
      kind := .dayRate } ]

/-- `initializeGame`: generate the field and record the current time. -/
def initializeGame (r : Rand) (now : Int) (s : Game) : Game :=
  { generateField r s with lastDay := now }

/-- State left by the constructor: member initialisers, `initializeGame`,
then `initializeUpgrades`. -/
def initialGame (r : Rand) (now : Int) : Game :=
  let s0 : Game :=
    { money := 0, totalMoney := 0, grid := [], herdX := 0, herdY := 0,
      herdWidth := 1, herdHeight := 1, herdSpeed := 1, herdDirectionUp := false,
      growthAmount := 4, fieldSize := 0, dayRate := 1000, totalCleared := 0,
      lastDay := 0, superExtra := 0, superDays := 0, upgrades := [] }
  { initializeGame r now s0 with upgrades := initializeUpgrades }

/-- Commands the core receives: a timer tick (with the clock reading and the
random draws of that day) or a click on one of the five purchase buttons
(with the random draws a field regeneration would use). -/
inductive Action where
  | tick (currentTime : Int) (r : Rand)
  | buy (k : UpgradeKind) (r : Rand)

/-- Slot run by a command. -/
def Action.apply (a : Action) (s : Game) : Game :=
  match a with
  | .tick t r => gameUpdate t r s
  | .buy .herdSpeed r => buySpeedUpgrade r s
  | .buy .herdSize r => buySizeUpgrade r s
  | .buy .fieldSize r => buyFieldUpgrade r s
  | .buy .growthRate r => buyGrowthUpgrade r s
  | .buy .dayRate r => buyDayUpgrade r s

/-- Run a sequence of commands, first command first. -/
def run (as : List Action) (s : Game) : Game :=
  as.foldl (fun st a => a.apply st) s

/-- States reachable from a constructor state by ticks and purchases. -/
def Reachable (s : Game) : Prop :=
  ∃ (r : Rand) (now : Int) (as : List Action), s = run as (initialGame r now)

/-- Internal name under which the slot of an upgrade looks it up. -/
def UpgradeKind.key : UpgradeKind → String
  | .herdSpeed => "herdSpeed"
  | .herdSize => "herdSize"
  | .fieldSize => "fieldSize"
  | .growthRate => "growthRate"
  | .dayRate => "dayRate"

/-- State a successful purchase of the upgrade `u` stored at index `i` leaves. -/
def purchased (i : Nat) (u : Upgrade) (r : Rand) (s : Game) : Game :=
  let s1 := onBuy u.kind r s
  let m := roundDouble (s1.money - roundDouble (u.price * u.multiplier))
  { s1 with
    upgrades := s1.upgrades.set i
      { u with level := u.level + 1, price := roundDouble (u.price * u.multiplier) },
    money := if m < 0 then 0 else m }

/-- The constructor state after 120 units of money have been earned and
nothing has been bought (all random draws 0, clock at 0). -/
def richStart : Game :=
  { initialGame (fun _ => 0) 0 with money := 120, totalMoney := 120 }

/-- Cells the harvest loops visit, in visiting order. -/
def herdCells (s : Game) : List (Int × Int) :=
  (List.range s.herdWidth.toNat).flatMap (fun (x : Nat) =>
    (List.range s.herdHeight.toNat).map
      (fun (y : Nat) => ((x : Int) + s.herdX, (y : Int) + s.herdY)))

/-- Harvest test of `herdDay` on the cell `c` of the grid `g`. -/
def ripe (gw gh : Int) (g : List (List Int)) (c : Int × Int) : Bool :=
  decide (c.1 < gw) && (decide (c.2 < gh) && decide (5 ≤ getCell g c.1 c.2))

/-- Number of cells of the herd rectangle that pass the harvest test. -/
def ripeCount (gw gh : Int) (s : Game) : Nat :=
  (herdCells s).countP (ripe gw gh s.grid)

/-- The cell `(x, y)` lies in the herd rectangle. -/
def inHerd (s : Game) (x y : Int) : Prop :=
  s.herdX ≤ x ∧ x < s.herdX + s.herdWidth ∧ s.herdY ≤ y ∧ y < s.herdY + s.herdHeight

instance (s : Game) (x y : Int) : Decidable (inHerd s x y) := by
  unfold inHerd
  infer_instance

/-- Fields of `t` that the harvest loops and the growth loop never write
agree with those of `s`. -/
def sameHerd (s t : Game) : Prop :=
  t.herdX = s.herdX ∧ t.herdY = s.herdY ∧ t.herdWidth = s.herdWidth ∧
  t.herdHeight = s.herdHeight ∧ t.herdSpeed = s.herdSpeed ∧
  t.herdDirectionUp = s.herdDirectionUp ∧ t.growthAmount = s.growthAmount ∧
  t.fieldSize = s.fieldSize ∧ t.dayRate = s.dayRate ∧ t.lastDay = s.lastDay ∧
  t.superExtra = s.superExtra ∧ t.upgrades = s.upgrades

/-- The harvest loops run over an explicit list of cells. -/
def harvestList (gw gh : Int) (cs : List (Int × Int)) (s : Game) : Game :=
  cs.foldl (fun st c => harvestCell gw gh st c.1 c.2) s

/-- The grid `g` has `w` columns of `h` cells, each holding a level in
`[0, maxGrowth]`. -/
def GridOk (w h : Nat) (g : List (List Int)) : Prop :=
  g.length = w ∧ ∀ col ∈ g, col.length = h ∧ ∀ v ∈ col, 0 ≤ v ∧ v ≤ maxGrowth

/-- Invariant of the simulation state, kept by the constructor, by every tick
and by every purchase slot. -/
structure Inv (s : Game) : Prop where
  money_nonneg : 0 ≤ s.money
  money_double : roundDouble s.money = s.money
  total_nonneg : 0 ≤ s.totalMoney
  total_double : roundDouble s.totalMoney = s.totalMoney
  zoom_lo : 0 ≤ s.fieldSize
  zoom_hi : s.fieldSize ≤ 7
  grid_ok : GridOk (gridWidth s).toNat (gridHeight s).toNat s.grid
  height_pos : 1 ≤ s.herdHeight
  height_le_width : s.herdHeight ≤ s.herdWidth
  width_le_succ : s.herdWidth ≤ s.herdHeight + 1
  width_le : s.herdWidth ≤ gridWidth s
  height_lt : s.herdHeight < gridHeight s
  x_lo : 0 ≤ s.herdX
  x_hi : s.herdX ≤ gridWidth s - s.herdWidth
  y_lo : 0 ≤ s.herdY
  y_hi : s.herdY ≤ gridHeight s - s.herdHeight
  speed_lo : 1 ≤ s.herdSpeed
  speed_hi : s.herdSpeed ≤ 50
  growth_lo : 4 ≤ s.growthAmount
  growth_hi : s.growthAmount ≤ 100
  growth_even : s.growthAmount % 2 = 0
  day_lo : 1 ≤ s.dayRate
  day_hi : s.dayRate ≤ 1000
  names : s.upgrades.map (fun u => u.name)
    = ["herdSpeed", "herdSize", "fieldSize", "growthRate", "dayRate"]
  kinds : s.upgrades.map (fun u => u.kind)
    = [.herdSpeed, .herdSize, .fieldSize, .growthRate, .dayRate]

/-- A short run used as a concrete reachable state: one tick one second after
the start, then a click on the herd speed button. -/
def sampleRun : Game :=
  run [Action.tick 1000 (fun _ => 0), Action.buy .herdSpeed (fun _ => 0)]
    (initialGame (fun _ => 0) 0)

/-- The herd is at the origin and moving down, as after construction. -/
def atStart (s : Game) : Prop :=
  s.herdX = 0 ∧ s.herdY = 0 ∧ s.herdDirectionUp = false

/-- Position of the herd `t` after `j` steps in strip number `k` of a sweep
that `s` started at the origin: strips are swept downwards for even `k` and
upwards for odd `k`. -/
def SweepAt (W H : Int) (s t : Game) (k j : Nat) : Prop :=
  t.herdWidth = s.herdWidth ∧ t.herdHeight = s.herdHeight ∧
  t.herdX = min ((k : Int) * s.herdWidth) (W - s.herdWidth) ∧
  t.herdY = (if k % 2 = 0 then (j : Int) else H - s.herdHeight - j) ∧
  t.herdDirectionUp = decide (k % 2 = 1)

/-- The settings that only purchases change agree in `s` and `t`. -/
def sameConfig (s t : Game) : Prop :=
  t.herdWidth = s.herdWidth ∧ t.herdHeight = s.herdHeight ∧ t.herdSpeed = s.herdSpeed ∧
  t.growthAmount = s.growthAmount ∧ t.fieldSize = s.fieldSize ∧ t.dayRate = s.dayRate ∧
  t.upgrades = s.upgrades

/-- The command is a click on the field size button. -/
def Action.isFieldBuy : Action → Bool
  | .buy .fieldSize _ => true
  | _ => false

/-- The fields that determine where the herd goes agree in `a` and `b`. -/
def samePos (a b : Game) : Prop :=
  b.herdX = a.herdX ∧ b.herdY = a.herdY ∧ b.herdWidth = a.herdWidth ∧
  b.herdHeight = a.herdHeight ∧ b.herdSpeed = a.herdSpeed ∧
  b.herdDirectionUp = a.herdDirectionUp ∧ b.fieldSize = a.fieldSize

/-- Random draws that make every growth pick of a day land on the cell
`(cx, cy)`: even calls return `cx`, odd calls return `cy`. -/
def aimAt (cx cy : Int) : Rand :=
  fun i => if i % 2 = 0 then cx.toNat else cy.toNat

/-- Position of each upgrade in `upgrades`, the order of `initializeUpgrades`. -/
def UpgradeKind.index : UpgradeKind → Nat
  | .herdSpeed => 0
  | .herdSize => 1
  | .fieldSize => 2
  | .growthRate => 3
  | .dayRate => 4

/-- The upgrade the slot of `k` works on: `getUpgrade` followed by the
dereference of the pointer it returns. -/
def upgradeOf (k : UpgradeKind) (s : Game) : Option Upgrade :=
  match getUpgrade k.key s with
  | none => none
  | some i => s.upgrades[i]?

/-- Current price of the upgrade `k` (0 when the lookup fails). -/
def priceOf (k : UpgradeKind) (s : Game) : ℚ :=
  match upgradeOf k s with
  | none => 0
  | some u => u.price

/-- Current level of the upgrade `k` (0 when the lookup fails). -/
def levelOf (k : UpgradeKind) (s : Game) : Int :=
  match upgradeOf k s with
  | none => 0
  | some u => u.level

/-- Price multiplier of the upgrade `k` (1 when the lookup fails). -/
def multiplierOf (k : UpgradeKind) (s : Game) : ℚ :=
  match upgradeOf k s with
  | none => 1
  | some u => u.multiplier

/-- The guard of the slot of `k`: the upgrade is found, money covers its
price and its availability closure answers true. -/
def buySucceeds (k : UpgradeKind) (s : Game) : Bool :=
  match upgradeOf k s with
  | none => false
  | some u => decide (s.money ≥ u.price) && canBuy u.kind s

/-- Prices are positive doubles, levels are not negative and the multipliers
are the constants of the class declaration. -/
def PricesOk (s : Game) : Prop :=
  (∀ u ∈ s.upgrades, 0 < u.price ∧ 0 ≤ u.level ∧ roundDouble u.price = u.price) ∧
  s.upgrades.map (fun u => u.multiplier)
    = [2.0, sizeMultiplier, 2.5, growthMultiplier, dayMultiplier]

/-- Number of commands of the run `as` from `s` that are successful purchases
of the upgrade `k`. -/
def countBuys (k : UpgradeKind) : List Action → Game → Nat
  | [], _ => 0
  | a :: as, s =>
      (match a with
        | .buy k2 _ => if k2 = k ∧ buySucceeds k s = true then 1 else 0
        | .tick _ _ => 0)
      + countBuys k as (a.apply s)

/-- The grid `generateField` builds for zoom index `z` from the draws `r`:
`n x n` cells with `n = width / fieldSizes[z]`, cell `(i, j)` holding draw
number `i * n + j` modulo `maxGrowth`. -/
def freshGrid (z : Int) (r : Rand) : List (List Int) :=
  (List.range (width / fieldSizeAt z).toNat).map (fun i =>
    (List.range (height / fieldSizeAt z).toNat).map (fun j =>
      ((r (i * (height / fieldSizeAt z).toNat + j) : Nat) : Int) % maxGrowth))

/-- The cells `growthDay` picks from the draws `r`, in picking order. -/
def growthPicks (r : Rand) (s : Game) : List (Int × Int) :=
  (List.range s.growthAmount.toNat).map (fun i =>
    (((r (2 * i) : Nat) : Int) % gridWidth s, ((r (2 * i + 1) : Nat) : Int) % gridHeight s))

/-- The access `grid[x][y]` stays inside the outer and the inner vector. -/
def InBounds (g : List (List Int)) (x y : Int) : Prop :=
  0 ≤ x ∧ 0 ≤ y ∧ x.toNat < g.length ∧ y.toNat < (g.getD x.toNat []).length

/-- Number of sub-moves of one full sweep of a `w x h` herd over a `W x H`
grid: `⌈W / w⌉` strips of `H - h + 1` rows each. -/
def sweepPeriod (W H w h : Int) : Nat :=
  ((W + w - 1) / w).toNat * ((H - h).toNat + 1)

/-- The double `m` after `k` successive additions of `v`, each of them rounded
to double. -/
def addRounded (v : ℚ) (k : Nat) (m : ℚ) : ℚ :=
  (fun x => roundDouble (x + v))^[k] m

/-- The timer ticks with the given clock readings and random draws. -/
def ticks (ts : List (Int × Rand)) : List Action :=
  ts.map (fun p => Action.tick p.1 p.2)

/-- The double `m` after the values `vs` have been added to it one after the
other, each sum rounded to double. -/
def addValues (vs : List ℚ) (m : ℚ) : ℚ :=
  vs.foldl (fun x v => roundDouble (x + v)) m

/-! ## Rounding to double -/

theorem roundHalfEven_bounds (y : ℚ) :
    ⌊y⌋ ≤ roundHalfEven y ∧ roundHalfEven y ≤ ⌊y⌋ + 1 := by
  unfold roundHalfEven
  split_ifs <;> omega

theorem roundHalfEven_intCast (n : Int) : roundHalfEven (n : ℚ) = n := by
  unfold roundHalfEven
  simp

theorem roundHalfEven_err (y : ℚ) : |(roundHalfEven y : ℚ) - y| ≤ 1 / 2 := by
  have h1 := Int.floor_le y
  have h2 := Int.lt_floor_add_one y
  unfold roundHalfEven
  rw [abs_le]
  split_ifs with a b c
  · constructor <;> linarith
  · push_cast; constructor <;> linarith
  · constructor <;> linarith
  · push_cast; constructor <;> linarith

theorem roundHalfEven_near (y : ℚ) (n : Int) (h : |y - (n : ℚ)| < 1 / 2) :
    roundHalfEven y = n := by
  rw [abs_lt] at h
  have e := roundHalfEven_err y
  rw [abs_le] at e
  have h1 : ((roundHalfEven y - n : Int) : ℚ) < 1 := by push_cast; linarith
  have h2 : (-1 : ℚ) < ((roundHalfEven y - n : Int) : ℚ) := by push_cast; linarith
  have h3 : roundHalfEven y - n < 1 := by exact_mod_cast h1
  have h4 : -1 < roundHalfEven y - n := by exact_mod_cast h2
  omega

theorem roundHalfEven_mono (x y : ℚ) (h : x ≤ y) : roundHalfEven x ≤ roundHalfEven y := by
  have hf : ⌊x⌋ ≤ ⌊y⌋ := Int.floor_mono h
  rcases lt_or_eq_of_le hf with hlt | heq
  · have := (roundHalfEven_bounds x).2
    have := (roundHalfEven_bounds y).1
    omega
  · unfold roundHalfEven
    rw [heq]
    split_ifs <;> first | omega | (exfalso; linarith)


theorem scaled_bounds (q : ℚ) (hq : 0 < q) :
    (2 : ℚ) ^ (52 : Nat) ≤ q / (2 : ℚ) ^ (Int.log 2 q - 52) ∧
    q / (2 : ℚ) ^ (Int.log 2 q - 52) < (2 : ℚ) ^ (53 : Nat) := by
  have h1 : ((2 : Nat) : ℚ) ^ Int.log 2 q ≤ q := Int.zpow_log_le_self (by decide) hq
  have h2 : q < ((2 : Nat) : ℚ) ^ (Int.log 2 q + 1) := Int.lt_zpow_succ_log_self (by decide) q
  push_cast at h1 h2
  have hp : (0 : ℚ) < (2 : ℚ) ^ (Int.log 2 q - 52) := zpow_pos (by norm_num) _
  have e1 : (2 : ℚ) ^ Int.log 2 q = (2 : ℚ) ^ (52 : Nat) * (2 : ℚ) ^ (Int.log 2 q - 52) := by
    rw [← zpow_natCast, ← zpow_add₀ (by norm_num)]
    congr 1
    push_cast
    ring
  have e2 : (2 : ℚ) ^ (Int.log 2 q + 1) = (2 : ℚ) ^ (53 : Nat) * (2 : ℚ) ^ (Int.log 2 q - 52) := by
    rw [← zpow_natCast, ← zpow_add₀ (by norm_num)]
    congr 1
    push_cast
    ring
  constructor
  · rw [le_div_iff₀ hp, ← e1]
    exact h1
  · rw [div_lt_iff₀ hp, ← e2]
    exact h2

theorem roundDouble_zero : roundDouble 0 = 0 := by
  unfold roundDouble
  rw [if_pos rfl]

theorem roundDouble_of_pos (q : ℚ) (hq : 0 < q) :
    roundDouble q = (roundHalfEven (q / (2 : ℚ) ^ (Int.log 2 q - 52)) : ℚ)
      * (2 : ℚ) ^ (Int.log 2 q - 52) := by
  unfold roundDouble
  rw [if_neg (ne_of_gt hq), abs_of_pos hq]

theorem roundHalfEven_scaled (q : ℚ) (hq : 0 < q) :
    (2 : Int) ^ (52 : Nat) ≤ roundHalfEven (q / (2 : ℚ) ^ (Int.log 2 q - 52)) ∧
    roundHalfEven (q / (2 : ℚ) ^ (Int.log 2 q - 52)) ≤ (2 : Int) ^ (53 : Nat) := by
  obtain ⟨h1, h2⟩ := scaled_bounds q hq
  constructor
  · have := roundHalfEven_mono _ _ h1
    have e : roundHalfEven ((2 : ℚ) ^ (52 : Nat)) = (2 : Int) ^ (52 : Nat) := by
      have := roundHalfEven_intCast ((2 : Int) ^ (52 : Nat))
      push_cast at this
      exact this
    rw [e] at this
    exact this
  · have := roundHalfEven_mono _ _ (le_of_lt h2)
    have e : roundHalfEven ((2 : ℚ) ^ (53 : Nat)) = (2 : Int) ^ (53 : Nat) := by
      have := roundHalfEven_intCast ((2 : Int) ^ (53 : Nat))
      push_cast at this
      exact this
    rw [e] at this
    exact this

/-- A positive value rounds into the closed binade it lies in. -/
theorem roundDouble_binade (q : ℚ) (hq : 0 < q) :
    (2 : ℚ) ^ Int.log 2 q ≤ roundDouble q ∧ roundDouble q ≤ (2 : ℚ) ^ (Int.log 2 q + 1) := by
  obtain ⟨h1, h2⟩ := roundHalfEven_scaled q hq
  have hp : (0 : ℚ) < (2 : ℚ) ^ (Int.log 2 q - 52) := zpow_pos (by norm_num) _
  have e1 : (2 : ℚ) ^ Int.log 2 q = (2 : ℚ) ^ (52 : Nat) * (2 : ℚ) ^ (Int.log 2 q - 52) := by
    rw [← zpow_natCast, ← zpow_add₀ (by norm_num)]
    congr 1
    push_cast
    ring
  have e2 : (2 : ℚ) ^ (Int.log 2 q + 1) = (2 : ℚ) ^ (53 : Nat) * (2 : ℚ) ^ (Int.log 2 q - 52) := by
    rw [← zpow_natCast, ← zpow_add₀ (by norm_num)]
    congr 1
    push_cast
    ring
  have c1 : ((2 : ℚ) ^ (52 : Nat)) ≤ (roundHalfEven (q / (2 : ℚ) ^ (Int.log 2 q - 52)) : ℚ) := by
    exact_mod_cast h1
  have c2 : (roundHalfEven (q / (2 : ℚ) ^ (Int.log 2 q - 52)) : ℚ) ≤ ((2 : ℚ) ^ (53 : Nat)) := by
    exact_mod_cast h2
  rw [roundDouble_of_pos q hq, e1, e2]
  exact ⟨mul_le_mul_of_nonneg_right c1 (le_of_lt hp), mul_le_mul_of_nonneg_right c2 (le_of_lt hp)⟩

theorem roundDouble_pos (q : ℚ) (hq : 0 < q) : 0 < roundDouble q :=
  lt_of_lt_of_le (zpow_pos (by norm_num) _) (roundDouble_binade q hq).1

theorem roundDouble_nonneg (q : ℚ) (hq : 0 ≤ q) : 0 ≤ roundDouble q := by
  rcases lt_or_eq_of_le hq with h | h
  · exact le_of_lt (roundDouble_pos q h)
  · rw [← h, roundDouble_zero]

theorem roundDouble_mono (x y : ℚ) (hx : 0 ≤ x) (h : x ≤ y) : roundDouble x ≤ roundDouble y := by
  rcases lt_or_eq_of_le hx with hx0 | hx0
  · have hy0 : 0 < y := lt_of_lt_of_le hx0 h
    have hl : Int.log 2 x ≤ Int.log 2 y := Int.log_mono_right hx0 h
    rcases lt_or_eq_of_le hl with hlt | heq
    · have a := (roundDouble_binade x hx0).2
      have b := (roundDouble_binade y hy0).1
      have c : (2 : ℚ) ^ (Int.log 2 x + 1) ≤ (2 : ℚ) ^ Int.log 2 y :=
        zpow_le_zpow_right₀ (by norm_num) (by omega)
      linarith
    · rw [roundDouble_of_pos x hx0, roundDouble_of_pos y hy0, heq]
      have hp : (0 : ℚ) < (2 : ℚ) ^ (Int.log 2 y - 52) := zpow_pos (by norm_num) _
      apply mul_le_mul_of_nonneg_right _ (le_of_lt hp)
      have := roundHalfEven_mono (x / (2 : ℚ) ^ (Int.log 2 y - 52))
        (y / (2 : ℚ) ^ (Int.log 2 y - 52)) (div_le_div_of_nonneg_right h (le_of_lt hp))
      exact_mod_cast this
  · rw [← hx0, roundDouble_zero]
    exact roundDouble_nonneg y (le_trans hx h)


theorem log_eq_of_bounds (q : ℚ) (k : Int) (hq : 0 < q) (h1 : (2 : ℚ) ^ k ≤ q)
    (h2 : q < (2 : ℚ) ^ (k + 1)) : Int.log 2 q = k := by
  have a : k ≤ Int.log 2 q := by
    rw [← Int.zpow_le_iff_le_log (by decide) hq]
    push_cast
    exact h1
  have b : Int.log 2 q < k + 1 := by
    rw [← Int.lt_zpow_iff_log_lt (by decide) hq]
    push_cast
    exact h2
  omega

/-- Evaluation of `roundDouble` from the binade of the value and the nearest
integer to its scaled significand. -/
theorem roundDouble_eval (q : ℚ) (k n : Int) (hq : 0 < q) (h1 : (2 : ℚ) ^ k ≤ q)
    (h2 : q < (2 : ℚ) ^ (k + 1)) (hn : |q / (2 : ℚ) ^ (k - 52) - (n : ℚ)| < 1 / 2) :
    roundDouble q = (n : ℚ) * (2 : ℚ) ^ (k - 52) := by
  rw [roundDouble_of_pos q hq, log_eq_of_bounds q k hq h1 h2, roundHalfEven_near _ n hn]

/-- A value whose scaled significand is an integer is a double. -/
theorem roundDouble_exact (q : ℚ) (k n : Int) (hq : 0 < q) (h1 : (2 : ℚ) ^ k ≤ q)
    (h2 : q < (2 : ℚ) ^ (k + 1)) (hn : q = (n : ℚ) * (2 : ℚ) ^ (k - 52)) :
    roundDouble q = q := by
  have hp : (0 : ℚ) < (2 : ℚ) ^ (k - 52) := zpow_pos (by norm_num) _
  have e : q / (2 : ℚ) ^ (k - 52) = (n : ℚ) := by
    rw [div_eq_iff (ne_of_gt hp)]
    exact hn
  rw [roundDouble_eval q k n hq h1 h2 (by rw [e]; simp), ← hn]

theorem roundDouble_idem (q : ℚ) (hq : 0 < q) : roundDouble (roundDouble q) = roundDouble q := by
  obtain ⟨r1, r2⟩ := roundHalfEven_scaled q hq
  obtain ⟨b1, b2⟩ := roundDouble_binade q hq
  have hv := roundDouble_of_pos q hq
  have hpos := roundDouble_pos q hq
  rcases lt_or_eq_of_le r2 with hlt | heq
  · refine roundDouble_exact (roundDouble q) (Int.log 2 q) _ hpos b1 ?_ hv
    have hp : (0 : ℚ) < (2 : ℚ) ^ (Int.log 2 q - 52) := zpow_pos (by norm_num) _
    have e2 : (2 : ℚ) ^ (Int.log 2 q + 1)
        = (2 : ℚ) ^ (53 : Nat) * (2 : ℚ) ^ (Int.log 2 q - 52) := by
      rw [← zpow_natCast, ← zpow_add₀ (by norm_num)]
      congr 1
      push_cast
      ring
    rw [hv, e2]
    apply mul_lt_mul_of_pos_right _ hp
    exact_mod_cast hlt
  · have e2 : (2 : ℚ) ^ (Int.log 2 q + 1)
        = (2 : ℚ) ^ (53 : Nat) * (2 : ℚ) ^ (Int.log 2 q - 52) := by
      rw [← zpow_natCast, ← zpow_add₀ (by norm_num)]
      congr 1
      push_cast
      ring
    have hv2 : roundDouble q = (2 : ℚ) ^ (Int.log 2 q + 1) := by
      rw [hv, heq, e2]
      push_cast
      rfl
    refine roundDouble_exact (roundDouble q) (Int.log 2 q + 1) ((2 : Int) ^ (52 : Nat)) hpos
      (le_of_eq hv2.symm) ?_ ?_
    · rw [hv2]
      exact zpow_lt_zpow_right₀ (by norm_num) (by omega)
    · have e3 : (((2 : Int) ^ (52 : Nat) : Int) : ℚ) = (2 : ℚ) ^ (52 : Int) := by norm_num
      rw [hv2, e3, ← zpow_add₀ (by norm_num)]
      congr 1
      ring

theorem roundDouble_idem_nonneg (q : ℚ) (hq : 0 ≤ q) :
    roundDouble (roundDouble q) = roundDouble q := by
  rcases lt_or_eq_of_le hq with h | h
  · exact roundDouble_idem q h
  · rw [← h, roundDouble_zero, roundDouble_zero]

theorem roundDouble_neg_of_neg (q : ℚ) (hq : q < 0) : roundDouble q < 0 := by
  have hq2 : 0 < -q := by linarith
  obtain ⟨h1, _⟩ := scaled_bounds (-q) hq2
  have hp : (0 : ℚ) < (2 : ℚ) ^ (Int.log 2 (-q) - 52) := zpow_pos (by norm_num) _
  unfold roundDouble
  rw [if_neg (ne_of_lt hq), abs_of_neg hq]
  apply mul_neg_of_neg_of_pos _ hp
  have hb := (roundHalfEven_bounds (q / (2 : ℚ) ^ (Int.log 2 (-q) - 52))).2
  have hf := Int.floor_le (q / (2 : ℚ) ^ (Int.log 2 (-q) - 52))
  have hy : q / (2 : ℚ) ^ (Int.log 2 (-q) - 52) ≤ -(2 : ℚ) ^ (52 : Nat) := by
    rw [neg_div] at h1
    linarith
  have hb' : (roundHalfEven (q / (2 : ℚ) ^ (Int.log 2 (-q) - 52)) : ℚ)
      ≤ (⌊q / (2 : ℚ) ^ (Int.log 2 (-q) - 52)⌋ : ℚ) + 1 := by exact_mod_cast hb
  have : (2 : ℚ) ^ (52 : Nat) > 1 := by norm_num
  linarith

/-- A double that is not negative rounds to itself and came from a value that
is not negative. -/
theorem roundDouble_idem_of_nonneg_result (q : ℚ) (h : 0 ≤ roundDouble q) :
    roundDouble (roundDouble q) = roundDouble q := by
  by_cases hq : 0 ≤ q
  · exact roundDouble_idem_nonneg q hq
  · exact absurd (roundDouble_neg_of_neg q (not_le.mp hq)) (not_lt.mpr h)

theorem roundDouble_natCast (n : Nat) (h : n < 2 ^ 53) : roundDouble (n : ℚ) = (n : ℚ) := by
  rcases Nat.eq_zero_or_pos n with h0 | hpos
  · rw [h0]; exact roundDouble_zero
  · have hq : (0 : ℚ) < (n : ℚ) := by exact_mod_cast hpos
    have hl : Nat.log 2 n < 53 := Nat.log_lt_of_lt_pow (by omega) h
    have b1 : 2 ^ Nat.log 2 n ≤ n := Nat.pow_log_le_self 2 (by omega)
    have b2 : n < 2 ^ (Nat.log 2 n + 1) := Nat.lt_pow_succ_log_self (by decide) n
    refine roundDouble_exact (n : ℚ) (Nat.log 2 n : Int) ((n * 2 ^ (52 - Nat.log 2 n) : Nat) : Int)
      hq ?_ ?_ ?_
    · rw [zpow_natCast]
      exact_mod_cast b1
    · have : ((Nat.log 2 n : Int) + 1) = ((Nat.log 2 n + 1 : Nat) : Int) := by push_cast; rfl
      rw [this, zpow_natCast]
      exact_mod_cast b2
    · have e : ((Nat.log 2 n : Int) - 52) = -((52 - Nat.log 2 n : Nat) : Int) := by omega
      rw [e, zpow_neg, zpow_natCast]
      push_cast
      have hp : (0 : ℚ) < (2 : ℚ) ^ (52 - Nat.log 2 n) := pow_pos (by norm_num) _
      field_simp

theorem roundDouble_err (q : ℚ) (hq : 0 < q) :
    |roundDouble q - q| ≤ q / (2 : ℚ) ^ (53 : Nat) := by
  have hp : (0 : ℚ) < (2 : ℚ) ^ (Int.log 2 q - 52) := zpow_pos (by norm_num) _
  have h1 : ((2 : Nat) : ℚ) ^ Int.log 2 q ≤ q := Int.zpow_log_le_self (by decide) hq
  push_cast at h1
  have e1 : (2 : ℚ) ^ Int.log 2 q = (2 : ℚ) ^ (52 : Nat) * (2 : ℚ) ^ (Int.log 2 q - 52) := by
    rw [← zpow_natCast, ← zpow_add₀ (by norm_num)]
    congr 1
    push_cast
    ring
  have herr := roundHalfEven_err (q / (2 : ℚ) ^ (Int.log 2 q - 52))
  have hv := roundDouble_of_pos q hq
  rw [e1] at h1
  generalize (2 : ℚ) ^ (Int.log 2 q - 52) = u at hp h1 herr hv
  generalize roundDouble q = v at hv
  generalize (roundHalfEven (q / u) : ℚ) = w at herr hv
  have hd : v - q = (w - q / u) * u := by
    rw [hv]
    field_simp
  rw [hd, abs_mul, abs_of_pos hp]
  have h3 : |w - q / u| * u ≤ 1 / 2 * u := mul_le_mul_of_nonneg_right herr (le_of_lt hp)
  have h4 : 1 / 2 * u ≤ q / (2 : ℚ) ^ (53 : Nat) := by
    rw [le_div_iff₀ (by norm_num)]
    have : (2 : ℚ) ^ (53 : Nat) = 2 * (2 : ℚ) ^ (52 : Nat) := by norm_num
    rw [this]
    linarith
  exact le_trans h3 h4


theorem roundHalfEven_tie (y : ℚ) (n : Int) (h : y = (n : ℚ) + 1 / 2) :
    roundHalfEven y = if n % 2 = 0 then n else n + 1 := by
  have hf : ⌊y⌋ = n := by
    rw [Int.floor_eq_iff, h]
    constructor <;> linarith
  unfold roundHalfEven
  rw [hf, h]
  have e : (n : ℚ) + 1 / 2 - (n : ℚ) = 1 / 2 := by ring
  rw [e, if_neg (lt_irrefl _), if_neg (lt_irrefl _)]

/-- Evaluation of `roundDouble` at a value halfway between two doubles. -/
theorem roundDouble_eval_tie (q : ℚ) (k n : Int) (hq : 0 < q) (h1 : (2 : ℚ) ^ k ≤ q)
    (h2 : q < (2 : ℚ) ^ (k + 1)) (hn : q / (2 : ℚ) ^ (k - 52) = (n : ℚ) + 1 / 2) :
    roundDouble q = ((if n % 2 = 0 then n else n + 1 : Int) : ℚ) * (2 : ℚ) ^ (k - 52) := by
  rw [roundDouble_of_pos q hq, log_eq_of_bounds q k hq h1 h2, roundHalfEven_tie _ n hn]

/-! ## Purchases -/

theorem onBuy_upgrades (k : UpgradeKind) (r : Rand) (s : Game) :
    (onBuy k r s).upgrades = s.upgrades := by
  cases k <;> simp [onBuy, regenerateField, generateField]
  split <;> rfl

theorem onBuy_money (k : UpgradeKind) (r : Rand) (s : Game) :
    (onBuy k r s).money = s.money := by
  cases k <;> simp [onBuy, regenerateField, generateField]
  split <;> rfl

theorem apply_buy (k : UpgradeKind) (r : Rand) (s : Game) :
    (Action.buy k r).apply s = buyNamed k.key r s := by
  cases k <;> rfl

theorem getUpgrade_lt (name : String) (s : Game) (i : Nat)
    (hi : getUpgrade name s = some i) : i < s.upgrades.length := by
  unfold getUpgrade at hi
  rw [List.findIdx?_eq_some_iff_getElem] at hi
  exact hi.1

theorem buyNamed_fail (name : String) (r : Rand) (s : Game)
    (h : ∀ i u, getUpgrade name s = some i → s.upgrades[i]? = some u →
      (s.money < u.price ∨ canBuy u.kind s = false)) :
    buyNamed name r s = s := by
  unfold buyNamed
  split
  · rfl
  · rename_i i hi
    split
    · rfl
    · rename_i u hu
      rcases h i u hi hu with hm | hc
      · rw [if_neg]
        intro hh
        exact absurd hh.1 (not_le.mpr hm)
      · rw [if_neg]
        intro hh
        rw [hc] at hh
        exact absurd hh.2 (by simp)

theorem buyNamed_success (name : String) (r : Rand) (s : Game) (i : Nat) (u : Upgrade)
    (hi : getUpgrade name s = some i) (hu : s.upgrades[i]? = some u)
    (hm : s.money ≥ u.price) (hc : canBuy u.kind s = true) :
    buyNamed name r s = purchased i u r s := by
  have hlen : i < s.upgrades.length := getUpgrade_lt name s i hi
  simp only [buyNamed, hi, hu, hm, hc, Upgrade.buy, and_self, if_true, ge_iff_le, purchased]
  simp [List.getD_eq_getElem?_getD, List.getElem?_set, hlen, onBuy_upgrades]

theorem buyNamed_cases (name : String) (r : Rand) (s : Game) :
    buyNamed name r s = s ∨
    ∃ i u, getUpgrade name s = some i ∧ s.upgrades[i]? = some u ∧ s.money ≥ u.price ∧
      canBuy u.kind s = true ∧ buyNamed name r s = purchased i u r s := by
  by_cases h : ∀ i u, getUpgrade name s = some i → s.upgrades[i]? = some u →
      (s.money < u.price ∨ canBuy u.kind s = false)
  · exact Or.inl (buyNamed_fail name r s h)
  · right
    push_neg at h
    obtain ⟨i, u, hi, hu, hm, hc⟩ := h
    refine ⟨i, u, hi, hu, hm, ?_, ?_⟩
    · simpa using hc
    · exact buyNamed_success name r s i u hi hu hm (by simpa using hc)

/-- C6: whenever the upgrade a purchase slot looks up costs more than the
money at hand, or its availability closure answers false, the slot returns
the state it was given, every field included. -/
theorem C6_failed_purchase_is_noop (k : UpgradeKind) (r : Rand) (s : Game)
    (i : Nat) (u : Upgrade)
    (hi : getUpgrade k.key s = some i) (hu : s.upgrades[i]? = some u)
    (h : s.money < u.price ∨ canBuy u.kind s = false) :
    (Action.buy k r).apply s = s := by
  rw [apply_buy]
  apply buyNamed_fail
  intro j v hj hv
  rw [hi] at hj
  cases hj
  rw [hu] at hv
  cases hv
  exact h

/-- Witness for C6: in the constructor state money is 0 and the herd speed
upgrade costs 50. -/
theorem C6_failed_purchase_is_noop_witness :
    (Action.buy .herdSpeed (fun _ => 0)).apply (initialGame (fun _ => 0) 0)
      = initialGame (fun _ => 0) 0 :=
  C6_failed_purchase_is_noop .herdSpeed (fun _ => 0) (initialGame (fun _ => 0) 0) 0
    { name := "herdSpeed", price := 50, multiplier := 2.0, level := 0, kind := .herdSpeed }
    (by decide) (by rfl) (Or.inl (by norm_num [initialGame, initializeGame, generateField]))

/-! ## Time bank -/

theorem truncToInt_of_nonneg (q : ℚ) (h : 0 ≤ q) : truncToInt q = Int.floor q := by
  simp [truncToInt, h]

theorem timeBank_no_convert (t : Int) (s : Game)
    (h : s.superExtra + ((t - s.lastDay - s.dayRate : Int) : ℚ) ≤ ((s.dayRate * 5 : Int) : ℚ)) :
    (timeBank t s).superDays = s.superDays ∧
    (timeBank t s).superExtra = s.superExtra + ((t - s.lastDay - s.dayRate : Int) : ℚ) := by
  unfold timeBank
  simp only
  rw [if_neg (not_lt.mpr h)]
  exact ⟨rfl, rfl⟩

/-- C2 (fails on the code): from the empty time bank of the constructor state
(day length 1000), a tick arriving 6000 ms after the last one banks no super
day and leaves a surplus of 5000, because 5000 does not exceed 5 * 1000. -/
theorem C2_six_nominal_banks_nothing :
    (initialGame (fun _ => 0) 0).superExtra = 0 ∧
    (initialGame (fun _ => 0) 0).superDays = 0 ∧
    (6000 : Int) - (initialGame (fun _ => 0) 0).lastDay
      = 6 * (initialGame (fun _ => 0) 0).dayRate ∧
    (timeBank 6000 (initialGame (fun _ => 0) 0)).superDays = 0 ∧
    (timeBank 6000 (initialGame (fun _ => 0) 0)).superExtra = 5000 ∧
    ¬ ((timeBank 6000 (initialGame (fun _ => 0) 0)).superDays = 1 ∧
       (timeBank 6000 (initialGame (fun _ => 0) 0)).superExtra = 0) := by
  have h := timeBank_no_convert 6000 (initialGame (fun _ => 0) 0)
    (by norm_num [initialGame, initializeGame, generateField])
  refine ⟨rfl, rfl, by decide, ?_, ?_, ?_⟩
  · rw [h.1]; rfl
  · rw [h.2]; norm_num [initialGame, initializeGame, generateField]
  · rw [h.1]; intro hh; exact absurd hh.1 (by decide)

/-- C2 (amended): from an empty time bank, the time-bank step of a tick
whose elapsed time is exactly six nominal durations banks no super day and
leaves a surplus of five nominal durations. -/
theorem C2_six_nominal_amended (t : Int) (s : Game)
    (he : s.superExtra = 0) (hs : s.superDays = 0)
    (ht : t - s.lastDay = 6 * s.dayRate) :
    (timeBank t s).superDays = 0 ∧
    (timeBank t s).superExtra = 5 * (s.dayRate : ℚ) := by
  have hx : ((t - s.lastDay - s.dayRate : Int) : ℚ) = 5 * (s.dayRate : ℚ) := by
    rw [ht]; push_cast; ring
  have h := timeBank_no_convert t s (by rw [hx, he]; push_cast; linarith)
  rw [h.1, h.2, hx, he, hs]
  exact ⟨rfl, by ring⟩

/-- Witness for C2 (amended): the constructor state and a tick 6000 ms later. -/
theorem C2_six_nominal_amended_witness :
    (timeBank 6000 (initialGame (fun _ => 0) 0)).superDays = 0 ∧
    (timeBank 6000 (initialGame (fun _ => 0) 0)).superExtra
      = 5 * ((initialGame (fun _ => 0) 0).dayRate : ℚ) :=
  C2_six_nominal_amended 6000 (initialGame (fun _ => 0) 0) rfl rfl (by decide)

/-! ## Grid reads and writes -/

theorem getD_set_eq {α : Type} (l : List α) (i j : Nat) (a d : α) :
    (l.set i a).getD j d = if j = i ∧ i < l.length then a else l.getD j d := by
  simp only [List.getD_eq_getElem?_getD, List.getElem?_set]
  by_cases h : i = j
  · subst h
    by_cases hl : i < l.length
    · simp [hl]
    · simp [hl, List.getElem?_eq_none (not_lt.mp hl)]
  · have h' : ¬ j = i := fun e => h e.symm
    simp [h, h']

theorem getD_getD_set (g : List (List Int)) (i j i' j' : Nat) (v : Int) :
    ((g.set i ((g.getD i []).set j v)).getD i' []).getD j' 0 =
      if i' = i ∧ j' = j ∧ i < g.length ∧ j < (g.getD i []).length then v
      else (g.getD i' []).getD j' 0 := by
  rw [getD_set_eq]
  by_cases hi : i' = i ∧ i < g.length
  · rw [if_pos hi, getD_set_eq]
    obtain ⟨rfl, hl⟩ := hi
    by_cases hj : j' = j ∧ j < (g.getD i' []).length
    · rw [if_pos hj, if_pos ⟨rfl, hj.1, hl, hj.2⟩]
    · rw [if_neg hj, if_neg]
      intro h
      exact hj ⟨h.2.1, h.2.2.2⟩
  · rw [if_neg hi, if_neg]
    intro h
    exact hi ⟨h.1, h.2.2.1⟩

theorem getCell_setCell (g : List (List Int)) (x y v x' y' : Int) :
    getCell (setCell g x y v) x' y' =
      if x' = x ∧ y' = y ∧ 0 ≤ x ∧ 0 ≤ y ∧ x.toNat < g.length ∧
          y.toNat < (g.getD x.toNat []).length
      then v else getCell g x' y' := by
  unfold getCell setCell
  by_cases hxy : 0 ≤ x ∧ 0 ≤ y
  · rw [if_pos hxy]
    by_cases hxy' : 0 ≤ x' ∧ 0 ≤ y'
    · rw [if_pos hxy', if_pos hxy', getD_getD_set]
      by_cases hc : x' = x ∧ y' = y ∧ 0 ≤ x ∧ 0 ≤ y ∧ x.toNat < g.length ∧
          y.toNat < (g.getD x.toNat []).length
      · rw [if_pos hc, if_pos]
        exact ⟨by rw [hc.1], by rw [hc.2.1], hc.2.2.2.2.1, hc.2.2.2.2.2⟩
      · rw [if_neg hc, if_neg]
        intro h
        apply hc
        refine ⟨?_, ?_, hxy.1, hxy.2, h.2.2.1, h.2.2.2⟩
        · have := h.1; omega
        · have := h.2.1; omega
    · rw [if_neg hxy', if_neg hxy', if_neg]
      intro h
      exact hxy' ⟨h.1 ▸ h.2.2.1, h.2.1 ▸ h.2.2.2.1⟩
  · have hn : ¬ (x' = x ∧ y' = y ∧ 0 ≤ x ∧ 0 ≤ y ∧ x.toNat < g.length ∧
        y.toNat < (g.getD x.toNat []).length) := fun h => hxy ⟨h.2.2.1, h.2.2.2.1⟩
    rw [if_neg hxy, if_neg hn]

theorem getCell_pos_inbounds (g : List (List Int)) (x y : Int) (h : getCell g x y ≠ 0) :
    0 ≤ x ∧ 0 ≤ y ∧ x.toNat < g.length ∧ y.toNat < (g.getD x.toNat []).length := by
  unfold getCell at h
  by_cases hxy : 0 ≤ x ∧ 0 ≤ y
  · rw [if_pos hxy] at h
    refine ⟨hxy.1, hxy.2, ?_, ?_⟩
    · by_contra hl
      simp [List.getD_eq_getElem?_getD, List.getElem?_eq_none (not_lt.mp hl)] at h
    · by_contra hl
      rw [List.getD_eq_getElem?_getD (g.getD x.toNat []), List.getElem?_eq_none (not_lt.mp hl)] at h
      simp at h
  · rw [if_neg hxy] at h
    exact absurd rfl h

/-! ## Harvest -/

theorem sameHerd_refl (s : Game) : sameHerd s s :=
  ⟨rfl, rfl, rfl, rfl, rfl, rfl, rfl, rfl, rfl, rfl, rfl, rfl⟩

theorem sameHerd_trans {s t u : Game} (h1 : sameHerd s t) (h2 : sameHerd t u) :
    sameHerd s u := by
  obtain ⟨a1, a2, a3, a4, a5, a6, a7, a8, a9, a10, a11, a12⟩ := h1
  obtain ⟨b1, b2, b3, b4, b5, b6, b7, b8, b9, b10, b11, b12⟩ := h2
  exact ⟨b1.trans a1, b2.trans a2, b3.trans a3, b4.trans a4, b5.trans a5, b6.trans a6,
    b7.trans a7, b8.trans a8, b9.trans a9, b10.trans a10, b11.trans a11, b12.trans a12⟩

theorem harvestCell_sameHerd (gw gh : Int) (s : Game) (x y : Int) :
    sameHerd s (harvestCell gw gh s x y) := by
  unfold harvestCell
  split
  · exact ⟨rfl, rfl, rfl, rfl, rfl, rfl, rfl, rfl, rfl, rfl, rfl, rfl⟩
  · exact sameHerd_refl s

theorem harvestList_sameHerd (gw gh : Int) (cs : List (Int × Int)) (s : Game) :
    sameHerd s (harvestList gw gh cs s) := by
  induction cs generalizing s with
  | nil => exact sameHerd_refl s
  | cons c cs ih =>
      exact sameHerd_trans (harvestCell_sameHerd gw gh s c.1 c.2) (ih _)

theorem foldl_congr_inv {α β : Type} (P : β → Prop) (f g : β → α → β)
    (hg : ∀ b a, P b → P (g b a)) (hfg : ∀ b a, P b → f b a = g b a) :
    ∀ (l : List α) (b : β), P b → l.foldl f b = l.foldl g b ∧ P (l.foldl g b) := by
  intro l
  induction l with
  | nil => intro b hb; exact ⟨rfl, hb⟩
  | cons a l ih =>
      intro b hb
      simp only [List.foldl_cons]
      rw [hfg b a hb]
      exact ih (g b a) (hg b a hb)

theorem harvest_eq_harvestList (gw gh : Int) (s : Game) :
    harvest gw gh s = harvestList gw gh (herdCells s) s := by
  unfold harvest harvestList herdCells
  rw [List.flatMap, List.foldl_flatten, List.foldl_map]
  refine (foldl_congr_inv (fun st => sameHerd s st) _ _ ?_ ?_ _ s (sameHerd_refl s)).1
  · intro b a hb
    rw [List.foldl_map]
    have := (foldl_congr_inv (fun st => sameHerd s st)
      (fun (x : Game) (y : Nat) => harvestCell gw gh x ((a : Int) + s.herdX) ((y : Int) + s.herdY))
      (fun (x : Game) (y : Nat) => harvestCell gw gh x ((a : Int) + s.herdX) ((y : Int) + s.herdY))
      (fun b2 y hb2 => sameHerd_trans hb2 (harvestCell_sameHerd gw gh b2 _ _))
      (fun _ _ _ => rfl) (List.range s.herdHeight.toNat) b hb).2
    exact this
  · intro b a hb
    rw [List.foldl_map, hb.2.2.2.1]
    refine (foldl_congr_inv (fun st => sameHerd s st) _ _ ?_ ?_ _ b hb).1
    · intro b2 y hb2
      exact sameHerd_trans hb2 (harvestCell_sameHerd gw gh b2 _ _)
    · intro b2 y hb2
      rw [hb2.1, hb2.2.1]

theorem harvestCell_ripe (gw gh : Int) (s : Game) (c : Int × Int)
    (h : ripe gw gh s.grid c = true) :
    harvestCell gw gh s c.1 c.2 =
      { s with grid := setCell s.grid c.1 c.2 0,
               money := roundDouble (s.money + (if s.superDays > 0 then 5 else 1)),
               totalMoney := roundDouble (s.totalMoney + (if s.superDays > 0 then 5 else 1)),
               totalCleared := roundDouble (s.totalCleared + 1),
               superDays := if s.superDays > 0 then s.superDays - 1 else s.superDays } := by
  unfold ripe at h
  simp only [Bool.and_eq_true, decide_eq_true_eq] at h
  unfold harvestCell
  rw [if_pos ⟨h.1, h.2.1, h.2.2⟩]
  simp

theorem harvestCell_not_ripe (gw gh : Int) (s : Game) (c : Int × Int)
    (h : ripe gw gh s.grid c = false) :
    harvestCell gw gh s c.1 c.2 = s := by
  unfold harvestCell
  rw [if_neg]
  intro hh
  have : ripe gw gh s.grid c = true := by
    unfold ripe
    simp only [Bool.and_eq_true, decide_eq_true_eq]
    exact ⟨hh.1, hh.2.1, hh.2.2⟩
  rw [h] at this
  exact absurd this (by simp)

theorem getCell_setCell_ne (g : List (List Int)) (c c' : Int × Int) (v : Int)
    (hne : c' ≠ c) : getCell (setCell g c.1 c.2 v) c'.1 c'.2 = getCell g c'.1 c'.2 := by
  rw [getCell_setCell, if_neg]
  intro h
  exact hne (Prod.ext h.1 h.2.1)

theorem getCell_setCell_ripe (gw gh : Int) (g : List (List Int)) (c : Int × Int) (v : Int)
    (h : ripe gw gh g c = true) : getCell (setCell g c.1 c.2 v) c.1 c.2 = v := by
  unfold ripe at h
  simp only [Bool.and_eq_true, decide_eq_true_eq] at h
  have hb := getCell_pos_inbounds g c.1 c.2 (by omega)
  rw [getCell_setCell, if_pos ⟨rfl, rfl, hb⟩]

theorem ripe_setCell_ne (gw gh : Int) (g : List (List Int)) (c c' : Int × Int) (v : Int)
    (hne : c' ≠ c) : ripe gw gh (setCell g c.1 c.2 v) c' = ripe gw gh g c' := by
  unfold ripe
  rw [getCell_setCell_ne g c c' v hne]

theorem countP_ripe_setCell (gw gh : Int) (g : List (List Int)) (c : Int × Int) (v : Int)
    (cs : List (Int × Int)) (hc : c ∉ cs) :
    cs.countP (ripe gw gh (setCell g c.1 c.2 v)) = cs.countP (ripe gw gh g) := by
  induction cs with
  | nil => rfl
  | cons d cs ih =>
      have hd : d ≠ c := fun e => hc (by rw [e]; exact List.mem_cons_self _ _)
      have hcs : c ∉ cs := fun e => hc (List.mem_cons_of_mem _ e)
      rw [List.countP_cons, List.countP_cons, ih hcs, ripe_setCell_ne gw gh g c d v hd]

theorem addRounded_zero (v m : ℚ) : addRounded v 0 m = m := rfl

theorem addRounded_succ (v : ℚ) (k : Nat) (m : ℚ) :
    addRounded v (k + 1) m = addRounded v k (roundDouble (m + v)) := by
  unfold addRounded
  rw [Function.iterate_succ_apply]

/-- Additions of a natural number to a natural number are exact as long as
the sum stays below 2^53. -/
theorem addRounded_natCast (v k : Nat) :
    ∀ (a : Nat), a + k * v < 2 ^ 53 → addRounded (v : ℚ) k (a : ℚ) = ((a + k * v : Nat) : ℚ) := by
  induction k with
  | zero => intro a _; simp [addRounded_zero]
  | succ k ih =>
      intro a h
      have h1 : a + v < 2 ^ 53 := by
        have : v ≤ (k + 1) * v := Nat.le_mul_of_pos_left v (Nat.succ_pos k)
        omega
      have e : roundDouble ((a : ℚ) + (v : ℚ)) = ((a + v : Nat) : ℚ) := by
        have := roundDouble_natCast (a + v) h1
        push_cast at this ⊢
        exact this
      have h2 : a + v + k * v < 2 ^ 53 := by
        have : (k + 1) * v = k * v + v := Nat.succ_mul k v
        omega
      rw [addRounded_succ, e, ih (a + v) h2]
      congr 1
      have : (k + 1) * v = k * v + v := Nat.succ_mul k v
      omega

theorem harvestList_spec (gw gh : Int) (cs : List (Int × Int)) (hnd : cs.Nodup) :
    ∀ (s : Game),
      (harvestList gw gh cs s).money
        = addRounded 1
            (cs.countP (ripe gw gh s.grid)
              - min (cs.countP (ripe gw gh s.grid)) s.superDays.toNat)
            (addRounded 5 (min (cs.countP (ripe gw gh s.grid)) s.superDays.toNat) s.money) ∧
      (harvestList gw gh cs s).totalMoney
        = addRounded 1
            (cs.countP (ripe gw gh s.grid)
              - min (cs.countP (ripe gw gh s.grid)) s.superDays.toNat)
            (addRounded 5 (min (cs.countP (ripe gw gh s.grid)) s.superDays.toNat)
              s.totalMoney) ∧
      (harvestList gw gh cs s).totalCleared
        = addRounded 1 (cs.countP (ripe gw gh s.grid)) s.totalCleared ∧
      (harvestList gw gh cs s).superDays
        = s.superDays - ((min (cs.countP (ripe gw gh s.grid)) s.superDays.toNat : Nat) : Int) ∧
      ∀ x y, getCell (harvestList gw gh cs s).grid x y =
        if (x, y) ∈ cs ∧ ripe gw gh s.grid (x, y) = true then 0 else getCell s.grid x y := by
  induction cs with
  | nil =>
      intro s
      simp [harvestList, addRounded_zero]
  | cons c cs ih =>
      intro s
      have hc : c ∉ cs := (List.nodup_cons.mp hnd).1
      have hstep : harvestList gw gh (c :: cs) s
          = harvestList gw gh cs (harvestCell gw gh s c.1 c.2) := rfl
      rw [hstep]
      cases hr : ripe gw gh s.grid c with
      | false =>
          rw [harvestCell_not_ripe gw gh s c hr]
          obtain ⟨h1, h2, h3, h4, h5⟩ := ih (List.nodup_cons.mp hnd).2 s
          rw [List.countP_cons, hr]
          simp only [Bool.false_eq_true, if_false, Nat.add_zero]
          refine ⟨h1, h2, h3, h4, ?_⟩
          intro x y
          rw [h5 x y]
          by_cases hxy : (x, y) = c
          · have : ripe gw gh s.grid (x, y) = false := by rw [hxy]; exact hr
            simp [this]
          · simp [hxy]
      | true =>
          obtain ⟨h1, h2, h3, h4, h5⟩ := ih (List.nodup_cons.mp hnd).2
            (harvestCell gw gh s c.1 c.2)
          rw [harvestCell_ripe gw gh s c hr] at h1 h2 h3 h4 h5 ⊢
          simp only [countP_ripe_setCell gw gh s.grid c 0 cs hc] at h1 h2 h3 h4 h5
          rw [List.countP_cons, hr]
          simp only [if_true]
          generalize cs.countP (ripe gw gh s.grid) = n at h1 h2 h3 h4 h5 ⊢
          by_cases hp : s.superDays > 0
          · simp only [hp, if_true] at h1 h2 h3 h4 h5 ⊢
            have hk : min (n + 1) s.superDays.toNat = min n (s.superDays - 1).toNat + 1 := by
              omega
            have hd : n + 1 - (min n (s.superDays - 1).toNat + 1)
                = n - min n (s.superDays - 1).toNat := by omega
            rw [hk, hd, addRounded_succ, addRounded_succ, addRounded_succ]
            refine ⟨h1, h2, h3, ?_, ?_⟩
            · rw [h4]; push_cast; omega
            · intro x y
              rw [h5 x y]
              by_cases hxy : (x, y) = c
              · have hm : (x, y) ∉ cs := by rw [hxy]; exact hc
                have hr2 : ripe gw gh s.grid (x, y) = true := by rw [hxy]; exact hr
                have hx : x = c.1 := by rw [← hxy]
                have hy : y = c.2 := by rw [← hxy]
                rw [if_neg (fun h => hm h.1),
                  if_pos ⟨by rw [hxy]; exact List.mem_cons_self _ _, hr2⟩]
                rw [hx, hy]
                exact getCell_setCell_ripe gw gh s.grid c 0 hr
              · have e1 := getCell_setCell_ne s.grid c (x, y) 0 hxy
                have e2 := ripe_setCell_ne gw gh s.grid c (x, y) 0 hxy
                simp only at e1
                rw [e1, e2]
                simp [hxy]
          · simp only [hp, if_false] at h1 h2 h3 h4 h5 ⊢
            have hk : min (n + 1) s.superDays.toNat = 0 := by omega
            have hk2 : min n s.superDays.toNat = 0 := by omega
            rw [hk2] at h1 h2 h4
            rw [hk, addRounded_zero, addRounded_zero, Nat.sub_zero, addRounded_succ,
              addRounded_succ, addRounded_succ]
            rw [addRounded_zero, Nat.sub_zero] at h1 h2
            refine ⟨h1, h2, h3, ?_, ?_⟩
            · rw [h4]
            · intro x y
              rw [h5 x y]
              by_cases hxy : (x, y) = c
              · have hm : (x, y) ∉ cs := by rw [hxy]; exact hc
                have hr2 : ripe gw gh s.grid (x, y) = true := by rw [hxy]; exact hr
                have hx : x = c.1 := by rw [← hxy]
                have hy : y = c.2 := by rw [← hxy]
                rw [if_neg (fun h => hm h.1),
                  if_pos ⟨by rw [hxy]; exact List.mem_cons_self _ _, hr2⟩]
                rw [hx, hy]
                exact getCell_setCell_ripe gw gh s.grid c 0 hr
              · have e1 := getCell_setCell_ne s.grid c (x, y) 0 hxy
                have e2 := ripe_setCell_ne gw gh s.grid c (x, y) 0 hxy
                simp only at e1
                rw [e1, e2]
                simp [hxy]

theorem mem_herdCells (s : Game) (x y : Int) :
    (x, y) ∈ herdCells s ↔ inHerd s x y := by
  unfold herdCells inHerd
  simp only [List.mem_flatMap, List.mem_map, List.mem_range, Prod.mk.injEq]
  constructor
  · rintro ⟨a, ha, b, hb, rfl, rfl⟩
    omega
  · intro h
    exact ⟨(x - s.herdX).toNat, by omega, (y - s.herdY).toNat, by omega, by omega, by omega⟩

theorem nodup_herdCells (s : Game) : (herdCells s).Nodup := by
  unfold herdCells
  rw [List.nodup_flatMap]
  constructor
  · intro a _
    apply List.Nodup.map _ (List.nodup_range _)
    intro b1 b2 h
    simp only [Prod.mk.injEq] at h
    omega
  · apply List.Pairwise.imp _ (List.nodup_range _)
    intro a1 a2 hne
    simp only [Function.onFun]
    rw [List.disjoint_left]
    intro c h1 h2
    simp only [List.mem_map, List.mem_range] at h1 h2
    obtain ⟨b1, _, rfl⟩ := h1
    obtain ⟨b2, _, h⟩ := h2
    simp only [Prod.mk.injEq] at h
    omega

theorem moveHerd_frame (gw gh : Int) (s : Game) :
    (moveHerd gw gh s).money = s.money ∧ (moveHerd gw gh s).totalMoney = s.totalMoney ∧
    (moveHerd gw gh s).totalCleared = s.totalCleared ∧
    (moveHerd gw gh s).superDays = s.superDays ∧ (moveHerd gw gh s).grid = s.grid ∧
    (moveHerd gw gh s).herdWidth = s.herdWidth ∧ (moveHerd gw gh s).herdHeight = s.herdHeight ∧
    (moveHerd gw gh s).herdSpeed = s.herdSpeed ∧
    (moveHerd gw gh s).growthAmount = s.growthAmount ∧
    (moveHerd gw gh s).fieldSize = s.fieldSize ∧ (moveHerd gw gh s).dayRate = s.dayRate ∧
    (moveHerd gw gh s).lastDay = s.lastDay ∧ (moveHerd gw gh s).superExtra = s.superExtra ∧
    (moveHerd gw gh s).upgrades = s.upgrades := by
  unfold moveHerd
  split_ifs <;> exact ⟨rfl, rfl, rfl, rfl, rfl, rfl, rfl, rfl, rfl, rfl, rfl, rfl, rfl, rfl⟩

theorem herdSubMove_spec (gw gh : Int) (s : Game) :
    (herdSubMove gw gh s).money
      = addRounded 1 (ripeCount gw gh s - min (ripeCount gw gh s) s.superDays.toNat)
          (addRounded 5 (min (ripeCount gw gh s) s.superDays.toNat) s.money) ∧
    (herdSubMove gw gh s).totalMoney
      = addRounded 1 (ripeCount gw gh s - min (ripeCount gw gh s) s.superDays.toNat)
          (addRounded 5 (min (ripeCount gw gh s) s.superDays.toNat) s.totalMoney) ∧
    (herdSubMove gw gh s).totalCleared = addRounded 1 (ripeCount gw gh s) s.totalCleared ∧
    (herdSubMove gw gh s).superDays
      = s.superDays - ((min (ripeCount gw gh s) s.superDays.toNat : Nat) : Int) ∧
    (∀ x y, getCell (herdSubMove gw gh s).grid x y =
      if inHerd s x y ∧ x < gw ∧ y < gh ∧ 5 ≤ getCell s.grid x y then 0
      else getCell s.grid x y) := by
  obtain ⟨h1, h2, h3, h4, h5⟩ := harvestList_spec gw gh (herdCells s) (nodup_herdCells s) s
  obtain ⟨m1, m2, m3, m4, m5, _⟩ := moveHerd_frame gw gh (harvest gw gh s)
  unfold herdSubMove ripeCount
  rw [m1, m2, m3, m4, m5, harvest_eq_harvestList]
  refine ⟨h1, h2, h3, h4, ?_⟩
  intro x y
  rw [h5 x y]
  have hiff : ((x, y) ∈ herdCells s ∧ ripe gw gh s.grid (x, y) = true) ↔
      (inHerd s x y ∧ x < gw ∧ y < gh ∧ 5 ≤ getCell s.grid x y) := by
    rw [mem_herdCells]
    unfold ripe
    simp only [Bool.and_eq_true, decide_eq_true_eq]
  by_cases hc : inHerd s x y ∧ x < gw ∧ y < gh ∧ 5 ≤ getCell s.grid x y
  · rw [if_pos hc, if_pos (hiff.mpr hc)]
  · rw [if_neg hc, if_neg (fun h => hc (hiff.mp h))]

/-- The sum of a natural number `a` and `n + 4 k` (with `k ≤ n`), reached by
`k` additions of 5 and `n - k` additions of 1, is exact below 2^53. -/
theorem addRounded_harvest (a n k : Nat) (hk : k ≤ n) (h : a + n + 4 * k < 2 ^ 53) :
    addRounded 1 (n - k) (addRounded 5 k (a : ℚ)) = (a : ℚ) + (n : ℚ) + 4 * (k : ℚ) := by
  have e5 := addRounded_natCast 5 k a (by omega)
  have e1 := addRounded_natCast 1 (n - k) (a + k * 5) (by omega)
  push_cast at e5 e1
  rw [e5]
  have e : ((a : ℚ) + (k : ℚ) * 5) = (((a + k * 5 : Nat) : ℚ)) := by push_cast; ring
  rw [e]
  have e1' := addRounded_natCast 1 (n - k) (a + k * 5) (by omega)
  have c1 : ((1 : Nat) : ℚ) = 1 := by norm_num
  rw [c1] at e1'
  rw [e1']
  have hnk : ((n - k : Nat) : ℚ) = (n : ℚ) - (k : ℚ) := by
    rw [Nat.cast_sub hk]
  push_cast
  rw [hnk]
  ring

/-- C5 (fails on the code): with the field of the constructor state holding 5
in every cell, no super day banked, money 8599060538510541 / 2^49 (about
15.275, the double left by 12 harvests, a growth purchase, 14 harvests, a
growth purchase and 14 more harvests) and lifetime money 40, the sub-move
harvests the one cell under the herd; lifetime money grows by 1 but money
grows by `1 - 2^-49`, because `money + 1` lies halfway between two doubles and
is rounded. -/
theorem C5_money_sum_is_rounded :
    ripeCount 10 10 { initialGame (fun _ => 5) 0 with
      money := 8599060538510541 / 562949953421312, totalMoney := 40 } = 1 ∧
    ({ initialGame (fun _ => 5) 0 with
      money := 8599060538510541 / 562949953421312, totalMoney := 40 } : Game).superDays = 0 ∧
    (herdSubMove 10 10 { initialGame (fun _ => 5) 0 with
      money := 8599060538510541 / 562949953421312, totalMoney := 40 }).totalMoney = 40 + 1 ∧
    (herdSubMove 10 10 { initialGame (fun _ => 5) 0 with
      money := 8599060538510541 / 562949953421312, totalMoney := 40 }).money
      = 8599060538510541 / 562949953421312 + 1 - 1 / 562949953421312 ∧
    (herdSubMove 10 10 { initialGame (fun _ => 5) 0 with
      money := 8599060538510541 / 562949953421312, totalMoney := 40 }).money
      ≠ 8599060538510541 / 562949953421312 + 1 := by
  have hn : ripeCount 10 10 { initialGame (fun _ => 5) 0 with
      money := 8599060538510541 / 562949953421312, totalMoney := 40 } = 1 := by decide
  obtain ⟨h1, h2, _⟩ := herdSubMove_spec 10 10 { initialGame (fun _ => 5) 0 with
      money := 8599060538510541 / 562949953421312, totalMoney := 40 }
  rw [hn] at h1 h2
  have hk : min 1 ({ initialGame (fun _ => 5) 0 with
      money := 8599060538510541 / 562949953421312, totalMoney := 40 } : Game).superDays.toNat
      = 0 := by decide
  rw [hk] at h1 h2
  have hm : (herdSubMove 10 10 { initialGame (fun _ => 5) 0 with
      money := 8599060538510541 / 562949953421312, totalMoney := 40 }).money
      = 8599060538510541 / 562949953421312 + 1 - 1 / 562949953421312 := by
    rw [h1]
    show roundDouble ((8599060538510541 / 562949953421312 : ℚ) + 1) = _
    rw [roundDouble_eval_tie _ 4 4581005245965926 (by norm_num) (by norm_num) (by norm_num)
      (by norm_num)]
    norm_num
  refine ⟨hn, rfl, ?_, hm, ?_⟩
  · rw [h2]
    show roundDouble ((40 : ℚ) + 1) = 40 + 1
    have := roundDouble_natCast 41 (by norm_num)
    norm_num at this ⊢
    exact this
  · rw [hm]
    norm_num

/-- C5 (amended): in a sub-move that finds `n` cells of the herd rectangle
passing the harvest test (inside the grid, growth level at least 5) with
`s ≥ 0` super days banked, exactly those `n` cells are set to 0 while every
other cell keeps its level, the super-day count becomes `s - min n s`, and
money, lifetime money and the cleared count are the doubles reached by adding
cell after cell, each sum rounded to double: 5 for each of the first
`min n s` cells and 1 for each of the others to money and to lifetime money,
1 per cell to the cleared count. Whenever the value before is a natural
number and the exact sum stays below 2^53, money and lifetime money grow by
exactly `n + 4 * min n s` and the cleared count by exactly `n`. -/
theorem C5_harvest_accounting (gw gh : Int) (s : Game) (hs : 0 ≤ s.superDays) :
    ((herdSubMove gw gh s).money
        = addRounded 1 (ripeCount gw gh s - (min (ripeCount gw gh s : Int) s.superDays).toNat)
            (addRounded 5 (min (ripeCount gw gh s : Int) s.superDays).toNat s.money) ∧
      (herdSubMove gw gh s).totalMoney
        = addRounded 1 (ripeCount gw gh s - (min (ripeCount gw gh s : Int) s.superDays).toNat)
            (addRounded 5 (min (ripeCount gw gh s : Int) s.superDays).toNat s.totalMoney) ∧
      (herdSubMove gw gh s).totalCleared = addRounded 1 (ripeCount gw gh s) s.totalCleared) ∧
    ((∀ a : Nat, s.money = (a : ℚ) →
        (a : Int) + (ripeCount gw gh s : Int) + 4 * min (ripeCount gw gh s : Int) s.superDays
          < 2 ^ 53 →
        (herdSubMove gw gh s).money = s.money + (ripeCount gw gh s : ℚ)
          + 4 * ((min (ripeCount gw gh s : Int) s.superDays : Int) : ℚ)) ∧
      (∀ a : Nat, s.totalMoney = (a : ℚ) →
        (a : Int) + (ripeCount gw gh s : Int) + 4 * min (ripeCount gw gh s : Int) s.superDays
          < 2 ^ 53 →
        (herdSubMove gw gh s).totalMoney = s.totalMoney + (ripeCount gw gh s : ℚ)
          + 4 * ((min (ripeCount gw gh s : Int) s.superDays : Int) : ℚ)) ∧
      (∀ a : Nat, s.totalCleared = (a : ℚ) → a + ripeCount gw gh s < 2 ^ 53 →
        (herdSubMove gw gh s).totalCleared = s.totalCleared + (ripeCount gw gh s : ℚ))) ∧
    (herdSubMove gw gh s).superDays
      = s.superDays - min (ripeCount gw gh s : Int) s.superDays ∧
    (∀ x y, getCell (herdSubMove gw gh s).grid x y =
      if inHerd s x y ∧ x < gw ∧ y < gh ∧ 5 ≤ getCell s.grid x y then 0
      else getCell s.grid x y) ∧
    (herdCells s).Nodup ∧ (∀ x y, (x, y) ∈ herdCells s ↔ inHerd s x y) := by
  obtain ⟨h1, h2, h3, h4, h5⟩ := herdSubMove_spec gw gh s
  have hk : (min (ripeCount gw gh s : Int) s.superDays).toNat
      = min (ripeCount gw gh s) s.superDays.toNat := by omega
  have hki : ((min (ripeCount gw gh s) s.superDays.toNat : Nat) : Int)
      = min (ripeCount gw gh s : Int) s.superDays := by omega
  have hkq : ((min (ripeCount gw gh s : Int) s.superDays : Int) : ℚ)
      = ((min (ripeCount gw gh s) s.superDays.toNat : Nat) : ℚ) := by
    rw [← hki]
    push_cast
    rfl
  rw [hk]
  refine ⟨⟨h1, h2, h3⟩, ⟨?_, ?_, ?_⟩, by rw [h4, hki], h5, nodup_herdCells s, mem_herdCells s⟩
  · intro a ha hb
    rw [h1, ha, hkq]
    exact addRounded_harvest a _ _ (min_le_left _ _) (by omega)
  · intro a ha hb
    rw [h2, ha, hkq]
    exact addRounded_harvest a _ _ (min_le_left _ _) (by omega)
  · intro a ha hb
    rw [h3, ha]
    have := addRounded_natCast 1 (ripeCount gw gh s) a (by omega)
    push_cast at this
    rw [this]
    ring

/-- Witness for C5 (amended), and the example of the specification: one cell
at growth 5 under a 1 x 1 herd with one super day banked and no money: money
becomes 5, the super-day count 0 and the cell 0. -/
theorem C5_harvest_accounting_witness :
    (herdSubMove 1 1 { initialGame (fun _ => 0) 0 with grid := [[5]], superDays := 1 }).money
        = 5 ∧
    (herdSubMove 1 1 { initialGame (fun _ => 0) 0 with grid := [[5]], superDays := 1 }).superDays
        = 0 ∧
    getCell
      (herdSubMove 1 1 { initialGame (fun _ => 0) 0 with grid := [[5]], superDays := 1 }).grid
      0 0 = 0 := by
  obtain ⟨_, ⟨h1, _, _⟩, h4, h5, _⟩ := C5_harvest_accounting 1 1
    { initialGame (fun _ => 0) 0 with grid := [[5]], superDays := 1 } (by decide)
  have hn : ripeCount 1 1 { initialGame (fun _ => 0) 0 with grid := [[5]], superDays := 1 } = 1 := by
    decide
  rw [hn] at h1 h4
  refine ⟨?_, ?_, ?_⟩
  · rw [h1 0 (by norm_num [initialGame, initializeGame, generateField]) (by decide)]
    norm_num [initialGame, initializeGame, generateField]
  · rw [h4]; decide
  · rw [h5 0 0]; rfl

/-! ## Grid dimensions -/

theorem gridHeight_eq_gridWidth (s : Game) : gridHeight s = gridWidth s := rfl

theorem gridWidth_cases (s : Game) (h0 : 0 ≤ s.fieldSize) (h7 : s.fieldSize ≤ 7) :
    10 ≤ gridWidth s ∧ gridWidth s ≤ 500 := by
  unfold gridWidth fieldSizeAt width
  rw [if_pos h0]
  generalize s.fieldSize = i at h0 h7
  interval_cases i <;> decide

theorem gridWidth_mono (i : Int) (h0 : 0 ≤ i) (h7 : i < 7) :
    width / fieldSizeAt i ≤ width / fieldSizeAt (i + 1) := by
  unfold fieldSizeAt width
  interval_cases i <;> decide

theorem GridOk_setCell (w h : Nat) (g : List (List Int)) (x y v : Int)
    (hg : GridOk w h g) (hv : 0 ≤ v ∧ v ≤ maxGrowth) : GridOk w h (setCell g x y v) := by
  unfold setCell
  split
  · by_cases hx : x.toNat < g.length
    · have hcol : g.getD x.toNat [] ∈ g := by
        rw [List.getD_eq_getElem?_getD, List.getElem?_eq_getElem hx]
        exact List.getElem_mem hx
      refine ⟨by rw [List.length_set]; exact hg.1, ?_⟩
      intro col hmem
      rcases List.mem_or_eq_of_mem_set hmem with h1 | h1
      · exact hg.2 col h1
      · subst h1
        refine ⟨by rw [List.length_set]; exact (hg.2 _ hcol).1, ?_⟩
        intro u hu
        rcases List.mem_or_eq_of_mem_set hu with h2 | h2
        · exact (hg.2 _ hcol).2 u h2
        · rw [h2]; exact hv
    · rw [List.set_eq_of_length_le (not_lt.mp hx)]
      exact hg
  · exact hg

theorem getCell_range (w h : Nat) (g : List (List Int)) (x y : Int) (hg : GridOk w h g) :
    0 ≤ getCell g x y ∧ getCell g x y ≤ maxGrowth := by
  by_cases h0 : getCell g x y = 0
  · rw [h0]; decide
  · obtain ⟨hx, hy, hxl, hyl⟩ := getCell_pos_inbounds g x y h0
    unfold getCell
    rw [if_pos ⟨hx, hy⟩]
    have hcol : g.getD x.toNat [] ∈ g := by
      rw [List.getD_eq_getElem?_getD, List.getElem?_eq_getElem hxl]
      exact List.getElem_mem hxl
    apply (hg.2 _ hcol).2
    rw [List.getD_eq_getElem?_getD (g.getD x.toNat []), List.getElem?_eq_getElem hyl]
    exact List.getElem_mem hyl

theorem GridOk_generateField (r : Rand) (s : Game) :
    GridOk (gridWidth s).toNat (gridHeight s).toNat (generateField r s).grid := by
  unfold generateField GridOk
  simp only [List.length_map, List.length_range, List.mem_map, List.mem_range, true_and]
  rintro col ⟨i, _, rfl⟩
  simp only [List.length_map, List.length_range, List.mem_map, List.mem_range, true_and]
  rintro v ⟨j, _, rfl⟩
  unfold maxGrowth
  omega

/-! ## The invariant -/

theorem initialGame_fields (r : Rand) (now : Int) :
    (initialGame r now).money = 0 ∧ (initialGame r now).fieldSize = 0 ∧
    (initialGame r now).herdX = 0 ∧ (initialGame r now).herdY = 0 ∧
    (initialGame r now).herdWidth = 1 ∧ (initialGame r now).herdHeight = 1 ∧
    (initialGame r now).herdSpeed = 1 ∧ (initialGame r now).growthAmount = 4 ∧
    (initialGame r now).dayRate = 1000 ∧ (initialGame r now).superDays = 0 ∧
    (initialGame r now).upgrades = initializeUpgrades ∧
    gridWidth (initialGame r now) = 10 ∧ gridHeight (initialGame r now) = 10 ∧
    (initialGame r now).totalMoney = 0 :=
  ⟨rfl, rfl, rfl, rfl, rfl, rfl, rfl, rfl, rfl, rfl, rfl, rfl, rfl, rfl⟩

theorem Inv_initialGame (r : Rand) (now : Int) : Inv (initialGame r now) := by
  obtain ⟨h1, h2, h3, h4, h5, h6, h7, h8, h9, h10, h11, h12, h13, h14⟩ :=
    initialGame_fields r now
  exact
    { money_nonneg := by rw [h1]
      money_double := by rw [h1]; exact roundDouble_zero
      total_nonneg := by rw [h14]
      total_double := by rw [h14]; exact roundDouble_zero
      zoom_lo := by rw [h2]
      zoom_hi := by rw [h2]; decide
      grid_ok := GridOk_generateField r _
      height_pos := by rw [h6]
      height_le_width := by rw [h5, h6]
      width_le_succ := by rw [h5, h6]; decide
      width_le := by rw [h5, h12]; decide
      height_lt := by rw [h6, h13]; decide
      x_lo := by rw [h3]
      x_hi := by rw [h3, h5, h12]; decide
      y_lo := by rw [h4]
      y_hi := by rw [h4, h6, h13]; decide
      speed_lo := by rw [h7]
      speed_hi := by rw [h7]; decide
      growth_lo := by rw [h8]
      growth_hi := by rw [h8]; decide
      growth_even := by rw [h8]; decide
      day_lo := by rw [h9]; decide
      day_hi := by rw [h9]
      names := by rw [h11]; rfl
      kinds := by rw [h11]; rfl }

theorem Inv_timeBank (t : Int) (s : Game) (h : Inv s) : Inv (timeBank t s) := by
  unfold timeBank
  simp only
  split
  · exact { h with }
  · exact { h with }

theorem timeBank_frame (t : Int) (s : Game) :
    (timeBank t s).fieldSize = s.fieldSize ∧ (timeBank t s).herdSpeed = s.herdSpeed ∧
    (timeBank t s).herdWidth = s.herdWidth ∧ (timeBank t s).herdHeight = s.herdHeight ∧
    (timeBank t s).herdX = s.herdX ∧ (timeBank t s).herdY = s.herdY ∧
    (timeBank t s).herdDirectionUp = s.herdDirectionUp ∧
    (timeBank t s).growthAmount = s.growthAmount ∧ (timeBank t s).dayRate = s.dayRate ∧
    (timeBank t s).upgrades = s.upgrades ∧ (timeBank t s).grid = s.grid ∧
    (timeBank t s).money = s.money ∧ (timeBank t s).totalMoney = s.totalMoney := by
  unfold timeBank
  simp only
  split <;> exact ⟨rfl, rfl, rfl, rfl, rfl, rfl, rfl, rfl, rfl, rfl, rfl, rfl, rfl⟩

theorem gridWidth_congr (s t : Game) (h : t.fieldSize = s.fieldSize) :
    gridWidth t = gridWidth s := by
  unfold gridWidth; rw [h]

theorem gridHeight_congr (s t : Game) (h : t.fieldSize = s.fieldSize) :
    gridHeight t = gridHeight s := by
  unfold gridHeight; rw [h]

theorem Inv_harvestCell (gw gh : Int) (s : Game) (x y : Int) (h : Inv s) :
    Inv (harvestCell gw gh s x y) := by
  unfold harvestCell
  split
  · have hg := GridOk_setCell _ _ s.grid x y 0 h.grid_ok (by decide)
    have hm := h.money_nonneg
    have ht := h.total_nonneg
    have hv : (0 : ℚ) ≤ 1 * (if s.superDays > 0 then 5 else 1) := by
      split <;> norm_num
    exact { h with
      grid_ok := hg
      money_nonneg := roundDouble_nonneg _ (by linarith)
      money_double := roundDouble_idem_nonneg _ (by linarith)
      total_nonneg := roundDouble_nonneg _ (by linarith)
      total_double := roundDouble_idem_nonneg _ (by linarith) }
  · exact h

theorem Inv_harvestList (gw gh : Int) (cs : List (Int × Int)) (s : Game) (h : Inv s) :
    Inv (harvestList gw gh cs s) := by
  induction cs generalizing s with
  | nil => exact h
  | cons c cs ih => exact ih _ (Inv_harvestCell gw gh s c.1 c.2 h)

theorem Inv_harvest (gw gh : Int) (s : Game) (h : Inv s) : Inv (harvest gw gh s) := by
  rw [harvest_eq_harvestList]
  exact Inv_harvestList gw gh _ s h

theorem harvest_sameHerd (gw gh : Int) (s : Game) : sameHerd s (harvest gw gh s) := by
  rw [harvest_eq_harvestList]
  exact harvestList_sameHerd gw gh _ s

theorem Inv_moveHerd (s : Game) (h : Inv s) :
    Inv (moveHerd (gridWidth s) (gridHeight s) s) := by
  have h1 := h.width_le
  have h2 := h.height_lt
  have h3 := h.x_lo
  have h4 := h.x_hi
  have h5 := h.y_lo
  have h6 := h.y_hi
  have h7 := h.height_pos
  have h8 := h.height_le_width
  simp only [gridWidth, gridHeight] at h1 h2 h4 h6
  simp only [moveHerd, gridWidth, gridHeight]
  split_ifs
  · exact { h with
      y_lo := by simp only [gridWidth, gridHeight]; omega
      y_hi := by simp only [gridWidth, gridHeight]; omega }
  · exact { h with
      x_lo := le_refl _, y_lo := le_refl _
      x_hi := by simp only [gridWidth, gridHeight]; omega
      y_hi := by simp only [gridWidth, gridHeight]; omega }
  · exact { h with
      x_lo := by simp only [gridWidth, gridHeight]; omega
      x_hi := by simp only [gridWidth, gridHeight]; omega }
  · exact { h with
      y_lo := by simp only [gridWidth, gridHeight]; omega
      y_hi := by simp only [gridWidth, gridHeight]; omega }
  · exact { h with
      x_lo := le_refl _, y_lo := le_refl _
      x_hi := by simp only [gridWidth, gridHeight]; omega
      y_hi := by simp only [gridWidth, gridHeight]; omega }
  · exact { h with
      x_lo := by simp only [gridWidth, gridHeight]; omega
      x_hi := by simp only [gridWidth, gridHeight]; omega }

theorem Inv_herdSubMove (s : Game) (h : Inv s) :
    Inv (herdSubMove (gridWidth s) (gridHeight s) s) ∧
    (herdSubMove (gridWidth s) (gridHeight s) s).fieldSize = s.fieldSize := by
  unfold herdSubMove
  have hh := Inv_harvest (gridWidth s) (gridHeight s) s h
  have hf : (harvest (gridWidth s) (gridHeight s) s).fieldSize = s.fieldSize :=
    (harvest_sameHerd (gridWidth s) (gridHeight s) s).2.2.2.2.2.2.2.1
  have hw : gridWidth (harvest (gridWidth s) (gridHeight s) s) = gridWidth s :=
    gridWidth_congr _ _ hf
  have hhh : gridHeight (harvest (gridWidth s) (gridHeight s) s) = gridHeight s :=
    gridHeight_congr _ _ hf
  have hm := Inv_moveHerd _ hh
  rw [hw, hhh] at hm
  refine ⟨hm, ?_⟩
  rw [(moveHerd_frame _ _ _).2.2.2.2.2.2.2.2.2.1, hf]

theorem Inv_iterate_herdSubMove (n : Nat) (s : Game) (h : Inv s) :
    Inv ((herdSubMove (gridWidth s) (gridHeight s))^[n] s) ∧
    ((herdSubMove (gridWidth s) (gridHeight s))^[n] s).fieldSize = s.fieldSize := by
  induction n with
  | zero => exact ⟨h, rfl⟩
  | succ n ih =>
      rw [Function.iterate_succ_apply']
      obtain ⟨hi, hf⟩ := ih
      have hw : gridWidth ((herdSubMove (gridWidth s) (gridHeight s))^[n] s) = gridWidth s :=
        gridWidth_congr _ _ hf
      have hhh : gridHeight ((herdSubMove (gridWidth s) (gridHeight s))^[n] s)
          = gridHeight s := gridHeight_congr _ _ hf
      have := Inv_herdSubMove _ hi
      rw [hw, hhh] at this
      exact ⟨this.1, this.2.trans hf⟩

theorem Inv_herdDay (t : Int) (s : Game) (h : Inv s) :
    Inv (herdDay t s) ∧ (herdDay t s).fieldSize = s.fieldSize := by
  unfold herdDay
  simp only
  have := Inv_iterate_herdSubMove (timeBank t s).herdSpeed.toNat _ (Inv_timeBank t s h)
  exact ⟨this.1, this.2.trans (timeBank_frame t s).1⟩

theorem GridOk_growCell (w h : Nat) (gw gh : Int) (g : List (List Int)) (rx ry : Nat)
    (hg : GridOk w h g) : GridOk w h (growCell gw gh g rx ry) := by
  unfold growCell
  simp only
  split
  · apply GridOk_setCell w h g _ _ _ hg
    have := (getCell_range w h g ((rx : Int) % gw) ((ry : Int) % gh) hg).1
    unfold maxGrowth
    constructor
    · exact le_min (by decide) (by omega)
    · exact min_le_left _ _
  · exact hg

theorem GridOk_foldl_growCell (w h : Nat) (gw gh : Int) (r : Rand) (l : List Nat)
    (g : List (List Int)) (hg : GridOk w h g) :
    GridOk w h (l.foldl (fun g i => growCell gw gh g (r (2 * i)) (r (2 * i + 1))) g) := by
  induction l generalizing g with
  | nil => exact hg
  | cons i l ih => exact ih _ (GridOk_growCell w h gw gh g _ _ hg)

theorem Inv_growthDay (r : Rand) (s : Game) (h : Inv s) : Inv (growthDay r s) := by
  unfold growthDay
  simp only
  exact { h with grid_ok := GridOk_foldl_growCell _ _ _ _ r _ s.grid h.grid_ok }

theorem Inv_gameUpdate (t : Int) (r : Rand) (s : Game) (h : Inv s) :
    Inv (gameUpdate t r s) :=
  Inv_growthDay r _ (Inv_herdDay t s h).1

theorem map_set_same {α β : Type} (f : α → β) (l : List α) (i : Nat) (u v : α)
    (hu : l[i]? = some u) (hf : f v = f u) : (l.set i v).map f = l.map f := by
  apply List.ext_getElem?
  intro j
  rw [List.getElem?_map, List.getElem?_map, List.getElem?_set]
  by_cases hij : i = j
  · subst hij
    have hl : i < l.length := by
      by_contra hl
      rw [List.getElem?_eq_none (not_lt.mp hl)] at hu
      exact absurd hu (by simp)
    simp [hl, hu, hf]
  · simp [hij]

theorem Inv_onBuy (k : UpgradeKind) (r : Rand) (s : Game) (h : Inv s)
    (hc : canBuy k s = true) : Inv (onBuy k r s) := by
  cases k with
  | herdSpeed =>
      simp only [canBuy, decide_eq_true_eq] at hc
      have := h.speed_lo
      exact { h with
        speed_lo := by simp only [onBuy]; omega
        speed_hi := by simp only [onBuy]; omega }
  | herdSize =>
      simp only [canBuy, Bool.and_eq_true, decide_eq_true_eq] at hc
      have h1 := h.height_pos
      have h2 := h.height_le_width
      have h3 := h.width_le_succ
      obtain ⟨hc1, hc2⟩ := hc
      unfold onBuy
      simp only
      split
      · rename_i heq
        exact { h with
          x_lo := le_refl _, y_lo := le_refl _
          height_le_width := by simp only; omega
          width_le_succ := by simp only; omega
          width_le := by simp only [gridWidth, width]; simp only [height] at hc2; omega
          height_lt := by simp only [gridHeight]; omega
          x_hi := by simp only [gridWidth, width]; simp only [height] at hc2; omega
          y_hi := by simp only [gridHeight]; omega }
      · rename_i hne
        exact { h with
          x_lo := le_refl _, y_lo := le_refl _
          height_pos := by simp only; omega
          height_le_width := by simp only; omega
          width_le_succ := by simp only; omega
          width_le := by simp only [gridWidth, width]; simp only [height] at hc2; omega
          height_lt := by simp only [gridHeight]; omega
          x_hi := by simp only [gridWidth, width]; simp only [height] at hc2; omega
          y_hi := by simp only [gridHeight]; omega }
  | fieldSize =>
      simp only [canBuy, decide_eq_true_eq, fieldSizes, List.length_cons, List.length_nil] at hc
      have h0 := h.zoom_lo
      have hlt : s.fieldSize < 7 := by push_cast at hc; omega
      have hmin : min (s.fieldSize + 1) (((fieldSizes.length : Nat) : Int) - 1) = s.fieldSize + 1 := by
        apply min_eq_left
        simp only [fieldSizes, List.length_cons, List.length_nil]
        push_cast
        omega
      have hmono := gridWidth_mono s.fieldSize h0 hlt
      have h1 := h.width_le
      have h2 := h.height_lt
      have h4 := h.x_hi
      have h6 := h.y_hi
      simp only [gridWidth, gridHeight, height] at h1 h2 h4 h6
      unfold onBuy
      simp only [regenerateField, hmin]
      have hg := GridOk_generateField r
        { s with fieldSize := s.fieldSize + 1, grid := [] }
      exact { h with
        zoom_lo := by simp only [generateField]; omega
        zoom_hi := by simp only [generateField]; omega
        grid_ok := hg
        width_le := by simp only [generateField, gridWidth]; omega
        height_lt := by simp only [generateField, gridHeight, height]; simp only [width] at hmono; omega
        x_hi := by simp only [generateField, gridWidth]; omega
        y_hi := by simp only [generateField, gridHeight, height]; simp only [width] at hmono; omega }
  | growthRate =>
      simp only [canBuy, decide_eq_true_eq] at hc
      have := h.growth_lo
      have := h.growth_even
      exact { h with
        growth_lo := by simp only [onBuy]; omega
        growth_hi := by simp only [onBuy]; omega
        growth_even := by simp only [onBuy]; omega }
  | dayRate =>
      have hd := h.day_lo
      have hd2 := h.day_hi
      have hq : (0 : ℚ) ≤ (s.dayRate : ℚ) * 0.85 := by
        have : (0 : ℚ) ≤ (s.dayRate : ℚ) := by exact_mod_cast (by omega : 0 ≤ s.dayRate)
        positivity
      have hle : truncToInt ((s.dayRate : ℚ) * 0.85) ≤ s.dayRate := by
        rw [truncToInt_of_nonneg _ hq]
        have h1 : (Int.floor ((s.dayRate : ℚ) * 0.85) : ℚ) ≤ (s.dayRate : ℚ) * 0.85 :=
          Int.floor_le _
        have h2 : (s.dayRate : ℚ) * 0.85 ≤ (s.dayRate : ℚ) := by
          have : (0 : ℚ) ≤ (s.dayRate : ℚ) := by exact_mod_cast (by omega : 0 ≤ s.dayRate)
          norm_num
          linarith
        exact_mod_cast le_trans h1 h2
      exact { h with
        day_lo := by simp only [onBuy]; exact le_max_left _ _
        day_hi := by simp only [onBuy]; exact max_le (by omega) (by omega) }

theorem Inv_purchased (i : Nat) (u : Upgrade) (r : Rand) (s : Game) (h : Inv s)
    (hu : s.upgrades[i]? = some u) (hc : canBuy u.kind s = true) :
    Inv (purchased i u r s) := by
  have h1 := Inv_onBuy u.kind r s h hc
  have hup := onBuy_upgrades u.kind r s
  have hn := h1.names
  have hk := h1.kinds
  unfold purchased
  simp only
  exact { h1 with
    money_nonneg := by
      simp only
      split
      · exact le_refl _
      · linarith
    money_double := by
      simp only
      split
      · exact roundDouble_zero
      · rename_i hneg
        exact roundDouble_idem_of_nonneg_result _ (not_lt.mp hneg)
    names := by
      simp only
      refine (map_set_same _ _ i u _ (by rw [hup]; exact hu) ?_).trans hn
      rfl
    kinds := by
      simp only
      refine (map_set_same _ _ i u _ (by rw [hup]; exact hu) ?_).trans hk
      rfl }

theorem Inv_buyNamed (name : String) (r : Rand) (s : Game) (h : Inv s) :
    Inv (buyNamed name r s) := by
  rcases buyNamed_cases name r s with h1 | ⟨i, u, _, hu, _, hc, h1⟩
  · rw [h1]; exact h
  · rw [h1]; exact Inv_purchased i u r s h hu hc

theorem Inv_apply (a : Action) (s : Game) (h : Inv s) : Inv (a.apply s) := by
  cases a with
  | tick t r => exact Inv_gameUpdate t r s h
  | buy k r =>
      rw [apply_buy]
      exact Inv_buyNamed _ r s h

theorem Inv_run (as : List Action) (s : Game) (h : Inv s) : Inv (run as s) := by
  induction as generalizing s with
  | nil => exact h
  | cons a as ih => exact ih _ (Inv_apply a s h)

theorem Inv_of_Reachable (s : Game) (h : Reachable s) : Inv s := by
  obtain ⟨r, now, as, rfl⟩ := h
  exact Inv_run as _ (Inv_initialGame r now)

theorem Reachable_sampleRun : Reachable sampleRun :=
  ⟨fun _ => 0, 0, _, rfl⟩

/-! ## Invariants of reachable states -/

/-- C8: in every reachable state the herd rectangle lies inside the current
grid, `0 ≤ herdX ≤ gridWidth - herdWidth` and `0 ≤ herdY ≤ gridHeight -
herdHeight`, where the grid really has `gridWidth` columns of `gridHeight`
cells. -/
theorem C8_herd_inside_grid (s : Game) (h : Reachable s) :
    0 ≤ s.herdX ∧ s.herdX ≤ gridWidth s - s.herdWidth ∧
    0 ≤ s.herdY ∧ s.herdY ≤ gridHeight s - s.herdHeight ∧
    (s.grid.length : Int) = gridWidth s ∧
    ∀ col ∈ s.grid, (col.length : Int) = gridHeight s := by
  have hi := Inv_of_Reachable s h
  have hw := gridWidth_cases s hi.zoom_lo hi.zoom_hi
  refine ⟨hi.x_lo, hi.x_hi, hi.y_lo, hi.y_hi, ?_, ?_⟩
  · rw [hi.grid_ok.1]
    omega
  · intro col hcol
    rw [(hi.grid_ok.2 col hcol).1, gridHeight_eq_gridWidth]
    omega

/-- Witness for C8 at the state `sampleRun`. -/
theorem C8_herd_inside_grid_witness :
    0 ≤ sampleRun.herdX ∧ sampleRun.herdX ≤ gridWidth sampleRun - sampleRun.herdWidth ∧
    0 ≤ sampleRun.herdY ∧ sampleRun.herdY ≤ gridHeight sampleRun - sampleRun.herdHeight ∧
    (sampleRun.grid.length : Int) = gridWidth sampleRun ∧
    ∀ col ∈ sampleRun.grid, (col.length : Int) = gridHeight sampleRun :=
  C8_herd_inside_grid sampleRun Reachable_sampleRun

/-- C9: in every reachable state money is at least 0. -/
theorem C9_money_nonneg (s : Game) (h : Reachable s) : 0 ≤ s.money :=
  (Inv_of_Reachable s h).money_nonneg

/-- Witness for C9 at the state `sampleRun`. -/
theorem C9_money_nonneg_witness : 0 ≤ sampleRun.money :=
  C9_money_nonneg sampleRun Reachable_sampleRun

/-- C10: in every reachable state every cell of the grid holds a growth level
between 0 and `maxGrowth = 15`. -/
theorem C10_cells_in_range (s : Game) (h : Reachable s) :
    maxGrowth = 15 ∧
    (∀ col ∈ s.grid, ∀ v ∈ col, 0 ≤ v ∧ v ≤ maxGrowth) ∧
    ∀ x y, 0 ≤ getCell s.grid x y ∧ getCell s.grid x y ≤ maxGrowth := by
  have hi := Inv_of_Reachable s h
  refine ⟨rfl, fun col hcol => (hi.grid_ok.2 col hcol).2, fun x y => ?_⟩
  exact getCell_range _ _ s.grid x y hi.grid_ok

/-- Witness for C10 at the state `sampleRun`. -/
theorem C10_cells_in_range_witness :
    maxGrowth = 15 ∧
    (∀ col ∈ sampleRun.grid, ∀ v ∈ col, 0 ≤ v ∧ v ≤ maxGrowth) ∧
    ∀ x y, 0 ≤ getCell sampleRun.grid x y ∧ getCell sampleRun.grid x y ≤ maxGrowth :=
  C10_cells_in_range sampleRun Reachable_sampleRun

/-! ## The boustrophedon sweep -/

theorem herdSubMove_fields (W H : Int) (t : Game) :
    (herdSubMove W H t).herdWidth = t.herdWidth ∧
    (herdSubMove W H t).herdHeight = t.herdHeight ∧
    (t.herdDirectionUp = true →
      (t.herdY > 0 →
        (herdSubMove W H t).herdX = t.herdX ∧ (herdSubMove W H t).herdY = t.herdY - 1 ∧
        (herdSubMove W H t).herdDirectionUp = true) ∧
      (¬ t.herdY > 0 → t.herdX ≥ W - t.herdWidth →
        (herdSubMove W H t).herdX = 0 ∧ (herdSubMove W H t).herdY = 0 ∧
        (herdSubMove W H t).herdDirectionUp = false) ∧
      (¬ t.herdY > 0 → ¬ t.herdX ≥ W - t.herdWidth →
        (herdSubMove W H t).herdX = min (t.herdX + t.herdWidth) (W - t.herdWidth) ∧
        (herdSubMove W H t).herdY = t.herdY ∧
        (herdSubMove W H t).herdDirectionUp = false)) ∧
    (t.herdDirectionUp = false →
      (t.herdY < H - t.herdHeight →
        (herdSubMove W H t).herdX = t.herdX ∧ (herdSubMove W H t).herdY = t.herdY + 1 ∧
        (herdSubMove W H t).herdDirectionUp = false) ∧
      (¬ t.herdY < H - t.herdHeight → t.herdX ≥ W - t.herdWidth →
        (herdSubMove W H t).herdX = 0 ∧ (herdSubMove W H t).herdY = 0 ∧
        (herdSubMove W H t).herdDirectionUp = false) ∧
      (¬ t.herdY < H - t.herdHeight → ¬ t.herdX ≥ W - t.herdWidth →
        (herdSubMove W H t).herdX = min (t.herdX + t.herdWidth) (W - t.herdWidth) ∧
        (herdSubMove W H t).herdY = t.herdY ∧
        (herdSubMove W H t).herdDirectionUp = true)) := by
  obtain ⟨e1, e2, e3, e4, _, e6, _⟩ := harvest_sameHerd W H t
  unfold herdSubMove
  generalize harvest W H t = a at e1 e2 e3 e4 e6
  refine ⟨?_, ?_, ?_, ?_⟩
  · rw [(moveHerd_frame W H a).2.2.2.2.2.1, e3]
  · rw [(moveHerd_frame W H a).2.2.2.2.2.2.1, e4]
  · intro hd
    rw [← e6] at hd
    rw [← e1, ← e2, ← e3]
    refine ⟨?_, ?_, ?_⟩
    · intro h1
      unfold moveHerd
      rw [if_pos hd, if_pos h1]
      exact ⟨rfl, rfl, hd⟩
    · intro h1 h2
      unfold moveHerd
      rw [if_pos hd, if_neg h1, if_pos h2]
      exact ⟨rfl, rfl, rfl⟩
    · intro h1 h2
      unfold moveHerd
      rw [if_pos hd, if_neg h1, if_neg h2]
      exact ⟨rfl, rfl, rfl⟩
  · intro hd
    rw [← e6] at hd
    rw [← e1, ← e2, ← e3, ← e4]
    have hneg : ¬ (a.herdDirectionUp = true) := by rw [hd]; exact Bool.false_ne_true
    refine ⟨?_, ?_, ?_⟩
    · intro h1
      unfold moveHerd
      rw [if_neg hneg, if_pos h1]
      exact ⟨rfl, rfl, hd⟩
    · intro h1 h2
      unfold moveHerd
      rw [if_neg hneg, if_neg h1, if_pos h2]
      exact ⟨rfl, rfl, rfl⟩
    · intro h1 h2
      unfold moveHerd
      rw [if_neg hneg, if_neg h1, if_neg h2]
      exact ⟨rfl, rfl, rfl⟩

theorem SweepAt_step (W H : Int) (s t : Game) (k j : Nat)
    (ht : SweepAt W H s t k j)
    (hj : ((j + 1 : Nat) : Int) ≤ H - s.herdHeight) :
    SweepAt W H s (herdSubMove W H t) k (j + 1) := by
  obtain ⟨a1, a2, a3, a4, a5⟩ := ht
  obtain ⟨f1, f2, fup, fdown⟩ := herdSubMove_fields W H t
  push_cast at hj
  rcases Nat.mod_two_eq_zero_or_one k with hk | hk
  · have hd : t.herdDirectionUp = false := by rw [a5, hk]; rfl
    rw [hk] at a4
    simp only [if_true] at a4
    obtain ⟨g1, g2, g3⟩ := (fdown hd).1 (by rw [a4, a2]; omega)
    refine ⟨f1.trans a1, f2.trans a2, g1.trans a3, ?_, ?_⟩
    · rw [g2, a4, hk]; simp
    · rw [g3, hk]; rfl
  · have hd : t.herdDirectionUp = true := by rw [a5, hk]; rfl
    rw [hk] at a4
    simp only [Nat.one_ne_zero, if_false] at a4
    obtain ⟨g1, g2, g3⟩ := (fup hd).1 (by rw [a4]; omega)
    refine ⟨f1.trans a1, f2.trans a2, g1.trans a3, ?_, ?_⟩
    · rw [g2, a4, hk]; simp only [Nat.one_ne_zero, if_false]; push_cast; omega
    · rw [g3, hk]; rfl

theorem SweepAt_turn (W H : Int) (s t : Game) (k : Nat)
    (hh : s.herdHeight ≤ H)
    (ht : SweepAt W H s t k (H - s.herdHeight).toNat)
    (hk1 : ((k + 1 : Nat) : Int) * s.herdWidth < W) :
    SweepAt W H s (herdSubMove W H t) (k + 1) 0 := by
  obtain ⟨a1, a2, a3, a4, a5⟩ := ht
  obtain ⟨f1, f2, fup, fdown⟩ := herdSubMove_fields W H t
  have hmul : ((k + 1 : Nat) : Int) * s.herdWidth = (k : Int) * s.herdWidth + s.herdWidth := by
    push_cast; ring
  rw [hmul] at hk1
  have hx : t.herdX = (k : Int) * s.herdWidth := by
    rw [a3]; exact min_eq_left (by omega)
  have hL : (((H - s.herdHeight).toNat : Nat) : Int) = H - s.herdHeight :=
    Int.toNat_of_nonneg (by omega)
  rw [hL] at a4
  rcases Nat.mod_two_eq_zero_or_one k with hk | hk
  · have hd : t.herdDirectionUp = false := by rw [a5, hk]; rfl
    have hk' : (k + 1) % 2 = 1 := by omega
    rw [hk] at a4
    simp only [if_true] at a4
    obtain ⟨g1, g2, g3⟩ := (fdown hd).2.2 (by rw [a4, a2]; omega) (by rw [hx, a1]; omega)
    refine ⟨f1.trans a1, f2.trans a2, ?_, ?_, ?_⟩
    · rw [g1, hx, a1, hmul]
    · rw [g2, a4, hk']; simp
    · rw [g3, hk']; rfl
  · have hd : t.herdDirectionUp = true := by rw [a5, hk]; rfl
    have hk' : (k + 1) % 2 = 0 := by omega
    rw [hk] at a4
    simp only [Nat.one_ne_zero, if_false] at a4
    obtain ⟨g1, g2, g3⟩ := (fup hd).2.2 (by rw [a4]; omega) (by rw [hx, a1]; omega)
    refine ⟨f1.trans a1, f2.trans a2, ?_, ?_, ?_⟩
    · rw [g1, hx, a1, hmul]
    · rw [g2, a4, hk']; simp
    · rw [g3, hk']; rfl

theorem sweep_closed_form (W H : Int) (s : Game)
    (hw1 : 1 ≤ s.herdWidth) (hwW : s.herdWidth ≤ W) (hhH : s.herdHeight ≤ H)
    (hs : atStart s) (k j : Nat)
    (hk : (k : Int) * s.herdWidth < W) (hj : (j : Int) ≤ H - s.herdHeight) :
    SweepAt W H s ((herdSubMove W H)^[k * ((H - s.herdHeight).toNat + 1) + j] s) k j := by
  have hL : (((H - s.herdHeight).toNat : Nat) : Int) = H - s.herdHeight :=
    Int.toNat_of_nonneg (by omega)
  have strip : ∀ (k : Nat),
      SweepAt W H s ((herdSubMove W H)^[k * ((H - s.herdHeight).toNat + 1)] s) k 0 →
      ∀ (j : Nat), (j : Int) ≤ H - s.herdHeight →
      SweepAt W H s ((herdSubMove W H)^[k * ((H - s.herdHeight).toNat + 1) + j] s) k j := by
    intro k h0 j
    induction j with
    | zero => intro _; exact h0
    | succ j ih =>
        intro hj
        rw [← Nat.add_assoc, Function.iterate_succ_apply']
        exact SweepAt_step W H s _ k j (ih (by push_cast at hj; omega)) hj
  have start : ∀ (k : Nat), (k : Int) * s.herdWidth < W →
      SweepAt W H s ((herdSubMove W H)^[k * ((H - s.herdHeight).toNat + 1)] s) k 0 := by
    intro k
    induction k with
    | zero =>
        intro _
        obtain ⟨s1, s2, s3⟩ := hs
        rw [Nat.zero_mul, Function.iterate_zero, id_eq]
        refine ⟨rfl, rfl, ?_, ?_, ?_⟩
        · rw [s1]; push_cast; rw [zero_mul]; exact (min_eq_left (by omega)).symm
        · rw [s2]; simp
        · rw [s3]; rfl
    | succ k ih =>
        intro hk1
        have hmul : ((k + 1 : Nat) : Int) * s.herdWidth
            = (k : Int) * s.herdWidth + s.herdWidth := by
          push_cast; ring
        have hk0 : (k : Int) * s.herdWidth < W := by rw [hmul] at hk1; omega
        have hlast := strip k (ih hk0) (H - s.herdHeight).toNat (by rw [hL])
        have hidx : (k + 1) * ((H - s.herdHeight).toNat + 1)
            = (k * ((H - s.herdHeight).toNat + 1) + (H - s.herdHeight).toNat) + 1 := by
          ring
        rw [hidx, Function.iterate_succ_apply']
        exact SweepAt_turn W H s _ k hhH hlast hk1
  exact strip k (start k hk) j hj

/-- C3: on any grid of `W x H` cells, a herd of `w x h` cells with
`1 ≤ w ≤ W` and `1 ≤ h ≤ H` that starts at the origin moving down has every
grid cell `(cx, cy)` inside its rectangle after some number `n` of
sub-moves, and none of the sub-moves `1 .. n` has brought it back to the
origin moving down. -/
theorem C3_sweep_covers_every_cell (W H : Int) (s : Game)
    (hw1 : 1 ≤ s.herdWidth) (hwW : s.herdWidth ≤ W)
    (hh1 : 1 ≤ s.herdHeight) (hhH : s.herdHeight ≤ H) (hs : atStart s)
    (cx cy : Int) (hx0 : 0 ≤ cx) (hx1 : cx < W) (hy0 : 0 ≤ cy) (hy1 : cy < H) :
    ∃ n : Nat, inHerd ((herdSubMove W H)^[n] s) cx cy ∧
      ∀ m : Nat, 0 < m → m ≤ n → ¬ atStart ((herdSubMove W H)^[m] s) := by
  have hwpos : (0 : Int) < s.herdWidth := by omega
  have hL : (((H - s.herdHeight).toNat : Nat) : Int) = H - s.herdHeight :=
    Int.toNat_of_nonneg (by omega)
  -- strip of the cell
  have hq0 : 0 ≤ cx / s.herdWidth := Int.ediv_nonneg hx0 (by omega)
  have hkc : (((cx / s.herdWidth).toNat : Nat) : Int) = cx / s.herdWidth :=
    Int.toNat_of_nonneg hq0
  have hk_le : ((cx / s.herdWidth).toNat : Int) * s.herdWidth ≤ cx := by
    rw [hkc]; exact Int.ediv_mul_le cx (by omega)
  have hk_lt : cx < ((cx / s.herdWidth).toNat : Int) * s.herdWidth + s.herdWidth := by
    rw [hkc]
    have := Int.lt_ediv_add_one_mul_self cx hwpos
    linarith
  generalize (cx / s.herdWidth).toNat = k at hk_le hk_lt
  -- row of the cell
  have hy0' : 0 ≤ min cy (H - s.herdHeight) := le_min hy0 (by omega)
  have hy1' : min cy (H - s.herdHeight) ≤ H - s.herdHeight := min_le_right _ _
  have hycov : min cy (H - s.herdHeight) ≤ cy ∧ cy < min cy (H - s.herdHeight) + s.herdHeight := by
    rcases le_total cy (H - s.herdHeight) with hle | hle
    · rw [min_eq_left hle]; omega
    · rw [min_eq_right hle]; omega
  generalize min cy (H - s.herdHeight) = y0 at hy0' hy1' hycov
  have hcf := sweep_closed_form W H s hw1 hwW hhH hs
  refine ⟨k * ((H - s.herdHeight).toNat + 1)
    + (if k % 2 = 0 then y0.toNat else (H - s.herdHeight - y0).toNat), ?_, ?_⟩
  · obtain ⟨a1, a2, a3, a4, _⟩ := hcf k
      (if k % 2 = 0 then y0.toNat else (H - s.herdHeight - y0).toNat) (by omega)
      (by split <;> omega)
    unfold inHerd
    rw [a1, a2, a3, a4]
    have hyv : (if k % 2 = 0
        then (((if k % 2 = 0 then y0.toNat else (H - s.herdHeight - y0).toNat) : Nat) : Int)
        else H - s.herdHeight
          - (((if k % 2 = 0 then y0.toNat else (H - s.herdHeight - y0).toNat) : Nat) : Int))
        = y0 := by
      split <;> omega
    rw [hyv]
    rcases le_total ((k : Int) * s.herdWidth) (W - s.herdWidth) with hle | hle
    · rw [min_eq_left hle]; omega
    · rw [min_eq_right hle]; omega
  · intro m hm0 hmn hat
    have hjlt : (if k % 2 = 0 then y0.toNat else (H - s.herdHeight - y0).toNat)
        < (H - s.herdHeight).toNat + 1 := by
      split <;> omega
    have hLpos : 0 < (H - s.herdHeight).toNat + 1 := Nat.succ_pos _
    have hdiv : m / ((H - s.herdHeight).toNat + 1) ≤ k := by
      have : m < (k + 1) * ((H - s.herdHeight).toNat + 1) := by
        rw [Nat.add_mul, Nat.one_mul]; omega
      exact Nat.lt_succ_iff.mp ((Nat.div_lt_iff_lt_mul hLpos).mpr this)
    have hmod : m % ((H - s.herdHeight).toNat + 1) < (H - s.herdHeight).toNat + 1 :=
      Nat.mod_lt _ hLpos
    have hsplit : m / ((H - s.herdHeight).toNat + 1) * ((H - s.herdHeight).toNat + 1)
        + m % ((H - s.herdHeight).toNat + 1) = m := by
      rw [Nat.mul_comm]; exact Nat.div_add_mod _ _
    generalize m / ((H - s.herdHeight).toNat + 1) = k' at hdiv hsplit
    generalize m % ((H - s.herdHeight).toNat + 1) = j' at hmod hsplit
    have hkw : (k' : Int) * s.herdWidth ≤ (k : Int) * s.herdWidth :=
      mul_le_mul_of_nonneg_right (by exact_mod_cast hdiv) (by omega)
    obtain ⟨_, _, a3, a4, a5⟩ := hcf k' j' (by omega) (by omega)
    rw [hsplit] at a3 a4 a5
    obtain ⟨b1, b2, b3⟩ := hat
    rw [b3] at a5
    have hpar : k' % 2 = 0 := by
      rcases Nat.mod_two_eq_zero_or_one k' with h0 | h1
      · exact h0
      · rw [h1] at a5; exact absurd a5 (by decide)
    rw [b2, hpar] at a4
    simp only [if_true] at a4
    have hj0 : j' = 0 := by omega
    have hk1 : 1 ≤ k' := by
      rcases Nat.eq_zero_or_pos k' with h0 | hp
      · rw [h0, hj0] at hsplit; omega
      · exact hp
    have hkw1 : s.herdWidth ≤ (k' : Int) * s.herdWidth := by
      have : (1 : Int) * s.herdWidth ≤ (k' : Int) * s.herdWidth :=
        mul_le_mul_of_nonneg_right (by exact_mod_cast hk1) (by omega)
      linarith
    rw [b1] at a3
    rcases le_total ((k' : Int) * s.herdWidth) (W - s.herdWidth) with hle | hle
    · rw [min_eq_left hle] at a3; omega
    · rw [min_eq_right hle] at a3; omega


/-- Witness for C3: the 1 x 1 herd of the constructor state on the 10 x 10
grid reaches the cell `(3, 4)` before it is back at the origin. -/
theorem C3_sweep_covers_every_cell_witness :
    ∃ n : Nat, inHerd ((herdSubMove 10 10)^[n] (initialGame (fun _ => 0) 0)) 3 4 ∧
      ∀ m : Nat, 0 < m → m ≤ n →
        ¬ atStart ((herdSubMove 10 10)^[m] (initialGame (fun _ => 0) 0)) :=
  C3_sweep_covers_every_cell 10 10 (initialGame (fun _ => 0) 0)
    (by decide) (by decide) (by decide) (by decide) ⟨rfl, rfl, rfl⟩
    3 4 (by decide) (by decide) (by decide) (by decide)

/-! ## Availability of upgrades over time -/

theorem sameConfig_refl (s : Game) : sameConfig s s := ⟨rfl, rfl, rfl, rfl, rfl, rfl, rfl⟩

theorem sameConfig_trans {s t u : Game} (h1 : sameConfig s t) (h2 : sameConfig t u) :
    sameConfig s u := by
  obtain ⟨a1, a2, a3, a4, a5, a6, a7⟩ := h1
  obtain ⟨b1, b2, b3, b4, b5, b6, b7⟩ := h2
  exact ⟨b1.trans a1, b2.trans a2, b3.trans a3, b4.trans a4, b5.trans a5, b6.trans a6,
    b7.trans a7⟩

theorem sameConfig_of_sameHerd {s t : Game} (h : sameHerd s t) : sameConfig s t := by
  obtain ⟨_, _, a3, a4, a5, _, a7, a8, a9, _, _, a12⟩ := h
  exact ⟨a3, a4, a5, a7, a8, a9, a12⟩

theorem herdSubMove_sameConfig (W H : Int) (s : Game) :
    sameConfig s (herdSubMove W H s) := by
  have h1 := sameConfig_of_sameHerd (harvest_sameHerd W H s)
  obtain ⟨_, _, _, _, _, m6, m7, m8, m9, m10, m11, _, _, m14⟩ :=
    moveHerd_frame W H (harvest W H s)
  exact sameConfig_trans h1 ⟨m6, m7, m8, m9, m10, m11, m14⟩

theorem iterate_herdSubMove_sameConfig (W H : Int) (n : Nat) (s : Game) :
    sameConfig s ((herdSubMove W H)^[n] s) := by
  induction n with
  | zero => exact sameConfig_refl s
  | succ n ih =>
      rw [Function.iterate_succ_apply']
      exact sameConfig_trans ih (herdSubMove_sameConfig W H _)

theorem gameUpdate_sameConfig (t : Int) (r : Rand) (s : Game) :
    sameConfig s (gameUpdate t r s) := by
  obtain ⟨f1, f2, f3, f4, _, _, _, f8, f9, f10, _⟩ := timeBank_frame t s
  have h1 : sameConfig s (timeBank t s) := ⟨f3, f4, f2, f8, f1, f9, f10⟩
  have h2 : sameConfig (timeBank t s) (herdDay t s) :=
    iterate_herdSubMove_sameConfig _ _ _ _
  have h3 : sameConfig (herdDay t s) (gameUpdate t r s) :=
    ⟨rfl, rfl, rfl, rfl, rfl, rfl, rfl⟩
  exact sameConfig_trans (sameConfig_trans h1 h2) h3

theorem canBuy_congr (k : UpgradeKind) (s t : Game) (h : sameConfig s t) :
    canBuy k t = canBuy k s := by
  obtain ⟨a1, a2, a3, a4, a5, a6, _⟩ := h
  cases k <;> simp only [canBuy, a1, a2, a3, a4, a5, a6]

theorem canBuy_onBuy_other (k k2 : UpgradeKind) (r : Rand) (s : Game) (hne : k2 ≠ k)
    (hf : k = .herdSize → k2 ≠ .fieldSize) :
    canBuy k (onBuy k2 r s) = canBuy k s := by
  cases k <;> cases k2 <;>
    first
    | exact absurd rfl hne
    | exact absurd rfl (hf rfl)
    | rfl
    | (simp only [canBuy, onBuy]; split <;> rfl)

theorem upgrades_shape (s : Game) (h : Inv s) :
    ∃ u0 u1 u2 u3 u4 : Upgrade, s.upgrades = [u0, u1, u2, u3, u4] ∧
      u0.name = "herdSpeed" ∧ u1.name = "herdSize" ∧ u2.name = "fieldSize" ∧
      u3.name = "growthRate" ∧ u4.name = "dayRate" ∧
      u0.kind = .herdSpeed ∧ u1.kind = .herdSize ∧ u2.kind = .fieldSize ∧
      u3.kind = .growthRate ∧ u4.kind = .dayRate := by
  have hn := h.names
  have hk := h.kinds
  rcases hl : s.upgrades with _ | ⟨u0, _ | ⟨u1, _ | ⟨u2, _ | ⟨u3, _ | ⟨u4, _ | ⟨u5, l⟩⟩⟩⟩⟩⟩ <;>
    rw [hl] at hn hk <;> simp only [List.map_cons, List.map_nil, List.cons.injEq, and_true,
      reduceCtorEq, and_false] at hn hk
  obtain ⟨n0, n1, n2, n3, n4⟩ := hn
  obtain ⟨k0, k1, k2, k3, k4⟩ := hk
  exact ⟨u0, u1, u2, u3, u4, rfl, n0, n1, n2, n3, n4, k0, k1, k2, k3, k4⟩

theorem getUpgrade_kind (k : UpgradeKind) (s : Game) (h : Inv s) (i : Nat) (u : Upgrade)
    (hi : getUpgrade k.key s = some i) (hu : s.upgrades[i]? = some u) : u.kind = k := by
  obtain ⟨u0, u1, u2, u3, u4, hl, n0, n1, n2, n3, n4, k0, k1, k2, k3, k4⟩ := upgrades_shape s h
  unfold getUpgrade at hi
  rw [hl] at hi hu
  cases k <;>
    simp [UpgradeKind.key, List.findIdx?, n0, n1, n2, n3, n4] at hi <;>
    subst hi <;> simp at hu <;> subst hu <;> assumption

theorem canBuy_purchased (k : UpgradeKind) (i : Nat) (u : Upgrade) (r : Rand) (s : Game) :
    canBuy k (purchased i u r s) = canBuy k (onBuy u.kind r s) := by
  cases k <;> rfl

theorem canBuy_false_step (k : UpgradeKind) (a : Action) (s : Game) (h : Inv s)
    (hf : k = .herdSize → a.isFieldBuy = false) (hc : canBuy k s = false) :
    canBuy k (a.apply s) = false := by
  cases a with
  | tick t r =>
      rw [Action.apply, canBuy_congr k s _ (gameUpdate_sameConfig t r s)]
      exact hc
  | buy ka r =>
      rw [apply_buy]
      rcases buyNamed_cases ka.key r s with h1 | ⟨i, u, hi, hu, _, hcu, h1⟩
      · rw [h1]; exact hc
      · have hkind := getUpgrade_kind ka s h i u hi hu
        have hne : u.kind ≠ k := by
          intro e
          rw [e, hc] at hcu
          exact absurd hcu (by decide)
        rw [h1, canBuy_purchased, canBuy_onBuy_other k u.kind r s hne, hc]
        intro ek e2
        have := hf ek
        rw [hkind] at e2
        rw [e2] at this
        exact absurd this (by simp [Action.isFieldBuy])

/-- C4 (amended): in a reachable state, an upgrade whose availability closure
answers false stays unavailable through every sequence of ticks and purchase
clicks; for the herd size upgrade this holds for sequences without a click
on the field size button. -/
theorem C4_unavailable_stays_unavailable (s : Game) (hs : Reachable s) (k : UpgradeKind)
    (as : List Action) (hf : k = .herdSize → ∀ a ∈ as, a.isFieldBuy = false)
    (hc : canBuy k s = false) :
    canBuy k (run as s) = false := by
  have hi := Inv_of_Reachable s hs
  clear hs
  induction as generalizing s with
  | nil => exact hc
  | cons a as ih =>
      have h1 := canBuy_false_step k a s hi
        (fun e => hf e a (List.mem_cons_self _ _)) hc
      exact ih (a.apply s) (fun e b hb => hf e b (List.mem_cons_of_mem _ hb)) h1
        (Inv_apply a s hi)

/-! ## The herd position does not depend on the grid -/

theorem samePos_refl (a : Game) : samePos a a := ⟨rfl, rfl, rfl, rfl, rfl, rfl, rfl⟩

theorem samePos_symm {a b : Game} (h : samePos a b) : samePos b a := by
  obtain ⟨a1, a2, a3, a4, a5, a6, a7⟩ := h
  exact ⟨a1.symm, a2.symm, a3.symm, a4.symm, a5.symm, a6.symm, a7.symm⟩

theorem samePos_trans {a b c : Game} (h1 : samePos a b) (h2 : samePos b c) :
    samePos a c := by
  obtain ⟨a1, a2, a3, a4, a5, a6, a7⟩ := h1
  obtain ⟨b1, b2, b3, b4, b5, b6, b7⟩ := h2
  exact ⟨b1.trans a1, b2.trans a2, b3.trans a3, b4.trans a4, b5.trans a5, b6.trans a6,
    b7.trans a7⟩

theorem samePos_of_sameHerd {s t : Game} (h : sameHerd s t) : samePos s t := by
  obtain ⟨a1, a2, a3, a4, a5, a6, _, a8, _⟩ := h
  exact ⟨a1, a2, a3, a4, a5, a6, a8⟩

theorem moveHerd_samePos (W H : Int) (a b : Game) (h : samePos a b) :
    samePos (moveHerd W H a) (moveHerd W H b) := by
  obtain ⟨e1, e2, e3, e4, e5, e6, e7⟩ := h
  unfold moveHerd
  rw [e1, e2, e3, e4, e6]
  split_ifs <;> exact ⟨rfl, rfl, rfl, rfl, e5, rfl, e7⟩

theorem herdSubMove_samePos (W H : Int) (a b : Game) (h : samePos a b) :
    samePos (herdSubMove W H a) (herdSubMove W H b) := by
  unfold herdSubMove
  apply moveHerd_samePos
  have ha := samePos_of_sameHerd (harvest_sameHerd W H a)
  have hb := samePos_of_sameHerd (harvest_sameHerd W H b)
  exact samePos_trans (samePos_trans (samePos_symm ha) h) hb

theorem iterate_herdSubMove_samePos (W H : Int) (n : Nat) (a b : Game) (h : samePos a b) :
    samePos ((herdSubMove W H)^[n] a) ((herdSubMove W H)^[n] b) := by
  induction n with
  | zero => exact h
  | succ n ih =>
      rw [Function.iterate_succ_apply', Function.iterate_succ_apply']
      exact herdSubMove_samePos W H _ _ ih

theorem timeBank_samePos (t : Int) (s : Game) : samePos s (timeBank t s) := by
  obtain ⟨f1, f2, f3, f4, f5, f6, f7, _⟩ := timeBank_frame t s
  exact ⟨f5, f6, f3, f4, f2, f7, f1⟩

theorem herdDay_samePos (t t2 : Int) (a b : Game) (h : samePos a b) :
    samePos (herdDay t a) (herdDay t2 b) := by
  have ha := timeBank_samePos t a
  have hb := timeBank_samePos t2 b
  have hab : samePos (timeBank t a) (timeBank t2 b) :=
    samePos_trans (samePos_trans (samePos_symm ha) h) hb
  unfold herdDay
  simp only
  rw [gridWidth_congr _ _ hab.2.2.2.2.2.2, gridHeight_congr _ _ hab.2.2.2.2.2.2,
    hab.2.2.2.2.1]
  exact iterate_herdSubMove_samePos _ _ _ _ _ hab

theorem gameUpdate_samePos (t t2 : Int) (r r2 : Rand) (a b : Game) (h : samePos a b) :
    samePos (gameUpdate t r a) (gameUpdate t2 r2 b) :=
  herdDay_samePos t t2 a b h

/-! ## Earning money -/

theorem addRounded_ge (v : ℚ) (hv : 0 ≤ v) (k : Nat) :
    ∀ (m : ℚ), 0 ≤ m → roundDouble m = m →
      m ≤ addRounded v k m ∧ 0 ≤ addRounded v k m ∧
      roundDouble (addRounded v k m) = addRounded v k m ∧
      (1 ≤ k → roundDouble (m + v) ≤ addRounded v k m) := by
  induction k with
  | zero =>
      intro m h0 hd
      exact ⟨le_refl _, h0, hd, fun h => absurd h (by decide)⟩
  | succ k ih =>
      intro m h0 hd
      have h1 : 0 ≤ roundDouble (m + v) := roundDouble_nonneg _ (by linarith)
      have h2 : roundDouble (roundDouble (m + v)) = roundDouble (m + v) :=
        roundDouble_idem_nonneg _ (by linarith)
      have h3 : m ≤ roundDouble (m + v) := by
        have := roundDouble_mono m (m + v) h0 (by linarith)
        rw [hd] at this
        exact this
      obtain ⟨a1, a2, a3, _⟩ := ih (roundDouble (m + v)) h1 h2
      rw [addRounded_succ]
      exact ⟨le_trans h3 a1, a2, a3, fun _ => a1⟩

theorem herdSubMove_earns (W H : Int) (s : Game) (hm : 0 ≤ s.money)
    (hd : roundDouble s.money = s.money) (x y : Int) :
    s.money ≤ (herdSubMove W H s).money ∧ 0 ≤ (herdSubMove W H s).money ∧
    roundDouble (herdSubMove W H s).money = (herdSubMove W H s).money ∧
    (getCell (herdSubMove W H s).grid x y = getCell s.grid x y ∨
      roundDouble (s.money + 1) ≤ (herdSubMove W H s).money) ∧
    (1 ≤ (herdCells s).countP (ripe W H s.grid) →
      roundDouble (s.money + 1) ≤ (herdSubMove W H s).money) := by
  obtain ⟨h1, _, _, _, h5⟩ := harvestList_spec W H (herdCells s) (nodup_herdCells s) s
  obtain ⟨m1, _, _, _, m5, _⟩ := moveHerd_frame W H (harvest W H s)
  unfold herdSubMove
  rw [m1, m5, harvest_eq_harvestList, h1]
  obtain ⟨a1, a2, a3, a4⟩ := addRounded_ge 5 (by norm_num)
    (min ((herdCells s).countP (ripe W H s.grid)) s.superDays.toNat) s.money hm hd
  obtain ⟨b1, b2, b3, b4⟩ := addRounded_ge 1 (by norm_num)
    ((herdCells s).countP (ripe W H s.grid)
      - min ((herdCells s).countP (ripe W H s.grid)) s.superDays.toNat)
    (addRounded 5 (min ((herdCells s).countP (ripe W H s.grid)) s.superDays.toNat) s.money)
    a2 a3
  have hpos : 1 ≤ (herdCells s).countP (ripe W H s.grid) → roundDouble (s.money + 1)
      ≤ addRounded 1 ((herdCells s).countP (ripe W H s.grid)
            - min ((herdCells s).countP (ripe W H s.grid)) s.superDays.toNat)
          (addRounded 5 (min ((herdCells s).countP (ripe W H s.grid)) s.superDays.toNat)
            s.money) := by
    intro hn
    by_cases hk : 1 ≤ min ((herdCells s).countP (ripe W H s.grid)) s.superDays.toNat
    · have c1 := a4 hk
      have c2 := roundDouble_mono (s.money + 1) (s.money + 5) (by linarith) (by linarith)
      exact le_trans c2 (le_trans c1 b1)
    · have hk0 : min ((herdCells s).countP (ripe W H s.grid)) s.superDays.toNat = 0 := by
        omega
      have c1 := b4 (by omega)
      rw [hk0, addRounded_zero] at c1
      rw [hk0, addRounded_zero]
      exact c1
  refine ⟨le_trans a1 b1, b2, b3, ?_, hpos⟩
  rw [h5 x y]
  by_cases hc : (x, y) ∈ herdCells s ∧ ripe W H s.grid (x, y) = true
  · right
    apply hpos
    exact List.countP_pos_iff.mpr ⟨(x, y), hc.1, hc.2⟩
  · left
    rw [if_neg hc]

theorem iterate_herdSubMove_earns (W H : Int) (n : Nat) (s : Game) (hm : 0 ≤ s.money)
    (hd : roundDouble s.money = s.money) (x y : Int) :
    s.money ≤ ((herdSubMove W H)^[n] s).money ∧ 0 ≤ ((herdSubMove W H)^[n] s).money ∧
    roundDouble ((herdSubMove W H)^[n] s).money = ((herdSubMove W H)^[n] s).money ∧
    (getCell ((herdSubMove W H)^[n] s).grid x y = getCell s.grid x y ∨
      roundDouble (s.money + 1) ≤ ((herdSubMove W H)^[n] s).money) := by
  induction n with
  | zero => exact ⟨le_refl _, hm, hd, Or.inl rfl⟩
  | succ n ih =>
      rw [Function.iterate_succ_apply']
      obtain ⟨i1, i2, i3, i4⟩ := ih
      obtain ⟨j1, j2, j3, j4, _⟩ := herdSubMove_earns W H _ i2 i3 x y
      refine ⟨le_trans i1 j1, j2, j3, ?_⟩
      rcases j4 with j4 | j4
      · rcases i4 with i4 | i4
        · left; rw [j4, i4]
        · right; exact le_trans i4 j1
      · right
        exact le_trans (roundDouble_mono (s.money + 1) _ (by linarith) (by linarith)) j4

theorem herdDay_earns (t : Int) (s : Game) (h : Inv s) (x y : Int) :
    s.money ≤ (herdDay t s).money ∧
    (getCell (herdDay t s).grid x y = getCell s.grid x y ∨
      roundDouble (s.money + 1) ≤ (herdDay t s).money) := by
  obtain ⟨_, _, _, _, _, _, _, _, _, _, f11, f12, _⟩ := timeBank_frame t s
  obtain ⟨i1, _, _, i3⟩ := iterate_herdSubMove_earns (gridWidth (timeBank t s))
    (gridHeight (timeBank t s)) (timeBank t s).herdSpeed.toNat (timeBank t s)
    (by rw [f12]; exact h.money_nonneg) (by rw [f12]; exact h.money_double) x y
  rw [f11, f12] at i3
  rw [f12] at i1
  exact ⟨i1, i3⟩

theorem herdDay_earns_under_herd (t : Int) (s : Game) (h : Inv s)
    (h5 : 5 ≤ getCell s.grid s.herdX s.herdY) :
    roundDouble (s.money + 1) ≤ (herdDay t s).money := by
  obtain ⟨f1, f2, f3, f4, f5, f6, _, _, _, _, f11, f12, _⟩ := timeBank_frame t s
  have hi := Inv_timeBank t s h
  have hsp := hi.speed_lo
  obtain ⟨n, hn⟩ : ∃ n : Nat, (timeBank t s).herdSpeed.toNat = n + 1 :=
    ⟨(timeBank t s).herdSpeed.toNat - 1, by omega⟩
  unfold herdDay
  simp only
  rw [hn, Function.iterate_succ_apply]
  have hcell : (s.herdX, s.herdY) ∈ herdCells (timeBank t s) := by
    rw [mem_herdCells]
    unfold inHerd
    have := hi.height_pos
    have := hi.height_le_width
    rw [f5, f6]
    omega
  have hripe : ripe (gridWidth (timeBank t s)) (gridHeight (timeBank t s))
      (timeBank t s).grid (s.herdX, s.herdY) = true := by
    unfold ripe
    simp only [Bool.and_eq_true, decide_eq_true_eq]
    have a1 := hi.x_hi
    have a2 := hi.y_hi
    have a3 := hi.height_pos
    have a4 := hi.height_le_width
    rw [f5] at a1
    rw [f6] at a2
    rw [f11]
    exact ⟨by omega, by omega, h5⟩
  obtain ⟨_, j2, j3, _, j5⟩ := herdSubMove_earns (gridWidth (timeBank t s))
    (gridHeight (timeBank t s)) (timeBank t s) hi.money_nonneg hi.money_double 0 0
  have hfirst := j5 (List.countP_pos_iff.mpr ⟨_, hcell, hripe⟩)
  obtain ⟨k1, _, _, _⟩ := iterate_herdSubMove_earns (gridWidth (timeBank t s))
    (gridHeight (timeBank t s)) n _ j2 j3 0 0
  rw [f12] at hfirst
  exact le_trans hfirst k1

theorem GridOk_inbounds (w h : Nat) (g : List (List Int)) (hg : GridOk w h g) (cx cy : Int)
    (hx0 : 0 ≤ cx) (hx1 : cx < w) (hy0 : 0 ≤ cy) (hy1 : cy < h) :
    0 ≤ cx ∧ 0 ≤ cy ∧ cx.toNat < g.length ∧ cy.toNat < (g.getD cx.toNat []).length := by
  have hl : cx.toNat < g.length := by rw [hg.1]; omega
  have hcol : g.getD cx.toNat [] ∈ g := by
    rw [List.getD_eq_getElem?_getD, List.getElem?_eq_getElem hl]
    exact List.getElem_mem hl
  refine ⟨hx0, hy0, hl, ?_⟩
  rw [(hg.2 _ hcol).1]
  omega

theorem growCell_target (w h : Nat) (gw gh : Int) (g : List (List Int)) (hg : GridOk w h g)
    (cx cy : Int) (hx0 : 0 ≤ cx) (hx1 : cx < w) (hy0 : 0 ≤ cy) (hy1 : cy < h)
    (rx ry : Nat) (hrx : (rx : Int) % gw = cx) (hry : (ry : Int) % gh = cy) :
    getCell (growCell gw gh g rx ry) cx cy = min 15 (getCell g cx cy + 1) := by
  have hb := GridOk_inbounds w h g hg cx cy hx0 hx1 hy0 hy1
  have hr := getCell_range w h g cx cy hg
  unfold maxGrowth at hr
  unfold growCell
  simp only [hrx, hry, maxGrowth]
  split
  · rw [getCell_setCell, if_pos ⟨rfl, rfl, hb⟩]
  · rename_i hlt
    rw [min_eq_left (by omega)]
    omega

theorem foldl_growCell_target (w h : Nat) (gw gh : Int) (cx cy : Int)
    (hx0 : 0 ≤ cx) (hx1 : cx < w) (hy0 : 0 ≤ cy) (hy1 : cy < h)
    (r : Rand) (hrx : ∀ i, (r (2 * i) : Int) % gw = cx)
    (hry : ∀ i, (r (2 * i + 1) : Int) % gh = cy) (l : List Nat) :
    ∀ (g : List (List Int)), GridOk w h g →
      getCell (l.foldl (fun g i => growCell gw gh g (r (2 * i)) (r (2 * i + 1))) g) cx cy
        = min 15 (getCell g cx cy + l.length) := by
  induction l with
  | nil =>
      intro g hg
      have hr := getCell_range w h g cx cy hg
      unfold maxGrowth at hr
      simp only [List.foldl_nil, List.length_nil, Nat.cast_zero, add_zero]
      exact (min_eq_right hr.2).symm
  | cons i l ih =>
      intro g hg
      simp only [List.foldl_cons, List.length_cons]
      rw [ih _ (GridOk_growCell w h gw gh g _ _ hg),
        growCell_target w h gw gh g hg cx cy hx0 hx1 hy0 hy1 _ _ (hrx i) (hry i)]
      push_cast
      rcases le_total 15 (getCell g cx cy + 1) with hle | hle
      · rw [min_eq_left hle, min_eq_left (by omega), min_eq_left (by omega)]
      · rw [min_eq_right hle]
        congr 1
        omega

theorem growthDay_aimAt (s : Game) (h : Inv s) (cx cy : Int)
    (hx0 : 0 ≤ cx) (hx1 : cx < gridWidth s) (hy0 : 0 ≤ cy) (hy1 : cy < gridHeight s) :
    getCell (growthDay (aimAt cx cy) s).grid cx cy
      = min 15 (getCell s.grid cx cy + s.growthAmount) := by
  have hg := h.growth_lo
  have key := foldl_growCell_target (gridWidth s).toNat (gridHeight s).toNat
    (gridWidth s) (gridHeight s) cx cy hx0 (by omega) hy0 (by omega) (aimAt cx cy)
    (by
      intro i
      have : (2 * i) % 2 = 0 := by omega
      simp only [aimAt, this, if_true]
      rw [Int.toNat_of_nonneg hx0]
      exact Int.emod_eq_of_lt hx0 hx1)
    (by
      intro i
      have : ¬ ((2 * i + 1) % 2 = 0) := by omega
      simp only [aimAt, this, if_false]
      rw [Int.toNat_of_nonneg hy0]
      exact Int.emod_eq_of_lt hy0 hy1)
    (List.range s.growthAmount.toNat) s.grid h.grid_ok
  unfold growthDay
  simp only
  rw [key, List.length_range, Int.toNat_of_nonneg (by omega)]

theorem run_append (as bs : List Action) (s : Game) :
    run (as ++ bs) s = run bs (run as s) := by
  unfold run
  rw [List.foldl_append]

theorem run_ticks_sameConfig (ts : List (Int × Rand)) :
    ∀ (s : Game), sameConfig s (run (ticks ts) s) := by
  induction ts with
  | nil => intro s; exact sameConfig_refl s
  | cons p ts ih =>
      intro s
      exact sameConfig_trans (gameUpdate_sameConfig p.1 p.2 s) (ih (gameUpdate p.1 p.2 s))

theorem ticks_append (as bs : List (Int × Rand)) : ticks (as ++ bs) = ticks as ++ ticks bs := by
  unfold ticks
  rw [List.map_append]

/-- Adding 1 to a double below 2^52 raises it by at least one half. -/
theorem roundDouble_add_one_ge (m : ℚ) (h0 : 0 ≤ m) (h1 : m ≤ 2 ^ 52 - 1) :
    m + 1 / 2 ≤ roundDouble (m + 1) := by
  have herr := roundDouble_err (m + 1) (by linarith)
  rw [abs_le] at herr
  have hb : (m + 1) / (2 : ℚ) ^ (53 : Nat) ≤ 1 / 2 := by
    rw [div_le_iff₀ (by norm_num)]
    norm_num
    norm_num at h1
    linarith
  linarith [herr.1]

theorem earn_one (s : Game) (h : Inv s) :
    ∃ ts : List (Int × Rand), ts.length = 3 ∧
      roundDouble (s.money + 1) ≤ (run (ticks ts) s).money := by
  -- the cell under the herd two days from now
  obtain ⟨cx, hcx⟩ : ∃ cx, cx = (gameUpdate 0 (fun _ => 0) (gameUpdate 0 (fun _ => 0) s)).herdX :=
    ⟨_, rfl⟩
  obtain ⟨cy, hcy⟩ : ∃ cy, cy = (gameUpdate 0 (fun _ => 0) (gameUpdate 0 (fun _ => 0) s)).herdY :=
    ⟨_, rfl⟩
  refine ⟨[(s.lastDay + s.dayRate, aimAt cx cy), (s.lastDay + 2 * s.dayRate, aimAt cx cy),
    (s.lastDay + 3 * s.dayRate, fun _ => 0)], rfl, ?_⟩
  -- names for the intermediate states
  obtain ⟨d1, hd1⟩ : ∃ d1, d1 = herdDay (s.lastDay + s.dayRate) s := ⟨_, rfl⟩
  obtain ⟨s1, hs1⟩ : ∃ s1, s1 = growthDay (aimAt cx cy) d1 := ⟨_, rfl⟩
  obtain ⟨d2, hd2⟩ : ∃ d2, d2 = herdDay (s.lastDay + 2 * s.dayRate) s1 := ⟨_, rfl⟩
  obtain ⟨s2, hs2⟩ : ∃ s2, s2 = growthDay (aimAt cx cy) d2 := ⟨_, rfl⟩
  have hrun : run (ticks [(s.lastDay + s.dayRate, aimAt cx cy),
      (s.lastDay + 2 * s.dayRate, aimAt cx cy), (s.lastDay + 3 * s.dayRate, fun _ => 0)]) s
      = growthDay (fun _ => 0) (herdDay (s.lastDay + 3 * s.dayRate) s2) := by
    rw [hs2, hd2, hs1, hd1]; rfl
  rw [hrun]
  have hs1' : s1 = gameUpdate (s.lastDay + s.dayRate) (aimAt cx cy) s := by
    rw [hs1, hd1]; rfl
  have hs2' : s2 = gameUpdate (s.lastDay + 2 * s.dayRate) (aimAt cx cy) s1 := by
    rw [hs2, hd2]; rfl
  -- invariants along the way
  have id1 : Inv d1 := by rw [hd1]; exact (Inv_herdDay _ s h).1
  have fd1 : d1.fieldSize = s.fieldSize := by rw [hd1]; exact (Inv_herdDay _ s h).2
  have is1 : Inv s1 := by rw [hs1]; exact Inv_growthDay _ d1 id1
  have fs1 : s1.fieldSize = s.fieldSize := by rw [hs1]; exact fd1
  have id2 : Inv d2 := by rw [hd2]; exact (Inv_herdDay _ s1 is1).1
  have fd2 : d2.fieldSize = s.fieldSize := by
    rw [hd2]; exact ((Inv_herdDay _ s1 is1).2).trans fs1
  have is2 : Inv s2 := by rw [hs2]; exact Inv_growthDay _ d2 id2
  have fs2 : s2.fieldSize = s.fieldSize := by rw [hs2]; exact fd2
  -- where the herd is after two days
  have hpos : samePos (gameUpdate 0 (fun _ => 0) (gameUpdate 0 (fun _ => 0) s)) s2 := by
    rw [hs2', hs1']
    exact gameUpdate_samePos _ _ _ _ _ _
      (gameUpdate_samePos _ _ _ _ _ _ (samePos_refl s))
  have hx2 : s2.herdX = cx := by rw [hcx]; exact hpos.1
  have hy2 : s2.herdY = cy := by rw [hcy]; exact hpos.2.1
  have hx0 : 0 ≤ cx := by rw [← hx2]; exact is2.x_lo
  have hy0 : 0 ≤ cy := by rw [← hy2]; exact is2.y_lo
  have hx1 : cx < gridWidth s := by
    have a1 := is2.x_hi
    have a2 := is2.height_pos
    have a3 := is2.height_le_width
    rw [gridWidth_congr s s2 fs2, hx2] at a1
    omega
  have hy1 : cy < gridHeight s := by
    have a1 := is2.y_hi
    have a2 := is2.height_pos
    rw [gridHeight_congr s s2 fs2, hy2] at a1
    omega
  -- first day: the cell grows to at least 4
  have g1 : getCell s1.grid cx cy = min 15 (getCell d1.grid cx cy + d1.growthAmount) := by
    rw [hs1]
    exact growthDay_aimAt d1 id1 cx cy hx0 (by rw [gridWidth_congr s d1 fd1]; exact hx1)
      hy0 (by rw [gridHeight_congr s d1 fd1]; exact hy1)
  have c1 : 4 ≤ getCell s1.grid cx cy := by
    have a1 := (getCell_range _ _ d1.grid cx cy id1.grid_ok).1
    have a2 := id1.growth_lo
    rw [g1]
    exact le_min (by decide) (by omega)
  have m1 : s.money ≤ s1.money := by
    have := (herdDay_earns (s.lastDay + s.dayRate) s h 0 0).1
    rw [← hd1] at this
    rw [hs1]
    exact this
  -- second day
  have e2 := herdDay_earns (s.lastDay + 2 * s.dayRate) s1 is1 cx cy
  rw [← hd2] at e2
  have g2 : getCell s2.grid cx cy = min 15 (getCell d2.grid cx cy + d2.growthAmount) := by
    rw [hs2]
    exact growthDay_aimAt d2 id2 cx cy hx0 (by rw [gridWidth_congr s d2 fd2]; exact hx1)
      hy0 (by rw [gridHeight_congr s d2 fd2]; exact hy1)
  have m2 : s2.money = d2.money := by rw [hs2]; rfl
  -- third day
  have e3 := herdDay_earns (s.lastDay + 3 * s.dayRate) s2 is2 0 0
  have hm0 := h.money_nonneg
  have hgoal : roundDouble (s.money + 1) ≤ (herdDay (s.lastDay + 3 * s.dayRate) s2).money := by
    rcases e2.2 with hsame | hearn
    · have c2 : 5 ≤ getCell s2.grid s2.herdX s2.herdY := by
        have a2 := id2.growth_lo
        rw [hx2, hy2, g2, hsame]
        exact le_min (by decide) (by omega)
      have k1 := herdDay_earns_under_herd (s.lastDay + 3 * s.dayRate) s2 is2 c2
      have k2 := e2.1
      have k3 : s.money ≤ s2.money := by rw [m2]; exact le_trans m1 k2
      exact le_trans (roundDouble_mono (s.money + 1) (s2.money + 1) (by linarith)
        (by linarith)) k1
    · have k1 := e3.1
      rw [m2] at k1
      exact le_trans (roundDouble_mono (s.money + 1) (s1.money + 1) (by linarith)
        (by linarith)) (le_trans hearn k1)
  exact hgoal

theorem Reachable_run (as : List Action) (s : Game) (h : Reachable s) :
    Reachable (run as s) := by
  obtain ⟨r, now, bs, rfl⟩ := h
  exact ⟨r, now, bs ++ as, (run_append bs as _).symm⟩

theorem earn_many (q : ℚ) (hq : q ≤ 2 ^ 52 - 1) (N : Nat) (s : Game) (h : Inv s) :
    ∃ ts : List (Int × Rand), ts.length ≤ 3 * N ∧
      (q ≤ (run (ticks ts) s).money ∨ s.money + (N : ℚ) / 2 ≤ (run (ticks ts) s).money) := by
  induction N with
  | zero => exact ⟨[], le_refl _, Or.inr (by simp [run, ticks])⟩
  | succ N ih =>
      obtain ⟨ts, hl, hm⟩ := ih
      by_cases hdone : q ≤ (run (ticks ts) s).money
      · exact ⟨ts, by omega, Or.inl hdone⟩
      · have hB : s.money + (N : ℚ) / 2 ≤ (run (ticks ts) s).money := by
          rcases hm with hm | hm
          · exact absurd hm hdone
          · exact hm
        have hi := Inv_run (ticks ts) s h
        obtain ⟨us, hl2, hm2⟩ := earn_one (run (ticks ts) s) hi
        have hge := roundDouble_add_one_ge (run (ticks ts) s).money hi.money_nonneg
          (by linarith [not_le.mp hdone])
        refine ⟨ts ++ us, by rw [List.length_append]; omega, Or.inr ?_⟩
        rw [ticks_append, run_append]
        push_cast
        linarith

theorem reach_rich_ticks (q : ℚ) (hq : q ≤ 2 ^ 52 - 1) (s : Game) (h : Inv s) :
    ∃ ts : List (Int × Rand), ts.length ≤ 6 * ⌈q⌉₊ ∧ q ≤ (run (ticks ts) s).money := by
  obtain ⟨ts, hl, hm⟩ := earn_many q hq (2 * ⌈q⌉₊) s h
  refine ⟨ts, by omega, ?_⟩
  rcases hm with hm | hm
  · exact hm
  · have h1 : q ≤ (⌈q⌉₊ : ℚ) := Nat.le_ceil q
    have h2 := h.money_nonneg
    push_cast at hm
    linarith

theorem reach_rich (q : ℚ) (hq : q ≤ 2 ^ 52 - 1) (s : Game) (h : Reachable s) :
    ∃ s2, Reachable s2 ∧ sameConfig s s2 ∧ q ≤ s2.money := by
  obtain ⟨ts, _, hm⟩ := reach_rich_ticks q hq s (Inv_of_Reachable s h)
  exact ⟨run (ticks ts) s, Reachable_run _ s h, run_ticks_sameConfig ts s, hm⟩

/-- With a 1 x 1 herd of speed 1 a tick harvests at most the cell under the
herd: money that is a natural number stays one and grows by at most 5. -/
theorem tick_nat_money (t : Int) (r : Rand) (s : Game) (a : Nat)
    (hs : s.herdSpeed = 1) (hw : s.herdWidth = 1) (hh : s.herdHeight = 1)
    (ha : s.money = (a : ℚ)) (hb : a + 5 < 2 ^ 53) :
    ∃ b : Nat, (gameUpdate t r s).money = (b : ℚ) ∧ b ≤ a + 5 := by
  obtain ⟨_, f2, f3, f4, _, _, _, _, _, _, _, f12, _⟩ := timeBank_frame t s
  have hsp : (timeBank t s).herdSpeed.toNat = 1 := by rw [f2, hs]; rfl
  have hmoney : (gameUpdate t r s).money
      = (herdSubMove (gridWidth (timeBank t s)) (gridHeight (timeBank t s))
          (timeBank t s)).money := by
    show (growthDay r (herdDay t s)).money = _
    unfold herdDay
    simp only
    rw [hsp, Function.iterate_one]
    rfl
  obtain ⟨h1, _⟩ := herdSubMove_spec (gridWidth (timeBank t s)) (gridHeight (timeBank t s))
    (timeBank t s)
  have hlen : (herdCells (timeBank t s)).length = 1 := by
    unfold herdCells
    rw [f3, f4, hw, hh]
    rfl
  have hn : ripeCount (gridWidth (timeBank t s)) (gridHeight (timeBank t s)) (timeBank t s)
      ≤ 1 := by
    unfold ripeCount
    rw [← hlen]
    exact List.countP_le_length _
  rw [hmoney, h1, f12, ha]
  generalize ripeCount (gridWidth (timeBank t s)) (gridHeight (timeBank t s)) (timeBank t s)
    = n at hn
  generalize (timeBank t s).superDays.toNat = c
  have e := addRounded_harvest a n (min n c) (min_le_left _ _) (by omega)
  refine ⟨a + n + 4 * min n c, ?_, by omega⟩
  rw [e]
  push_cast
  rfl

theorem ticks_nat_money (ts : List (Int × Rand)) :
    ∀ (s : Game) (a : Nat), s.herdSpeed = 1 → s.herdWidth = 1 → s.herdHeight = 1 →
      s.money = (a : ℚ) → a + 5 * ts.length < 2 ^ 53 →
      ∃ b : Nat, (run (ticks ts) s).money = (b : ℚ) ∧ b ≤ a + 5 * ts.length := by
  induction ts with
  | nil => intro s a _ _ _ ha _; exact ⟨a, ha, by simp⟩
  | cons p ts ih =>
      intro s a hs hw hh ha hb
      rw [List.length_cons] at hb ⊢
      obtain ⟨b, hb1, hb2⟩ := tick_nat_money p.1 p.2 s a hs hw hh ha (by omega)
      obtain ⟨c1, c2, c3, _⟩ := gameUpdate_sameConfig p.1 p.2 s
      obtain ⟨c, hc1, hc2⟩ := ih (gameUpdate p.1 p.2 s) b (by rw [c3]; exact hs)
        (by rw [c1]; exact hw) (by rw [c2]; exact hh) hb1 (by omega)
      exact ⟨c, hc1, by omega⟩

/-! ## The price a purchase deducts -/

/-- C1 (fails on the code): at `richStart` (money 120, herd speed upgrade
available at price 50, multiplier 2) the slot `buySpeedUpgrade` leaves money
20 = 120 - 50 * 2, not 70 = 120 - 50: the price is multiplied inside
`Upgrade::buy` before the slot deducts it. The same happens in a reachable
state with at least 120 in hand. -/
theorem C1_purchase_deducts_multiplied_price :
    (getUpgrade "herdSpeed" richStart = some 0 ∧
      (richStart.upgrades.map (fun u => u.price))[0]? = some 50 ∧
      canBuy .herdSpeed richStart = true ∧
      richStart.money = 120 ∧
      (buySpeedUpgrade (fun _ => 0) richStart).money = 20 ∧
      (buySpeedUpgrade (fun _ => 0) richStart).money ≠ richStart.money - 50) ∧
    ∃ s, Reachable s ∧ getUpgrade "herdSpeed" s = some 0 ∧
      (s.upgrades.map (fun u => u.price))[0]? = some 50 ∧
      canBuy .herdSpeed s = true ∧ 50 ≤ s.money ∧
      (buySpeedUpgrade (fun _ => 0) s).money = s.money - 100 ∧
      (buySpeedUpgrade (fun _ => 0) s).money ≠ s.money - 50 := by
  have r100 : roundDouble 100 = 100 := by
    have := roundDouble_natCast 100 (by norm_num)
    norm_num at this
    exact this
  have r20 : roundDouble 20 = 20 := by
    have := roundDouble_natCast 20 (by norm_num)
    norm_num at this
    exact this
  constructor
  · have h := buyNamed_success "herdSpeed" (fun _ => 0) richStart 0
      { name := "herdSpeed", price := 50, multiplier := 2.0, level := 0, kind := .herdSpeed }
      (by decide) (by rfl) (by norm_num [richStart]) (by decide)
    refine ⟨by decide, by rfl, by decide, by rfl, ?_, ?_⟩
    · rw [buySpeedUpgrade, h]
      norm_num [purchased, onBuy_money, richStart, r100, r20]
    · rw [buySpeedUpgrade, h]
      norm_num [purchased, onBuy_money, richStart, r100, r20]
  · have hceil : ⌈(120 : ℚ)⌉₊ = 120 := by
      rw [show (120 : ℚ) = ((120 : ℕ) : ℚ) by norm_num]
      exact Nat.ceil_natCast 120
    obtain ⟨ts, hl, hm⟩ := reach_rich_ticks 120 (by norm_num) (initialGame (fun _ => 0) 0)
      (Inv_initialGame _ _)
    rw [hceil] at hl
    obtain ⟨b, hb1, hb2⟩ := ticks_nat_money ts (initialGame (fun _ => 0) 0) 0 rfl rfl rfl
      (by norm_num [initialGame, initializeGame, generateField])
      (by omega)
    have hc := run_ticks_sameConfig ts (initialGame (fun _ => 0) 0)
    obtain ⟨_, _, c3, _, _, _, c7⟩ := hc
    have hr : Reachable (run (ticks ts) (initialGame (fun _ => 0) 0)) :=
      Reachable_run _ _ ⟨fun _ => 0, 0, [], rfl⟩
    generalize run (ticks ts) (initialGame (fun _ => 0) 0) = s at hm hb1 c3 c7 hr
    have hup : s.upgrades = initializeUpgrades := c7
    have hget : getUpgrade "herdSpeed" s = some 0 := by
      unfold getUpgrade
      rw [hup]
      decide
    have hcan : canBuy .herdSpeed s = true := by
      simp only [canBuy, c3]
      decide
    have h := buyNamed_success "herdSpeed" (fun _ => 0) s 0
      { name := "herdSpeed", price := 50, multiplier := 2.0, level := 0, kind := .herdSpeed }
      hget (by rw [hup]; rfl) (by simp only; linarith) hcan
    have hb120 : 120 ≤ b := by
      rw [hb1] at hm
      exact_mod_cast hm
    have hsub : roundDouble (s.money - 100) = s.money - 100 := by
      have := roundDouble_natCast (b - 100) (by omega)
      rw [Nat.cast_sub (by omega)] at this
      rw [hb1]
      norm_num at this ⊢
      exact this
    have hmoney : (buySpeedUpgrade (fun _ => 0) s).money = s.money - 100 := by
      rw [buySpeedUpgrade, h]
      simp only [purchased, onBuy_money]
      norm_num [r100]
      rw [hsub, if_neg (not_lt.mpr (by linarith))]
    refine ⟨s, hr, hget, by rw [hup]; rfl, hcan, by linarith, hmoney, ?_⟩
    rw [hmoney]
    intro e
    linarith

/-! ## Looking up and buying a given upgrade -/

theorem upgradeOf_of_Inv (k : UpgradeKind) (s : Game) (h : Inv s) :
    ∃ u, getUpgrade k.key s = some k.index ∧ s.upgrades[k.index]? = some u ∧
      upgradeOf k s = some u ∧ u.name = k.key ∧ u.kind = k := by
  obtain ⟨u0, u1, u2, u3, u4, hl, n0, n1, n2, n3, n4, k0, k1, k2, k3, k4⟩ := upgrades_shape s h
  have hg : getUpgrade k.key s = some k.index := by
    unfold getUpgrade
    rw [hl]
    cases k <;> simp [UpgradeKind.key, UpgradeKind.index, List.findIdx?, n0, n1, n2, n3, n4]
  unfold upgradeOf
  rw [hg, hl]
  cases k
  · exact ⟨u0, rfl, rfl, rfl, n0, k0⟩
  · exact ⟨u1, rfl, rfl, rfl, n1, k1⟩
  · exact ⟨u2, rfl, rfl, rfl, n2, k2⟩
  · exact ⟨u3, rfl, rfl, rfl, n3, k3⟩
  · exact ⟨u4, rfl, rfl, rfl, n4, k4⟩

theorem buy_of_succeeds (k : UpgradeKind) (r : Rand) (s : Game) (h : Inv s)
    (hb : buySucceeds k s = true) :
    ∃ u, upgradeOf k s = some u ∧ s.upgrades[k.index]? = some u ∧ u.kind = k ∧
      u.price ≤ s.money ∧ canBuy k s = true ∧
      (Action.buy k r).apply s = purchased k.index u r s := by
  obtain ⟨u, hg, hu, ho, _, hk⟩ := upgradeOf_of_Inv k s h
  unfold buySucceeds at hb
  rw [ho] at hb
  simp only [Bool.and_eq_true, decide_eq_true_eq, hk] at hb
  refine ⟨u, ho, hu, hk, hb.1, hb.2, ?_⟩
  rw [apply_buy]
  exact buyNamed_success k.key r s k.index u hg hu hb.1 (by rw [hk]; exact hb.2)

theorem buy_of_not_succeeds (k : UpgradeKind) (r : Rand) (s : Game)
    (hb : buySucceeds k s = false) : (Action.buy k r).apply s = s := by
  rw [apply_buy]
  apply buyNamed_fail
  intro i u hi hu
  have ho : upgradeOf k s = some u := by
    unfold upgradeOf
    rw [hi]
    exact hu
  unfold buySucceeds at hb
  rw [ho] at hb
  simp only [Bool.and_eq_false_imp, decide_eq_true_eq] at hb
  by_cases hm : s.money < u.price
  · exact Or.inl hm
  · exact Or.inr (hb (not_lt.mp hm))

theorem upgradeOf_purchased (k k2 : UpgradeKind) (r : Rand) (s : Game) (h : Inv s)
    (u : Upgrade) (hu : upgradeOf k s = some u) :
    upgradeOf k2 (purchased k.index u r s) =
      if k2 = k then
        some { u with level := u.level + 1, price := roundDouble (u.price * u.multiplier) }
      else upgradeOf k2 s := by
  obtain ⟨u0, u1, u2, u3, u4, hl, n0, n1, n2, n3, n4, k0, k1, k2', k3, k4⟩ :=
    upgrades_shape s h
  have hup : (purchased k.index u r s).upgrades
      = s.upgrades.set k.index
          { u with level := u.level + 1, price := roundDouble (u.price * u.multiplier) } := by
    unfold purchased
    simp only [onBuy_upgrades]
  unfold upgradeOf getUpgrade at hu ⊢
  rw [hup]
  rw [hl] at hu ⊢
  cases k <;> cases k2 <;>
    simp [UpgradeKind.key, UpgradeKind.index, List.findIdx?, n0, n1, n2, n3, n4] at hu ⊢ <;>
    subst hu <;>
    simp [n0, n1, n2, n3, n4]

theorem upgradeOf_congr (k : UpgradeKind) (s t : Game) (h : t.upgrades = s.upgrades) :
    upgradeOf k t = upgradeOf k s := by
  unfold upgradeOf getUpgrade
  rw [h]

theorem upgradeOf_mem (k : UpgradeKind) (s : Game) (u : Upgrade)
    (hu : upgradeOf k s = some u) : u ∈ s.upgrades := by
  unfold upgradeOf at hu
  split at hu
  · exact absurd hu (by simp)
  · exact List.getElem?_mem hu

theorem sizeMultiplier_eq : sizeMultiplier = 5854679515581645 / 4503599627370496 := by
  unfold sizeMultiplier
  rw [roundDouble_eval 1.3 0 5854679515581645 (by norm_num) (by norm_num) (by norm_num)
    (by rw [abs_lt]; constructor <;> norm_num)]
  norm_num

theorem growthMultiplier_eq : growthMultiplier = 2589569785738035 / 2251799813685248 := by
  unfold growthMultiplier
  rw [roundDouble_eval 1.15 0 5179139571476070 (by norm_num) (by norm_num) (by norm_num)
    (by rw [abs_lt]; constructor <;> norm_num)]
  norm_num

theorem dayMultiplier_eq : dayMultiplier = 2589569785738035 / 2251799813685248 :=
  growthMultiplier_eq

theorem multiplier_bounds (s : Game) (hp : PricesOk s) (u : Upgrade) (hu : u ∈ s.upgrades) :
    1 ≤ u.multiplier ∧ u.multiplier ≤ 5 / 2 := by
  have hm : u.multiplier ∈ s.upgrades.map (fun u => u.multiplier) :=
    List.mem_map_of_mem _ hu
  rw [hp.2, sizeMultiplier_eq, growthMultiplier_eq, dayMultiplier_eq] at hm
  simp only [List.mem_cons, List.mem_singleton, List.not_mem_nil, or_false] at hm
  rcases hm with h | h | h | h | h <;> rw [h] <;> constructor <;> norm_num

theorem multiplier_ge_one (s : Game) (hp : PricesOk s) (u : Upgrade) (hu : u ∈ s.upgrades) :
    1 ≤ u.multiplier :=
  (multiplier_bounds s hp u hu).1

/-- A positive double times a factor of at least 1, rounded, is a double that
is not smaller. -/
theorem roundDouble_mul_ge (p m : ℚ) (hp : 0 < p) (hd : roundDouble p = p) (hm : 1 ≤ m) :
    p ≤ roundDouble (p * m) ∧ 0 < roundDouble (p * m) ∧
    roundDouble (roundDouble (p * m)) = roundDouble (p * m) := by
  have h1 : p ≤ p * m := by nlinarith
  have h2 := roundDouble_mono p (p * m) (le_of_lt hp) h1
  rw [hd] at h2
  exact ⟨h2, lt_of_lt_of_le hp h2, roundDouble_idem_nonneg _ (by linarith)⟩

theorem PricesOk_initialGame (r : Rand) (now : Int) : PricesOk (initialGame r now) := by
  have hup : (initialGame r now).upgrades = initializeUpgrades := rfl
  unfold PricesOk
  rw [hup]
  refine ⟨?_, rfl⟩
  intro u hu
  simp only [initializeUpgrades, List.mem_cons, List.mem_singleton, List.not_mem_nil,
    or_false] at hu
  have r50 := roundDouble_natCast 50 (by norm_num)
  have r75 := roundDouble_natCast 75 (by norm_num)
  have r150 := roundDouble_natCast 150 (by norm_num)
  have r10 := roundDouble_natCast 10 (by norm_num)
  have r5 := roundDouble_natCast 5 (by norm_num)
  norm_num at r50 r75 r150 r10 r5
  rcases hu with h | h | h | h | h <;> rw [h] <;> norm_num <;> assumption

theorem PricesOk_congr (s t : Game) (h : t.upgrades = s.upgrades) (hp : PricesOk s) :
    PricesOk t := by
  unfold PricesOk
  rw [h]
  exact hp

theorem PricesOk_purchased (i : Nat) (u : Upgrade) (r : Rand) (s : Game) (hp : PricesOk s)
    (hu : s.upgrades[i]? = some u) : PricesOk (purchased i u r s) := by
  have hmem : u ∈ s.upgrades := List.getElem?_mem hu
  have hm := multiplier_ge_one s hp u hmem
  have hup : (purchased i u r s).upgrades
      = s.upgrades.set i { u with level := u.level + 1, price := roundDouble (u.price * u.multiplier) } := by
    unfold purchased
    simp only [onBuy_upgrades]
  unfold PricesOk
  rw [hup]
  constructor
  · intro v hv
    rcases List.mem_or_eq_of_mem_set hv with h1 | h1
    · exact hp.1 v h1
    · rw [h1]
      have := hp.1 u hmem
      obtain ⟨g1, g2, g3⟩ := roundDouble_mul_ge u.price u.multiplier this.1 this.2.2 hm
      exact ⟨g2, by simp only; omega, g3⟩
  · refine (map_set_same _ _ i u _ hu ?_).trans hp.2
    rfl

theorem PricesOk_apply (a : Action) (s : Game) (hp : PricesOk s) : PricesOk (a.apply s) := by
  cases a with
  | tick t r => exact PricesOk_congr s _ (gameUpdate_sameConfig t r s).2.2.2.2.2.2 hp
  | buy k r =>
      rw [apply_buy]
      rcases buyNamed_cases k.key r s with h1 | ⟨i, u, _, hu, _, _, h1⟩
      · rw [h1]; exact hp
      · rw [h1]; exact PricesOk_purchased i u r s hp hu

theorem PricesOk_run (as : List Action) (s : Game) (hp : PricesOk s) : PricesOk (run as s) := by
  induction as generalizing s with
  | nil => exact hp
  | cons a as ih => exact ih _ (PricesOk_apply a s hp)

theorem PricesOk_of_Reachable (s : Game) (h : Reachable s) : PricesOk s := by
  obtain ⟨r, now, as, rfl⟩ := h
  exact PricesOk_run as _ (PricesOk_initialGame r now)

/-! ## Bounds on the settings -/

/-- C12: in every reachable state `1 ≤ herdSpeed ≤ 50`,
`4 ≤ growthAmount ≤ 100`, `1 ≤ dayRate ≤ 1000` and the zoom index
`fieldSize` lies between 0 and 7. -/
theorem C12_settings_bounded (s : Game) (h : Reachable s) :
    (1 ≤ s.herdSpeed ∧ s.herdSpeed ≤ 50) ∧
    (4 ≤ s.growthAmount ∧ s.growthAmount ≤ 100) ∧
    (1 ≤ s.dayRate ∧ s.dayRate ≤ 1000) ∧
    (0 ≤ s.fieldSize ∧ s.fieldSize ≤ 7) := by
  have hi := Inv_of_Reachable s h
  exact ⟨⟨hi.speed_lo, hi.speed_hi⟩, ⟨hi.growth_lo, hi.growth_hi⟩,
    ⟨hi.day_lo, hi.day_hi⟩, ⟨hi.zoom_lo, hi.zoom_hi⟩⟩

/-- Witness for C12 at the state `sampleRun`. -/
theorem C12_settings_bounded_witness :
    (1 ≤ sampleRun.herdSpeed ∧ sampleRun.herdSpeed ≤ 50) ∧
    (4 ≤ sampleRun.growthAmount ∧ sampleRun.growthAmount ≤ 100) ∧
    (1 ≤ sampleRun.dayRate ∧ sampleRun.dayRate ≤ 1000) ∧
    (0 ≤ sampleRun.fieldSize ∧ sampleRun.fieldSize ≤ 7) :=
  C12_settings_bounded sampleRun Reachable_sampleRun

/-! ## Price and level of an upgrade over time -/

theorem upgradeOf_buy_succeeds (k : UpgradeKind) (r : Rand) (s : Game) (h : Inv s)
    (hb : buySucceeds k s = true) :
    ∃ u, upgradeOf k s = some u ∧
      upgradeOf k ((Action.buy k r).apply s)
        = some { u with level := u.level + 1, price := roundDouble (u.price * u.multiplier) } := by
  obtain ⟨u, ho, _, _, _, _, hbuy⟩ := buy_of_succeeds k r s h hb
  refine ⟨u, ho, ?_⟩
  rw [hbuy, upgradeOf_purchased k k r s h u ho, if_pos rfl]

theorem upgradeOf_buy_other (k k2 : UpgradeKind) (r : Rand) (s : Game) (h : Inv s)
    (hne : k2 ≠ k) : upgradeOf k ((Action.buy k2 r).apply s) = upgradeOf k s := by
  cases hb : buySucceeds k2 s with
  | false => rw [buy_of_not_succeeds k2 r s hb]
  | true =>
      obtain ⟨u, ho, _, _, _, _, hbuy⟩ := buy_of_succeeds k2 r s h hb
      rw [hbuy, upgradeOf_purchased k2 k r s h u ho, if_neg (fun e => hne e.symm)]

theorem upgradeOf_tick (k : UpgradeKind) (t : Int) (r : Rand) (s : Game) :
    upgradeOf k (gameUpdate t r s) = upgradeOf k s :=
  upgradeOf_congr k s _ (gameUpdate_sameConfig t r s).2.2.2.2.2.2

theorem price_level_step (k : UpgradeKind) (a : Action) (s : Game) (h : Inv s)
    (hp : PricesOk s) :
    priceOf k s ≤ priceOf k (a.apply s) ∧ levelOf k s ≤ levelOf k (a.apply s) := by
  cases a with
  | tick t r =>
      unfold priceOf levelOf
      rw [Action.apply, upgradeOf_tick]
      exact ⟨le_refl _, le_refl _⟩
  | buy k2 r =>
      by_cases hk : k2 = k
      · subst hk
        cases hb : buySucceeds k2 s with
        | false =>
            rw [buy_of_not_succeeds k2 r s hb]
            exact ⟨le_refl _, le_refl _⟩
        | true =>
            obtain ⟨u, ho, ho2⟩ := upgradeOf_buy_succeeds k2 r s h hb
            have hmem := upgradeOf_mem k2 s u ho
            have h1 := (hp.1 u hmem).1
            have h2 := multiplier_ge_one s hp u hmem
            unfold priceOf levelOf
            rw [ho, ho2]
            simp only
            constructor
            · exact (roundDouble_mul_ge u.price u.multiplier h1 (hp.1 u hmem).2.2 h2).1
            · omega
      · unfold priceOf levelOf
        rw [upgradeOf_buy_other k k2 r s h hk]
        exact ⟨le_refl _, le_refl _⟩

theorem price_level_run (k : UpgradeKind) (as : List Action) (s : Game) (h : Inv s)
    (hp : PricesOk s) :
    priceOf k s ≤ priceOf k (run as s) ∧ levelOf k s ≤ levelOf k (run as s) := by
  induction as generalizing s with
  | nil => exact ⟨le_refl _, le_refl _⟩
  | cons a as ih =>
      obtain ⟨a1, a2⟩ := price_level_step k a s h hp
      obtain ⟨b1, b2⟩ := ih (a.apply s) (Inv_apply a s h) (PricesOk_apply a s hp)
      exact ⟨le_trans a1 b1, le_trans a2 b2⟩

theorem multiplierOf_eq (s : Game) (hi : Inv s) (hp : PricesOk s) :
    multiplierOf .herdSpeed s = 2 ∧ multiplierOf .herdSize s = sizeMultiplier ∧
    multiplierOf .fieldSize s = 5 / 2 ∧ multiplierOf .growthRate s = growthMultiplier ∧
    multiplierOf .dayRate s = dayMultiplier := by
  obtain ⟨u0, u1, u2, u3, u4, hl, _⟩ := upgrades_shape s hi
  have hm := hp.2
  rw [hl] at hm
  simp only [List.map_cons, List.map_nil, List.cons.injEq, and_true] at hm
  obtain ⟨m0, m1, m2, m3, m4⟩ := hm
  have key : ∀ k : UpgradeKind, ∃ u, [u0, u1, u2, u3, u4][k.index]? = some u ∧
      multiplierOf k s = u.multiplier := by
    intro k
    obtain ⟨u, _, hu, ho, _⟩ := upgradeOf_of_Inv k s hi
    rw [hl] at hu
    exact ⟨u, hu, by unfold multiplierOf; rw [ho]⟩
  refine ⟨?_, ?_, ?_, ?_, ?_⟩
  · obtain ⟨u, hu, hm⟩ := key .herdSpeed
    have e : u0 = u := by simpa [UpgradeKind.index] using hu
    rw [hm, ← e, m0]
    norm_num
  · obtain ⟨u, hu, hm⟩ := key .herdSize
    have e : u1 = u := by simpa [UpgradeKind.index] using hu
    rw [hm, ← e, m1]
  · obtain ⟨u, hu, hm⟩ := key .fieldSize
    have e : u2 = u := by simpa [UpgradeKind.index] using hu
    rw [hm, ← e, m2]
    norm_num
  · obtain ⟨u, hu, hm⟩ := key .growthRate
    have e : u3 = u := by simpa [UpgradeKind.index] using hu
    rw [hm, ← e, m3]
  · obtain ⟨u, hu, hm⟩ := key .dayRate
    have e : u4 = u := by simpa [UpgradeKind.index] using hu
    rw [hm, ← e, m4]

theorem multiplierOf_buy (k k2 : UpgradeKind) (r : Rand) (s : Game) (hi : Inv s) :
    multiplierOf k ((Action.buy k2 r).apply s) = multiplierOf k s := by
  cases hb : buySucceeds k2 s with
  | false => rw [buy_of_not_succeeds k2 r s hb]
  | true =>
      obtain ⟨u, ho, _, _, _, _, hbuy⟩ := buy_of_succeeds k2 r s hi hb
      unfold multiplierOf
      rw [hbuy, upgradeOf_purchased k2 k r s hi u ho]
      by_cases hk : k = k2
      · rw [if_pos hk, hk, ho]
      · rw [if_neg hk]

/-- C13 (amended): for every upgrade `k` in a reachable state: a successful
purchase of `k` raises its level by exactly 1 and replaces its price `p` by
the double product `p * multiplier`, that is the exact product rounded to the
nearest double, which is at least `p`; the multiplier itself is never changed;
a tick, a failed purchase of `k` and a purchase of another upgrade leave its
price and level as they were; so along every run price and level never
decrease. -/
theorem C13_price_and_level (s : Game) (h : Reachable s) (k : UpgradeKind) :
    (∀ r, buySucceeds k s = true →
      levelOf k ((Action.buy k r).apply s) = levelOf k s + 1 ∧
      priceOf k ((Action.buy k r).apply s) = roundDouble (priceOf k s * multiplierOf k s) ∧
      priceOf k s ≤ roundDouble (priceOf k s * multiplierOf k s) ∧
      multiplierOf k ((Action.buy k r).apply s) = multiplierOf k s) ∧
    (∀ t r, priceOf k ((Action.tick t r).apply s) = priceOf k s ∧
      levelOf k ((Action.tick t r).apply s) = levelOf k s) ∧
    (∀ r, buySucceeds k s = false →
      priceOf k ((Action.buy k r).apply s) = priceOf k s ∧
      levelOf k ((Action.buy k r).apply s) = levelOf k s) ∧
    (∀ k2 r, k2 ≠ k →
      priceOf k ((Action.buy k2 r).apply s) = priceOf k s ∧
      levelOf k ((Action.buy k2 r).apply s) = levelOf k s) ∧
    (∀ as, priceOf k s ≤ priceOf k (run as s) ∧ levelOf k s ≤ levelOf k (run as s)) := by
  have hi := Inv_of_Reachable s h
  have hp := PricesOk_of_Reachable s h
  refine ⟨?_, ?_, ?_, ?_, fun as => price_level_run k as s hi hp⟩
  · intro r hb
    obtain ⟨u, ho, ho2⟩ := upgradeOf_buy_succeeds k r s hi hb
    have hmem := upgradeOf_mem k s u ho
    have h1 := (hp.1 u hmem).1
    have h2 := multiplier_ge_one s hp u hmem
    refine ⟨?_, ?_, ?_, multiplierOf_buy k k r s hi⟩
    · unfold levelOf
      rw [ho, ho2]
    · unfold priceOf multiplierOf
      rw [ho, ho2]
    · unfold priceOf multiplierOf
      rw [ho]
      exact (roundDouble_mul_ge u.price u.multiplier h1 (hp.1 u hmem).2.2 h2).1
  · intro t r
    unfold priceOf levelOf
    rw [Action.apply, upgradeOf_tick]
    exact ⟨rfl, rfl⟩
  · intro r hb
    rw [buy_of_not_succeeds k r s hb]
    exact ⟨rfl, rfl⟩
  · intro k2 r hne
    unfold priceOf levelOf
    rw [upgradeOf_buy_other k k2 r s hi hne]
    exact ⟨rfl, rfl⟩

/-! ## Herd size purchases -/

theorem buySucceeds_iff (k : UpgradeKind) (s : Game) (h : Inv s) :
    buySucceeds k s = true ↔ (priceOf k s ≤ s.money ∧ canBuy k s = true) := by
  obtain ⟨u, _, _, ho, _, hk⟩ := upgradeOf_of_Inv k s h
  unfold buySucceeds priceOf
  rw [ho]
  simp only [Bool.and_eq_true, decide_eq_true_eq, hk, ge_iff_le]

theorem reach_buyable (k : UpgradeKind) (s : Game) (h : Reachable s)
    (hc : canBuy k s = true) (hp : priceOf k s ≤ 2 ^ 52 - 1) :
    ∃ s2, Reachable s2 ∧ sameConfig s s2 ∧ buySucceeds k s2 = true := by
  obtain ⟨s2, hr2, hcfg, hm⟩ := reach_rich (priceOf k s) hp s h
  refine ⟨s2, hr2, hcfg, ?_⟩
  rw [buySucceeds_iff k s2 (Inv_of_Reachable s2 hr2)]
  constructor
  · unfold priceOf
    rw [upgradeOf_congr k s s2 hcfg.2.2.2.2.2.2]
    exact hm
  · rw [canBuy_congr k s s2 hcfg]
    exact hc

theorem purchased_herdSize (i : Nat) (u : Upgrade) (r : Rand) (s : Game)
    (hk : u.kind = .herdSize) :
    (purchased i u r s).herdX = 0 ∧ (purchased i u r s).herdY = 0 ∧
    (purchased i u r s).herdWidth
      = (if s.herdWidth = s.herdHeight then s.herdWidth + 1 else s.herdWidth) ∧
    (purchased i u r s).herdHeight
      = (if s.herdWidth = s.herdHeight then s.herdHeight else s.herdHeight + 1) ∧
    (purchased i u r s).fieldSize = s.fieldSize ∧
    (purchased i u r s).herdDirectionUp = s.herdDirectionUp ∧
    (purchased i u r s).grid = s.grid ∧
    (purchased i u r s).lastDay = s.lastDay ∧
    (purchased i u r s).superExtra = s.superExtra ∧
    (purchased i u r s).superDays = s.superDays := by
  unfold purchased
  rw [hk]
  by_cases hwh : s.herdWidth = s.herdHeight
  · simp [onBuy, hwh]
  · simp [onBuy, hwh]

theorem priceOf_initialGame (r : Rand) (now : Int) :
    priceOf .herdSpeed (initialGame r now) = 50 ∧ priceOf .herdSize (initialGame r now) = 75 ∧
    priceOf .fieldSize (initialGame r now) = 150 ∧
    priceOf .growthRate (initialGame r now) = 10 ∧ priceOf .dayRate (initialGame r now) = 5 :=
  ⟨rfl, rfl, rfl, rfl, rfl⟩

/-- The rounded product of a positive price and a multiplier of at most 5/2
stays below three times the price. -/
theorem roundDouble_mul_le (p m : ℚ) (hp : 0 < p) (hm1 : 1 ≤ m) (hm2 : m ≤ 5 / 2) :
    roundDouble (p * m) ≤ 3 * p := by
  have hx : 0 < p * m := by nlinarith
  have herr := roundDouble_err (p * m) hx
  rw [abs_le] at herr
  have hb : p * m / (2 : ℚ) ^ (53 : Nat) ≤ p * m := by
    rw [div_le_iff₀ (by norm_num)]
    nlinarith
  have : p * m ≤ 5 / 2 * p := by nlinarith
  nlinarith [herr.2]

theorem buy_size_step (s : Game) (h : Reachable s) (hf : s.fieldSize = 0)
    (hw : s.herdWidth < 10) (hh : s.herdHeight < 10)
    (hp : priceOf .herdSize s ≤ 2 ^ 52 - 1) :
    ∃ s2, Reachable s2 ∧ s2.fieldSize = 0 ∧
      s2.herdWidth = (if s.herdWidth = s.herdHeight then s.herdWidth + 1 else s.herdWidth) ∧
      s2.herdHeight = (if s.herdWidth = s.herdHeight then s.herdHeight else s.herdHeight + 1) ∧
      priceOf .herdSize s2 = roundDouble (priceOf .herdSize s * sizeMultiplier) ∧
      priceOf .fieldSize s2 = priceOf .fieldSize s := by
  have hc : canBuy .herdSize s = true := by
    have e : height / fieldSizeAt 0 = 10 := by decide
    simp only [canBuy, hf, e, Bool.and_eq_true, decide_eq_true_eq]
    exact ⟨hh, hw⟩
  obtain ⟨s1, hr1, hcfg, hb⟩ := reach_buyable .herdSize s h hc hp
  obtain ⟨c1, c2, _, _, c5, _, c7⟩ := hcfg
  have hi1 := Inv_of_Reachable s1 hr1
  have hp1 := PricesOk_of_Reachable s1 hr1
  obtain ⟨u, ho, _, hk, _, _, hbuy⟩ := buy_of_succeeds .herdSize (fun _ => 0) s1 hi1 hb
  obtain ⟨_, _, p3, p4, p5, _⟩ :=
    purchased_herdSize UpgradeKind.herdSize.index u (fun _ => 0) s1 hk
  have hm : u.multiplier = sizeMultiplier := by
    have := (multiplierOf_eq s1 hi1 hp1).2.1
    unfold multiplierOf at this
    rw [ho] at this
    exact this
  have hpr : u.price = priceOf .herdSize s := by
    unfold priceOf
    rw [← upgradeOf_congr .herdSize s s1 c7, ho]
  refine ⟨(Action.buy .herdSize (fun _ => 0)).apply s1,
    Reachable_run [Action.buy .herdSize (fun _ => 0)] s1 hr1, ?_, ?_, ?_, ?_, ?_⟩
  · rw [hbuy, p5, c5, hf]
  · rw [hbuy, p3, c1, c2]
  · rw [hbuy, p4, c1, c2]
  · unfold priceOf
    rw [hbuy, upgradeOf_purchased .herdSize .herdSize (fun _ => 0) s1 hi1 u ho, if_pos rfl]
    simp only
    rw [hm, hpr]
    rfl
  · unfold priceOf
    rw [hbuy, upgradeOf_purchased .herdSize .fieldSize (fun _ => 0) s1 hi1 u ho,
      if_neg (by decide), upgradeOf_congr .fieldSize s s1 c7]

theorem herd_grows (n : Nat) (hn : n ≤ 17) :
    ∃ s, Reachable s ∧ s.fieldSize = 0 ∧
      s.herdWidth = 1 + (((n + 1) / 2 : Nat) : Int) ∧
      s.herdHeight = 1 + ((n / 2 : Nat) : Int) ∧
      0 < priceOf .herdSize s ∧ priceOf .herdSize s ≤ 75 * 3 ^ n ∧
      priceOf .fieldSize s = 150 := by
  induction n with
  | zero =>
      refine ⟨initialGame (fun _ => 0) 0, ⟨fun _ => 0, 0, [], rfl⟩, rfl, rfl, rfl, ?_, ?_, ?_⟩
      · rw [(priceOf_initialGame _ _).2.1]; norm_num
      · rw [(priceOf_initialGame _ _).2.1]; norm_num
      · exact (priceOf_initialGame _ _).2.2.1
  | succ n ih =>
      obtain ⟨s, hr, hf, hw, hh, hp0, hp, hpf⟩ := ih (by omega)
      have hpow : (3 : ℚ) ^ n ≤ 3 ^ 16 := pow_le_pow_right₀ (by norm_num) (by omega)
      obtain ⟨s2, hr2, hf2, hw2, hh2, hp2, hpf2⟩ := buy_size_step s hr hf (by omega) (by omega)
        (by
          have : (75 : ℚ) * 3 ^ 16 ≤ 2 ^ 52 - 1 := by norm_num
          linarith)
      have hm1 : (1 : ℚ) ≤ sizeMultiplier := by rw [sizeMultiplier_eq]; norm_num
      have hm2 : sizeMultiplier ≤ 5 / 2 := by rw [sizeMultiplier_eq]; norm_num
      have hle := roundDouble_mul_le (priceOf .herdSize s) sizeMultiplier hp0 hm1 hm2
      have hpos : 0 < roundDouble (priceOf .herdSize s * sizeMultiplier) :=
        roundDouble_pos _ (by nlinarith)
      refine ⟨s2, hr2, hf2, ?_, ?_, ?_, ?_, ?_⟩
      · rw [hw2]; split <;> omega
      · rw [hh2]; split <;> omega
      · rw [hp2]; exact hpos
      · rw [hp2, pow_succ]
        linarith
      · rw [hpf2, hpf]

theorem reach_full_herd :
    ∃ s, Reachable s ∧ s.fieldSize = 0 ∧ s.herdWidth = 10 ∧ s.herdHeight = 9 ∧
      priceOf .fieldSize s = 150 := by
  obtain ⟨s, hr, hf, hw, hh, _, _, hpf⟩ := herd_grows 17 (le_refl _)
  exact ⟨s, hr, hf, by rw [hw]; decide, by rw [hh]; decide, hpf⟩

/-- C4 (fails on the code): there is a reachable state in which the herd size
upgrade is unavailable (herd 10 x 9 on the 10 x 10 grid) and a click on the
field size button makes it available again, since the grid grows to
20 x 20. -/
theorem C4_size_upgrade_available_again :
    ∃ (s : Game) (r : Rand), Reachable s ∧ canBuy .herdSize s = false ∧
      canBuy .herdSize ((Action.buy .fieldSize r).apply s) = true := by
  obtain ⟨s, hr, hf, hw, hh, hpf⟩ := reach_full_herd
  have hcf : canBuy .fieldSize s = true := by
    simp only [canBuy, hf]
    decide
  obtain ⟨s1, hr1, ⟨c1, c2, _, _, c5, _, c7⟩, hb⟩ := reach_buyable .fieldSize s hr hcf
    (by rw [hpf]; norm_num)
  obtain ⟨u, _, _, hk, _, _, hbuy⟩ :=
    buy_of_succeeds .fieldSize (fun _ => 0) s1 (Inv_of_Reachable s1 hr1) hb
  refine ⟨s1, fun _ => 0, hr1, ?_, ?_⟩
  · simp only [canBuy, c1, c2, c5, hf, hw, hh]
    decide
  · rw [hbuy, canBuy_purchased, hk]
    simp only [canBuy, onBuy, regenerateField, generateField, c1, c2, c5, hf, hw, hh]
    decide

/-- Witness for C4 (amended): from a reachable state with a 10 x 9 herd on
the 10 x 10 grid, where the herd size upgrade is unavailable, a tick and a
click on the herd size button leave it unavailable. -/
theorem C4_unavailable_stays_unavailable_witness :
    ∃ s, Reachable s ∧ canBuy .herdSize s = false ∧
      canBuy .herdSize
        (run [Action.tick 0 (fun _ => 0), Action.buy .herdSize (fun _ => 0)] s) = false := by
  obtain ⟨s, hr, hf, hw, hh, _⟩ := reach_full_herd
  have hc : canBuy .herdSize s = false := by
    simp only [canBuy, hf, hw, hh]
    decide
  exact ⟨s, hr, hc, C4_unavailable_stays_unavailable s hr .herdSize _
    (fun _ a ha => by
      simp only [List.mem_cons, List.mem_singleton, List.not_mem_nil, or_false] at ha
      rcases ha with rfl | rfl <;> rfl) hc⟩

/-- C11 (fails on the code): there is a reachable state (herd 9 x 9 on the
10 x 10 grid, enough money) in which the herd size purchase takes effect
although the width after the purchase, 10, is not strictly less than the grid
extent 10. -/
theorem C11_new_width_reaches_extent :
    ∃ (s : Game) (r : Rand), Reachable s ∧ buySucceeds .herdSize s = true ∧
      (Action.buy .herdSize r).apply s ≠ s ∧
      height / fieldSizeAt s.fieldSize = 10 ∧
      ((Action.buy .herdSize r).apply s).herdWidth = 10 ∧
      ¬ (((Action.buy .herdSize r).apply s).herdWidth < height / fieldSizeAt s.fieldSize ∧
         ((Action.buy .herdSize r).apply s).herdHeight < height / fieldSizeAt s.fieldSize) := by
  obtain ⟨s0, hr0, hf0, hw0, hh0, _, hp0, _⟩ := herd_grows 16 (by decide)
  have hw0' : s0.herdWidth = 9 := by rw [hw0]; decide
  have hh0' : s0.herdHeight = 9 := by rw [hh0]; decide
  have hc0 : canBuy .herdSize s0 = true := by
    simp only [canBuy, hf0, hw0', hh0']
    decide
  obtain ⟨s, hr, ⟨c1, c2, _, _, c5, _, _⟩, hb⟩ := reach_buyable .herdSize s0 hr0 hc0
    (by
      have : (75 : ℚ) * 3 ^ 16 ≤ 2 ^ 52 - 1 := by norm_num
      linarith)
  have hi := Inv_of_Reachable s hr
  obtain ⟨u, _, _, hk, _, _, hbuy⟩ := buy_of_succeeds .herdSize (fun _ => 0) s hi hb
  obtain ⟨_, _, p3, _, _⟩ := purchased_herdSize UpgradeKind.herdSize.index u (fun _ => 0) s hk
  have hext : height / fieldSizeAt s.fieldSize = 10 := by rw [c5, hf0]; decide
  have hw : ((Action.buy .herdSize (fun _ => 0)).apply s).herdWidth = 10 := by
    rw [hbuy, p3, c1, c2, hw0', hh0']
    decide
  refine ⟨s, fun _ => 0, hr, hb, ?_, hext, hw, ?_⟩
  · intro e
    rw [e, c1, hw0'] at hw
    exact absurd hw (by decide)
  · rw [hext, hw]
    intro hh
    exact absurd hh.1 (by decide)

/-- C11 (amended): in a reachable state a herd size purchase takes effect
only if the current width and the current height of the herd are both
strictly less than the grid extent `height / fieldSizes[fieldSize]`; after
it the width is at most the extent and the height strictly less. -/
theorem C11_size_gate_on_current_dims (s : Game) (h : Reachable s) (r : Rand)
    (hne : (Action.buy .herdSize r).apply s ≠ s) :
    s.herdWidth < height / fieldSizeAt s.fieldSize ∧
    s.herdHeight < height / fieldSizeAt s.fieldSize ∧
    ((Action.buy .herdSize r).apply s).herdWidth ≤ height / fieldSizeAt s.fieldSize ∧
    ((Action.buy .herdSize r).apply s).herdHeight < height / fieldSizeAt s.fieldSize := by
  have hi := Inv_of_Reachable s h
  cases hb : buySucceeds .herdSize s with
  | false => exact absurd (buy_of_not_succeeds .herdSize r s hb) hne
  | true =>
      obtain ⟨u, _, _, hk, _, hc, hbuy⟩ := buy_of_succeeds .herdSize r s hi hb
      obtain ⟨_, _, p3, p4, _⟩ := purchased_herdSize UpgradeKind.herdSize.index u r s hk
      simp only [canBuy, Bool.and_eq_true, decide_eq_true_eq] at hc
      have h1 := hi.height_le_width
      have h2 := hi.width_le_succ
      rw [hbuy, p3, p4]
      refine ⟨hc.2, hc.1, ?_, ?_⟩
      · split <;> omega
      · split <;> omega

theorem buy_changes_state (k : UpgradeKind) (r : Rand) (s : Game) (h : Inv s)
    (hb : buySucceeds k s = true) : (Action.buy k r).apply s ≠ s := by
  obtain ⟨u, ho, ho2⟩ := upgradeOf_buy_succeeds k r s h hb
  intro e
  rw [e, ho] at ho2
  have hl := congrArg (fun o => (Option.map (fun v => v.level) o)) ho2
  simp only [Option.map_some'] at hl
  have := Option.some.inj hl
  omega

/-- Witness for C11 (amended): some reachable state in which the herd size
purchase takes effect. -/
theorem C11_size_gate_on_current_dims_witness :
    ∃ (s : Game), Reachable s ∧
      (Action.buy .herdSize (fun _ => 0)).apply s ≠ s ∧
      s.herdWidth < height / fieldSizeAt s.fieldSize ∧
      s.herdHeight < height / fieldSizeAt s.fieldSize ∧
      ((Action.buy .herdSize (fun _ => 0)).apply s).herdWidth
        ≤ height / fieldSizeAt s.fieldSize ∧
      ((Action.buy .herdSize (fun _ => 0)).apply s).herdHeight
        < height / fieldSizeAt s.fieldSize := by
  obtain ⟨s, hr, _, hb⟩ := reach_buyable .herdSize (initialGame (fun _ => 0) 0)
    ⟨fun _ => 0, 0, [], rfl⟩ (by decide) (by rw [(priceOf_initialGame _ _).2.1]; norm_num)
  have hne := buy_changes_state .herdSize (fun _ => 0) s (Inv_of_Reachable s hr) hb
  exact ⟨s, hr, hne, C11_size_gate_on_current_dims s hr (fun _ => 0) hne⟩

theorem purchased_other_dims (i : Nat) (u : Upgrade) (r : Rand) (s : Game)
    (hk : u.kind ≠ .herdSize) :
    (purchased i u r s).herdWidth = s.herdWidth ∧
    (purchased i u r s).herdHeight = s.herdHeight := by
  unfold purchased
  cases hu : u.kind with
  | herdSize => exact absurd hu hk
  | herdSpeed => exact ⟨rfl, rfl⟩
  | fieldSize => exact ⟨rfl, rfl⟩
  | growthRate => exact ⟨rfl, rfl⟩
  | dayRate => exact ⟨rfl, rfl⟩

theorem buy_other_dims (k : UpgradeKind) (r : Rand) (s : Game) (h : Inv s)
    (hk : k ≠ .herdSize) :
    ((Action.buy k r).apply s).herdWidth = s.herdWidth ∧
    ((Action.buy k r).apply s).herdHeight = s.herdHeight := by
  cases hb : buySucceeds k s with
  | false => rw [buy_of_not_succeeds k r s hb]; exact ⟨rfl, rfl⟩
  | true =>
      obtain ⟨u, _, _, hku, _, _, hbuy⟩ := buy_of_succeeds k r s h hb
      rw [hbuy]
      exact purchased_other_dims k.index u r s (by rw [hku]; exact hk)

theorem herd_dims_run (as : List Action) :
    ∀ (s : Game) (m : Nat), Inv s →
      s.herdWidth = 1 + (((m + 1) / 2 : Nat) : Int) →
      s.herdHeight = 1 + ((m / 2 : Nat) : Int) →
      (run as s).herdWidth
        = 1 + (((m + countBuys .herdSize as s + 1) / 2 : Nat) : Int) ∧
      (run as s).herdHeight
        = 1 + (((m + countBuys .herdSize as s) / 2 : Nat) : Int) := by
  induction as with
  | nil => intro s m _ hw hh; exact ⟨hw, hh⟩
  | cons a as ih =>
      intro s m hi hw hh
      have hrun : run (a :: as) s = run as (a.apply s) := rfl
      rw [hrun]
      cases a with
      | tick t r =>
          have hc : countBuys .herdSize (Action.tick t r :: as) s
              = countBuys .herdSize as ((Action.tick t r).apply s) := by
            simp only [countBuys, Nat.zero_add]
          obtain ⟨c1, c2, _⟩ := gameUpdate_sameConfig t r s
          rw [hc]
          exact ih _ m (Inv_apply _ s hi) (by rw [Action.apply, c1]; exact hw)
            (by rw [Action.apply, c2]; exact hh)
      | buy k r =>
          by_cases hk : k = .herdSize
          · subst hk
            cases hb : buySucceeds .herdSize s with
            | false =>
                have hc : countBuys .herdSize (Action.buy .herdSize r :: as) s
                    = countBuys .herdSize as ((Action.buy .herdSize r).apply s) := by
                  simp only [countBuys, hb, Bool.false_eq_true, and_false, if_false,
                    Nat.zero_add]
                rw [hc]
                have hsame := buy_of_not_succeeds .herdSize r s hb
                exact ih _ m (Inv_apply _ s hi) (by rw [hsame]; exact hw)
                  (by rw [hsame]; exact hh)
            | true =>
                have hc : countBuys .herdSize (Action.buy .herdSize r :: as) s
                    = 1 + countBuys .herdSize as ((Action.buy .herdSize r).apply s) := by
                  simp only [countBuys, hb, and_self, if_true]
                obtain ⟨u, _, _, hku, _, _, hbuy⟩ := buy_of_succeeds .herdSize r s hi hb
                obtain ⟨_, _, p3, p4, _⟩ :=
                  purchased_herdSize UpgradeKind.herdSize.index u r s hku
                have key := ih ((Action.buy .herdSize r).apply s) (m + 1)
                  (Inv_apply _ s hi)
                  (by rw [hbuy, p3]; split <;> omega)
                  (by rw [hbuy, p4]; split <;> omega)
                rw [hc]
                have e1 : m + (1 + countBuys .herdSize as ((Action.buy .herdSize r).apply s))
                    = m + 1 + countBuys .herdSize as ((Action.buy .herdSize r).apply s) := by
                  omega
                rw [e1]
                exact key
          · have hc : countBuys .herdSize (Action.buy k r :: as) s
                = countBuys .herdSize as ((Action.buy k r).apply s) := by
              simp only [countBuys, hk, false_and, if_false, Nat.zero_add]
            obtain ⟨d1, d2⟩ := buy_other_dims k r s hi hk
            rw [hc]
            exact ih _ m (Inv_apply _ s hi) (by rw [d1]; exact hw) (by rw [d2]; exact hh)

/-- C14: after a run from the constructor state that contains `n` successful
herd size purchases the herd is `1 + ⌈n / 2⌉` cells wide and `1 + ⌊n / 2⌋`
cells tall, and a further successful herd size purchase puts the herd at
position `(0, 0)`. -/
theorem C14_herd_dims_after_purchases (r : Rand) (now : Int) (as : List Action) :
    (run as (initialGame r now)).herdWidth
      = 1 + (((countBuys .herdSize as (initialGame r now) + 1) / 2 : Nat) : Int) ∧
    (run as (initialGame r now)).herdHeight
      = 1 + (((countBuys .herdSize as (initialGame r now)) / 2 : Nat) : Int) ∧
    ∀ r2, buySucceeds .herdSize (run as (initialGame r now)) = true →
      ((Action.buy .herdSize r2).apply (run as (initialGame r now))).herdX = 0 ∧
      ((Action.buy .herdSize r2).apply (run as (initialGame r now))).herdY = 0 := by
  have hi := Inv_initialGame r now
  obtain ⟨h1, h2⟩ := herd_dims_run as (initialGame r now) 0 hi rfl rfl
  rw [Nat.zero_add] at h1 h2
  refine ⟨h1, h2, ?_⟩
  intro r2 hb
  obtain ⟨u, _, _, hku, _, _, hbuy⟩ :=
    buy_of_succeeds .herdSize r2 _ (Inv_run as _ hi) hb
  obtain ⟨p1, p2, _⟩ := purchased_herdSize UpgradeKind.herdSize.index u r2 _ hku
  rw [hbuy]
  exact ⟨p1, p2⟩

/-! ## Day rate purchases -/

theorem dayRate_step (d : Int) (hd : 1 < d) :
    max 1 (truncToInt ((d : ℚ) * 0.85)) = max 1 (Int.floor ((0.85 : ℚ) * (d : ℚ))) ∧
    1 ≤ max 1 (truncToInt ((d : ℚ) * 0.85)) ∧
    max 1 (truncToInt ((d : ℚ) * 0.85)) < d := by
  have hdq : (1 : ℚ) < (d : ℚ) := by exact_mod_cast hd
  have hq : (0 : ℚ) ≤ (d : ℚ) * 0.85 := by positivity
  have hlt : (d : ℚ) * 0.85 < (d : ℚ) := by
    norm_num
    linarith
  have hfl : Int.floor ((d : ℚ) * 0.85) < d := Int.floor_lt.mpr hlt
  rw [truncToInt_of_nonneg _ hq, mul_comm (0.85 : ℚ) (d : ℚ)]
  exact ⟨rfl, le_max_left _ _, max_lt hd hfl⟩

theorem purchased_dayRate (i : Nat) (u : Upgrade) (r : Rand) (s : Game)
    (hk : u.kind = .dayRate) :
    (purchased i u r s).dayRate = max 1 (truncToInt ((s.dayRate : ℚ) * 0.85)) := by
  unfold purchased
  rw [hk]
  rfl

theorem purchased_other_dayRate (i : Nat) (u : Upgrade) (r : Rand) (s : Game)
    (hk : u.kind ≠ .dayRate) : (purchased i u r s).dayRate = s.dayRate := by
  unfold purchased
  cases hu : u.kind with
  | dayRate => exact absurd hu hk
  | herdSpeed => rfl
  | fieldSize => rfl
  | growthRate => rfl
  | herdSize =>
      simp only [onBuy]
      split <;> rfl

theorem action_dayRate (a : Action) (s : Game) (h : Inv s) :
    (((match a with
      | .buy k2 _ => if k2 = UpgradeKind.dayRate ∧ buySucceeds .dayRate s = true then 1 else 0
      | .tick _ _ => 0) : Nat) : Int)
      + (a.apply s).dayRate ≤ s.dayRate := by
  cases a with
  | tick t r =>
      simp only [Action.apply, (gameUpdate_sameConfig t r s).2.2.2.2.2.1]
      omega
  | buy k r =>
      cases hb : buySucceeds k s with
      | false =>
          rw [buy_of_not_succeeds k r s hb]
          by_cases hk : k = .dayRate
          · subst hk
            simp only [hb, Bool.false_eq_true, and_false, if_false]
            omega
          · simp only [hk, false_and, if_false]
            omega
      | true =>
          obtain ⟨u, _, _, hku, _, hc, hbuy⟩ := buy_of_succeeds k r s h hb
          rw [hbuy]
          by_cases hk : k = .dayRate
          · subst hk
            simp only [canBuy, decide_eq_true_eq] at hc
            have := (dayRate_step s.dayRate hc).2.2
            rw [purchased_dayRate _ u r s hku]
            simp only [hb, and_self, if_true]
            omega
          · rw [purchased_other_dayRate _ u r s (by rw [hku]; exact hk)]
            simp only [hk, false_and, if_false]
            omega

theorem countBuys_dayRate_bound (as : List Action) :
    ∀ (s : Game), Inv s →
      (countBuys .dayRate as s : Int) + (run as s).dayRate ≤ s.dayRate := by
  induction as with
  | nil =>
      intro s _
      simp [countBuys, run]
  | cons a as ih =>
      intro s hi
      have hrun : run (a :: as) s = run as (a.apply s) := rfl
      have h1 := action_dayRate a s hi
      have h2 := ih (a.apply s) (Inv_apply a s hi)
      rw [hrun]
      simp only [countBuys]
      push_cast
      omega

/-- C15: in a reachable state with tick duration `d > 1` a successful day rate
purchase sets the duration to `max 1 ⌊0.85 d⌋`, which is at least 1 and
strictly less than `d`; with `d = 1` the upgrade is unavailable; and a run
from the state contains at most `d - 1` successful day rate purchases. -/
theorem C15_day_rate_shrinks (s : Game) (h : Reachable s) :
    (1 < s.dayRate → ∀ r, buySucceeds .dayRate s = true →
      ((Action.buy .dayRate r).apply s).dayRate
        = max 1 (Int.floor ((0.85 : ℚ) * (s.dayRate : ℚ))) ∧
      1 ≤ ((Action.buy .dayRate r).apply s).dayRate ∧
      ((Action.buy .dayRate r).apply s).dayRate < s.dayRate) ∧
    (s.dayRate = 1 → canBuy .dayRate s = false ∧ buySucceeds .dayRate s = false) ∧
    (∀ as, (countBuys .dayRate as s : Int) ≤ s.dayRate - 1) := by
  have hi := Inv_of_Reachable s h
  refine ⟨?_, ?_, ?_⟩
  · intro hd r hb
    obtain ⟨u, _, _, hku, _, _, hbuy⟩ := buy_of_succeeds .dayRate r s hi hb
    obtain ⟨e1, e2, e3⟩ := dayRate_step s.dayRate hd
    rw [hbuy, purchased_dayRate _ u r s hku]
    exact ⟨e1, e2, e3⟩
  · intro hd
    have hc : canBuy .dayRate s = false := by
      simp only [canBuy, hd]
      decide
    refine ⟨hc, ?_⟩
    cases hb : buySucceeds .dayRate s with
    | false => rfl
    | true =>
        rw [(buySucceeds_iff .dayRate s hi).mp hb |>.2] at hc
        exact absurd hc (by decide)
  · intro as
    have h1 := countBuys_dayRate_bound as s hi
    have h2 := (Inv_run as s hi).day_lo
    omega

/-- Witness for C15: some reachable state with tick duration above 1 in which
the day rate purchase succeeds and shortens the duration. -/
theorem C15_day_rate_shrinks_witness :
    ∃ (s : Game), Reachable s ∧ 1 < s.dayRate ∧ buySucceeds .dayRate s = true ∧
      1 ≤ ((Action.buy .dayRate (fun _ => 0)).apply s).dayRate ∧
      ((Action.buy .dayRate (fun _ => 0)).apply s).dayRate < s.dayRate := by
  obtain ⟨s, hr, ⟨_, _, _, _, _, c6, _⟩, hb⟩ :=
    reach_buyable .dayRate (initialGame (fun _ => 0) 0) ⟨fun _ => 0, 0, [], rfl⟩ (by decide)
      (by rw [(priceOf_initialGame _ _).2.2.2.2]; norm_num)
  have hd : 1 < s.dayRate := by rw [c6]; decide
  exact ⟨s, hr, hd, hb, ((C15_day_rate_shrinks s hr).1 hd (fun _ => 0) hb).2⟩

/-! ## Field purchases -/

theorem generateField_grid (r : Rand) (s : Game) :
    (generateField r s).grid = freshGrid s.fieldSize r := rfl

theorem purchased_fieldSize (i : Nat) (u : Upgrade) (r : Rand) (s : Game)
    (hk : u.kind = .fieldSize) (hz : s.fieldSize < 7) :
    (purchased i u r s).fieldSize = s.fieldSize + 1 ∧
    (purchased i u r s).grid = freshGrid (s.fieldSize + 1) r := by
  have hmin : min (s.fieldSize + 1) (((fieldSizes.length : Nat) : Int) - 1) = s.fieldSize + 1 := by
    apply min_eq_left
    simp only [fieldSizes, List.length_cons, List.length_nil]
    push_cast
    omega
  unfold purchased
  rw [hk]
  simp only [onBuy, regenerateField, hmin]
  exact ⟨rfl, rfl⟩

theorem freshGrid_cells (z : Int) (r : Rand) :
    (freshGrid z r).length = (width / fieldSizeAt z).toNat ∧
    ∀ col ∈ freshGrid z r, col.length = (height / fieldSizeAt z).toNat ∧
      ∀ v ∈ col, 0 ≤ v ∧ v < maxGrowth := by
  unfold freshGrid
  simp only [List.length_map, List.length_range, List.mem_map, List.mem_range, true_and]
  rintro col ⟨i, _, rfl⟩
  simp only [List.length_map, List.length_range, List.mem_map, List.mem_range, true_and]
  rintro v ⟨j, _, rfl⟩
  unfold maxGrowth
  omega

/-- C16: in a reachable state with zoom index `k < 7` and money covering the
price of the field upgrade, buying it sets the zoom index to `k + 1` and
replaces the grid by `freshGrid (k + 1) r`: `500 / fieldSizes[k + 1]` columns
of as many cells, each a draw of the random source modulo `maxGrowth`, hence
in `[0, 14]`, whatever the previous grid held. -/
theorem C16_field_purchase_regenerates (s : Game) (h : Reachable s) (r : Rand)
    (hz : s.fieldSize < 7) (hm : priceOf .fieldSize s ≤ s.money) :
    ((Action.buy .fieldSize r).apply s).fieldSize = s.fieldSize + 1 ∧
    ((Action.buy .fieldSize r).apply s).grid = freshGrid (s.fieldSize + 1) r ∧
    (((Action.buy .fieldSize r).apply s).grid.length : Int)
      = 500 / fieldSizeAt (s.fieldSize + 1) ∧
    (∀ col ∈ ((Action.buy .fieldSize r).apply s).grid,
      (col.length : Int) = 500 / fieldSizeAt (s.fieldSize + 1) ∧
      ∀ v ∈ col, 0 ≤ v ∧ v ≤ 14) := by
  have hi := Inv_of_Reachable s h
  have hc : canBuy .fieldSize s = true := by
    simp only [canBuy, fieldSizes, List.length_cons, List.length_nil, decide_eq_true_eq]
    push_cast
    omega
  have hb : buySucceeds .fieldSize s = true := (buySucceeds_iff .fieldSize s hi).mpr ⟨hm, hc⟩
  obtain ⟨u, _, _, hku, _, _, hbuy⟩ := buy_of_succeeds .fieldSize r s hi hb
  obtain ⟨p1, p2⟩ := purchased_fieldSize UpgradeKind.fieldSize.index u r s hku hz
  obtain ⟨g1, g2⟩ := freshGrid_cells (s.fieldSize + 1) r
  have hpos : 0 ≤ width / fieldSizeAt (s.fieldSize + 1) := by
    have h0 := hi.zoom_lo
    have := gridWidth_mono s.fieldSize h0 hz
    have := (gridWidth_cases s h0 hi.zoom_hi).1
    unfold gridWidth at this
    omega
  rw [hbuy, p1, p2]
  refine ⟨rfl, rfl, ?_, ?_⟩
  · rw [g1, Int.toNat_of_nonneg hpos]
    rfl
  · intro col hcol
    obtain ⟨c1, c2⟩ := g2 col hcol
    constructor
    · rw [c1]
      exact Int.toNat_of_nonneg hpos
    · intro v hv
      have := c2 v hv
      unfold maxGrowth at this
      omega

/-- Witness for C16: some reachable state at zoom index 0 with money covering
the price of the field upgrade; the purchase leads to zoom index 1. -/
theorem C16_field_purchase_regenerates_witness :
    ∃ (s : Game), Reachable s ∧ s.fieldSize < 7 ∧ priceOf .fieldSize s ≤ s.money ∧
      ((Action.buy .fieldSize (fun _ => 3)).apply s).fieldSize = s.fieldSize + 1 ∧
      ((Action.buy .fieldSize (fun _ => 3)).apply s).grid
        = freshGrid (s.fieldSize + 1) (fun _ => 3) := by
  obtain ⟨s, hr, ⟨_, _, _, _, c5, _, _⟩, hb⟩ :=
    reach_buyable .fieldSize (initialGame (fun _ => 0) 0) ⟨fun _ => 0, 0, [], rfl⟩
      (by decide) (by rw [(priceOf_initialGame _ _).2.2.1]; norm_num)
  have hz : s.fieldSize < 7 := by rw [c5]; decide
  have hm := ((buySucceeds_iff .fieldSize s (Inv_of_Reachable s hr)).mp hb).1
  obtain ⟨e1, e2, _⟩ := C16_field_purchase_regenerates s hr (fun _ => 3) hz hm
  exact ⟨s, hr, hz, hm, e1, e2⟩

/-! ## Lifetime money -/

theorem addValues_append (as bs : List ℚ) (m : ℚ) :
    addValues (as ++ bs) m = addValues bs (addValues as m) := by
  unfold addValues
  rw [List.foldl_append]

theorem addValues_ge (vs : List ℚ) (hv : ∀ v ∈ vs, v = 1 ∨ v = 5) :
    ∀ (m : ℚ), 0 ≤ m → roundDouble m = m →
      m ≤ addValues vs m ∧ 0 ≤ addValues vs m ∧
      roundDouble (addValues vs m) = addValues vs m := by
  induction vs with
  | nil => intro m h0 hd; exact ⟨le_refl _, h0, hd⟩
  | cons v vs ih =>
      intro m h0 hd
      have hv0 : 0 ≤ v := by
        rcases hv v (List.mem_cons_self _ _) with e | e <;> rw [e] <;> norm_num
      have h1 : 0 ≤ roundDouble (m + v) := roundDouble_nonneg _ (by linarith)
      have h2 : roundDouble (roundDouble (m + v)) = roundDouble (m + v) :=
        roundDouble_idem_nonneg _ (by linarith)
      have h3 : m ≤ roundDouble (m + v) := by
        have := roundDouble_mono m (m + v) h0 (by linarith)
        rw [hd] at this
        exact this
      obtain ⟨a1, a2, a3⟩ := ih (fun w hw => hv w (List.mem_cons_of_mem _ hw))
        (roundDouble (m + v)) h1 h2
      exact ⟨le_trans h3 a1, a2, a3⟩

/-- Adding values 1 and 5 to a natural number is exact as long as the sum
stays below 2^53. -/
theorem addValues_natCast (vs : List ℚ) (hv : ∀ v ∈ vs, v = 1 ∨ v = 5) :
    ∀ (a : Nat), (a : ℚ) + vs.sum < 2 ^ 53 → addValues vs (a : ℚ) = (a : ℚ) + vs.sum := by
  induction vs with
  | nil => intro a _; simp [addValues]
  | cons v vs ih =>
      intro a h
      have hvs : ∀ w ∈ vs, w = 1 ∨ w = 5 := fun w hw => hv w (List.mem_cons_of_mem _ hw)
      have hsum : (0 : ℚ) ≤ vs.sum := by
        apply List.sum_nonneg
        intro w hw
        rcases hvs w hw with e | e <;> rw [e] <;> norm_num
      rw [List.sum_cons] at h
      obtain ⟨c, hc, hc5⟩ : ∃ c : Nat, v = (c : ℚ) ∧ c ≤ 5 := by
        rcases hv v (List.mem_cons_self _ _) with e | e
        · exact ⟨1, by rw [e]; norm_num, by decide⟩
        · exact ⟨5, by rw [e]; norm_num, by decide⟩
      have hlt : a + c < 2 ^ 53 := by
        have h' : ((a + c : Nat) : ℚ) < ((2 ^ 53 : Nat) : ℚ) := by
          push_cast
          rw [← hc]
          linarith
        exact_mod_cast h'
      have e : roundDouble ((a : ℚ) + v) = ((a + c : Nat) : ℚ) := by
        have := roundDouble_natCast (a + c) hlt
        push_cast at this ⊢
        rw [hc]
        exact this
      have hstep : addValues (v :: vs) (a : ℚ) = addValues vs (roundDouble ((a : ℚ) + v)) := rfl
      rw [hstep, e, ih hvs (a + c) (by push_cast; rw [← hc]; linarith), List.sum_cons]
      push_cast
      rw [hc]
      ring

theorem harvestCell_values (gw gh : Int) (s : Game) (x y : Int) :
    ∃ vs : List ℚ, (∀ v ∈ vs, v = 1 ∨ v = 5) ∧ vs.length ≤ 1 ∧
      (harvestCell gw gh s x y).money = addValues vs s.money ∧
      (harvestCell gw gh s x y).totalMoney = addValues vs s.totalMoney := by
  unfold harvestCell
  split
  · by_cases hp : s.superDays > 0
    · refine ⟨[5], by simp, by simp, ?_, ?_⟩ <;> simp [addValues, hp]
    · refine ⟨[1], by simp, by simp, ?_, ?_⟩ <;> simp [addValues, hp]
  · exact ⟨[], by simp, by simp, rfl, rfl⟩

theorem harvestList_values (gw gh : Int) (cs : List (Int × Int)) :
    ∀ (s : Game), ∃ vs : List ℚ, (∀ v ∈ vs, v = 1 ∨ v = 5) ∧ vs.length ≤ cs.length ∧
      (harvestList gw gh cs s).money = addValues vs s.money ∧
      (harvestList gw gh cs s).totalMoney = addValues vs s.totalMoney := by
  induction cs with
  | nil => intro s; exact ⟨[], by simp, by simp, rfl, rfl⟩
  | cons c cs ih =>
      intro s
      have hstep : harvestList gw gh (c :: cs) s
          = harvestList gw gh cs (harvestCell gw gh s c.1 c.2) := rfl
      obtain ⟨as, a0, al, a1, a2⟩ := harvestCell_values gw gh s c.1 c.2
      obtain ⟨bs, b0, bl, b1, b2⟩ := ih (harvestCell gw gh s c.1 c.2)
      refine ⟨as ++ bs, ?_, ?_, ?_, ?_⟩
      · intro v hv
        rcases List.mem_append.mp hv with h | h
        · exact a0 v h
        · exact b0 v h
      · rw [List.length_append, List.length_cons]
        omega
      · rw [hstep, b1, a1, addValues_append]
      · rw [hstep, b2, a2, addValues_append]

theorem length_herdCells (s : Game) :
    (herdCells s).length = s.herdWidth.toNat * s.herdHeight.toNat := by
  unfold herdCells
  generalize s.herdWidth.toNat = w
  induction w with
  | zero => simp
  | succ w ih =>
      rw [List.range_succ, List.flatMap_append, List.length_append, ih]
      simp [List.flatMap]
      ring

theorem herdSubMove_values (W H : Int) (s : Game) :
    ∃ vs : List ℚ, (∀ v ∈ vs, v = 1 ∨ v = 5) ∧
      vs.length ≤ s.herdWidth.toNat * s.herdHeight.toNat ∧
      (herdSubMove W H s).money = addValues vs s.money ∧
      (herdSubMove W H s).totalMoney = addValues vs s.totalMoney := by
  obtain ⟨m1, m2, _⟩ := moveHerd_frame W H (harvest W H s)
  unfold herdSubMove
  rw [m1, m2, harvest_eq_harvestList, ← length_herdCells]
  exact harvestList_values W H _ s

theorem iterate_herdSubMove_values (W H : Int) (n : Nat) (s : Game) :
    ∃ vs : List ℚ, (∀ v ∈ vs, v = 1 ∨ v = 5) ∧
      vs.length ≤ n * (s.herdWidth.toNat * s.herdHeight.toNat) ∧
      ((herdSubMove W H)^[n] s).herdWidth = s.herdWidth ∧
      ((herdSubMove W H)^[n] s).herdHeight = s.herdHeight ∧
      ((herdSubMove W H)^[n] s).money = addValues vs s.money ∧
      ((herdSubMove W H)^[n] s).totalMoney = addValues vs s.totalMoney := by
  induction n with
  | zero => exact ⟨[], by simp, by simp, rfl, rfl, rfl, rfl⟩
  | succ n ih =>
      rw [Function.iterate_succ_apply']
      obtain ⟨as, a0, al, aw, ah, a1, a2⟩ := ih
      obtain ⟨bs, b0, bl, b1, b2⟩ := herdSubMove_values W H ((herdSubMove W H)^[n] s)
      obtain ⟨f1, f2, _⟩ := herdSubMove_fields W H ((herdSubMove W H)^[n] s)
      rw [aw, ah] at bl
      refine ⟨as ++ bs, ?_, ?_, f1.trans aw, f2.trans ah, ?_, ?_⟩
      · intro v hv
        rcases List.mem_append.mp hv with h | h
        · exact a0 v h
        · exact b0 v h
      · rw [List.length_append, Nat.succ_mul]
        omega
      · rw [b1, a1, addValues_append]
      · rw [b2, a2, addValues_append]

theorem gameUpdate_values (t : Int) (r : Rand) (s : Game) :
    ∃ vs : List ℚ, (∀ v ∈ vs, v = 1 ∨ v = 5) ∧
      vs.length ≤ s.herdSpeed.toNat * (s.herdWidth.toNat * s.herdHeight.toNat) ∧
      (gameUpdate t r s).money = addValues vs s.money ∧
      (gameUpdate t r s).totalMoney = addValues vs s.totalMoney := by
  obtain ⟨_, f2, f3, f4, _, _, _, _, _, _, _, f12, f13⟩ := timeBank_frame t s
  obtain ⟨vs, h0, hl, _, _, h1, h2⟩ := iterate_herdSubMove_values (gridWidth (timeBank t s))
    (gridHeight (timeBank t s)) (timeBank t s).herdSpeed.toNat (timeBank t s)
  rw [f12] at h1
  rw [f13] at h2
  rw [f2, f3, f4] at hl
  exact ⟨vs, h0, hl, h1, h2⟩

theorem sum_le_five_mul_length (vs : List ℚ) (hv : ∀ v ∈ vs, v = 1 ∨ v = 5) :
    vs.sum ≤ 5 * (vs.length : ℚ) := by
  induction vs with
  | nil => simp
  | cons v vs ih =>
      have h1 := ih (fun w hw => hv w (List.mem_cons_of_mem _ hw))
      rw [List.sum_cons, List.length_cons]
      push_cast
      rcases hv v (List.mem_cons_self _ _) with e | e <;> rw [e] <;> linarith

theorem gameUpdate_money_le (t : Int) (r : Rand) (s : Game) (h : Inv s) :
    s.money ≤ (gameUpdate t r s).money :=
  (herdDay_earns t s h 0 0).1

theorem gameUpdate_totalMoney_le (t : Int) (r : Rand) (s : Game) (h : Inv s) :
    s.totalMoney ≤ (gameUpdate t r s).totalMoney := by
  obtain ⟨vs, hv, _, _, h2⟩ := gameUpdate_values t r s
  rw [h2]
  exact (addValues_ge vs hv s.totalMoney h.total_nonneg h.total_double).1

theorem onBuy_totalMoney (k : UpgradeKind) (r : Rand) (s : Game) :
    (onBuy k r s).totalMoney = s.totalMoney := by
  cases k <;> simp [onBuy, regenerateField, generateField]
  split <;> rfl

theorem buy_totalMoney (k : UpgradeKind) (r : Rand) (s : Game) :
    ((Action.buy k r).apply s).totalMoney = s.totalMoney := by
  rw [apply_buy]
  rcases buyNamed_cases k.key r s with h1 | ⟨i, u, _, _, _, _, h1⟩
  · rw [h1]
  · rw [h1]
    exact onBuy_totalMoney u.kind r s

theorem apply_totalMoney (a : Action) (s : Game) (h : Inv s) :
    s.totalMoney ≤ (a.apply s).totalMoney := by
  cases a with
  | tick t r => exact gameUpdate_totalMoney_le t r s h
  | buy k r => rw [buy_totalMoney]

theorem run_totalMoney (as : List Action) :
    ∀ (s : Game), Inv s → s.totalMoney ≤ (run as s).totalMoney := by
  induction as with
  | nil => intro s _; exact le_refl _
  | cons a as ih =>
      intro s h
      exact le_trans (apply_totalMoney a s h) (ih (a.apply s) (Inv_apply a s h))

theorem gameUpdate_speed_one (t : Int) (r : Rand) (s : Game) (hs : s.herdSpeed = 1) :
    (gameUpdate t r s).money
      = (herdSubMove (gridWidth (timeBank t s)) (gridHeight (timeBank t s))
          (timeBank t s)).money ∧
    (gameUpdate t r s).totalMoney
      = (herdSubMove (gridWidth (timeBank t s)) (gridHeight (timeBank t s))
          (timeBank t s)).totalMoney := by
  obtain ⟨_, f2, _⟩ := timeBank_frame t s
  have hsp : (timeBank t s).herdSpeed.toNat = 1 := by rw [f2, hs]; rfl
  have e : gameUpdate t r s = growthDay r (herdSubMove (gridWidth (timeBank t s))
      (gridHeight (timeBank t s)) (timeBank t s)) := by
    show growthDay r (herdDay t s) = _
    unfold herdDay
    simp only
    rw [hsp, Function.iterate_one]
  rw [e]
  exact ⟨rfl, rfl⟩

/-- C17 (fails on the code): with the field of the constructor state holding
5 in every cell, money 8599060538510541 / 2^49 (about 15.275) and lifetime
money 40, the tick at clock reading 1000 harvests the cell under the herd:
lifetime money grows by 1, money by `1 - 2^-49`, since `money + 1` is not a
double and is rounded. -/
theorem C17_increases_differ :
    ((Action.tick 1000 (fun _ => 0)).apply { initialGame (fun _ => 5) 0 with
        money := 8599060538510541 / 562949953421312, totalMoney := 40 }).totalMoney
      - 40 = 1 ∧
    ((Action.tick 1000 (fun _ => 0)).apply { initialGame (fun _ => 5) 0 with
        money := 8599060538510541 / 562949953421312, totalMoney := 40 }).money
      - 8599060538510541 / 562949953421312 = 1 - 1 / 562949953421312 := by
  have htb : timeBank 1000 { initialGame (fun _ => 5) 0 with
      money := 8599060538510541 / 562949953421312, totalMoney := 40 }
      = { initialGame (fun _ => 5) 0 with
          money := 8599060538510541 / 562949953421312, totalMoney := 40,
          lastDay := 1000,
          superExtra := (0 : ℚ) + (((1000 : Int) - 0 - 1000 : Int) : ℚ) } := by
    unfold timeBank
    simp only
    rw [if_neg (by norm_num [initialGame, initializeGame, generateField])]
    rfl
  obtain ⟨g1, g2⟩ := gameUpdate_speed_one 1000 (fun _ => 0) { initialGame (fun _ => 5) 0 with
      money := 8599060538510541 / 562949953421312, totalMoney := 40 } rfl
  rw [htb] at g1 g2
  obtain ⟨h1, h2, _⟩ := herdSubMove_spec 10 10 { initialGame (fun _ => 5) 0 with
          money := 8599060538510541 / 562949953421312, totalMoney := 40,
          lastDay := 1000,
          superExtra := (0 : ℚ) + (((1000 : Int) - 0 - 1000 : Int) : ℚ) }
  have hn : ripeCount 10 10 { initialGame (fun _ => 5) 0 with
          money := 8599060538510541 / 562949953421312, totalMoney := 40,
          lastDay := 1000,
          superExtra := (0 : ℚ) + (((1000 : Int) - 0 - 1000 : Int) : ℚ) } = 1 := by decide
  rw [hn] at h1 h2
  have hk : min 1 ({ initialGame (fun _ => 5) 0 with
          money := 8599060538510541 / 562949953421312, totalMoney := 40,
          lastDay := 1000,
          superExtra := (0 : ℚ) + (((1000 : Int) - 0 - 1000 : Int) : ℚ) } : Game).superDays.toNat
      = 0 := by decide
  rw [hk] at h1 h2
  have e1 : ((Action.tick 1000 (fun _ => 0)).apply { initialGame (fun _ => 5) 0 with
        money := 8599060538510541 / 562949953421312, totalMoney := 40 }).money
      = roundDouble ((8599060538510541 / 562949953421312 : ℚ) + 1) :=
    g1.trans h1
  have e2 : ((Action.tick 1000 (fun _ => 0)).apply { initialGame (fun _ => 5) 0 with
        money := 8599060538510541 / 562949953421312, totalMoney := 40 }).totalMoney
      = roundDouble ((40 : ℚ) + 1) :=
    g2.trans h2
  rw [e1, e2]
  constructor
  · have := roundDouble_natCast 41 (by norm_num)
    norm_num at this ⊢
    rw [this]
    norm_num
  · rw [roundDouble_eval_tie _ 4 4581005245965926 (by norm_num) (by norm_num) (by norm_num)
      (by norm_num)]
    norm_num

/-- C17 (amended): in a reachable state a tick adds the same harvest values
(1 or 5 per harvested cell, at most `herdSpeed * herdWidth * herdHeight` of
them) to money and to lifetime money, each sum rounded to double on its own,
so the two grow by the same amount whenever both are natural numbers below
`2^53 - 5 * herdSpeed * herdWidth * herdHeight`; lifetime money does not
decrease; every purchase click, successful or not, leaves lifetime money as it
was; so lifetime money never decreases along a run. -/
theorem C17_lifetime_money_monotone (s : Game) (h : Reachable s) :
    (∀ t r, s.totalMoney ≤ ((Action.tick t r).apply s).totalMoney ∧
      (∃ vs : List ℚ, (∀ v ∈ vs, v = 1 ∨ v = 5) ∧
        vs.length ≤ s.herdSpeed.toNat * (s.herdWidth.toNat * s.herdHeight.toNat) ∧
        ((Action.tick t r).apply s).money = addValues vs s.money ∧
        ((Action.tick t r).apply s).totalMoney = addValues vs s.totalMoney) ∧
      (∀ a b : Nat, s.money = (a : ℚ) → s.totalMoney = (b : ℚ) →
        a + 5 * (s.herdSpeed.toNat * (s.herdWidth.toNat * s.herdHeight.toNat)) < 2 ^ 53 →
        b + 5 * (s.herdSpeed.toNat * (s.herdWidth.toNat * s.herdHeight.toNat)) < 2 ^ 53 →
        ((Action.tick t r).apply s).totalMoney - s.totalMoney
          = ((Action.tick t r).apply s).money - s.money)) ∧
    (∀ k r, ((Action.buy k r).apply s).totalMoney = s.totalMoney) ∧
    (∀ as, s.totalMoney ≤ (run as s).totalMoney) := by
  have hi := Inv_of_Reachable s h
  refine ⟨?_, fun k r => buy_totalMoney k r s, fun as => run_totalMoney as s hi⟩
  intro t r
  obtain ⟨vs, hv, hl, h1, h2⟩ := gameUpdate_values t r s
  refine ⟨gameUpdate_totalMoney_le t r s hi, ⟨vs, hv, hl, h1, h2⟩, ?_⟩
  intro a b ha hb hla hlb
  have hsum := sum_le_five_mul_length vs hv
  have hlq : (vs.length : ℚ)
      ≤ ((s.herdSpeed.toNat * (s.herdWidth.toNat * s.herdHeight.toNat) : Nat) : ℚ) := by
    exact_mod_cast hl
  have hla' : ((a + 5 * (s.herdSpeed.toNat * (s.herdWidth.toNat * s.herdHeight.toNat)) : Nat) : ℚ)
      < ((2 ^ 53 : Nat) : ℚ) := by exact_mod_cast hla
  have hlb' : ((b + 5 * (s.herdSpeed.toNat * (s.herdWidth.toNat * s.herdHeight.toNat)) : Nat) : ℚ)
      < ((2 ^ 53 : Nat) : ℚ) := by exact_mod_cast hlb
  push_cast at hla' hlb' hlq
  show (gameUpdate t r s).totalMoney - s.totalMoney = (gameUpdate t r s).money - s.money
  rw [h1, h2, ha, hb, addValues_natCast vs hv a (by linarith),
    addValues_natCast vs hv b (by linarith)]
  ring

/-- Witness for C17 (amended): the constructor state whose field holds 5 in
every cell; the first tick harvests the cell under the herd and raises money
and lifetime money from 0 to 1, and a click on the herd speed button leaves
lifetime money at 0. -/
theorem C17_lifetime_money_monotone_witness :
    (initialGame (fun _ => 5) 0).totalMoney
      ≤ ((Action.tick 1000 (fun _ => 0)).apply (initialGame (fun _ => 5) 0)).totalMoney ∧
    ((Action.tick 1000 (fun _ => 0)).apply (initialGame (fun _ => 5) 0)).totalMoney
        - (initialGame (fun _ => 5) 0).totalMoney
      = ((Action.tick 1000 (fun _ => 0)).apply (initialGame (fun _ => 5) 0)).money
        - (initialGame (fun _ => 5) 0).money ∧
    ((Action.tick 1000 (fun _ => 0)).apply (initialGame (fun _ => 5) 0)).totalMoney = 1 ∧
    ((Action.buy .herdSpeed (fun _ => 0)).apply (initialGame (fun _ => 5) 0)).totalMoney
      = (initialGame (fun _ => 5) 0).totalMoney := by
  obtain ⟨h1, h2, h3⟩ := C17_lifetime_money_monotone (initialGame (fun _ => 5) 0)
    ⟨fun _ => 5, 0, [], rfl⟩
  obtain ⟨t1, _, t3⟩ := h1 1000 (fun _ => 0)
  refine ⟨t1, t3 0 0 (by norm_num [initialGame, initializeGame, generateField])
    (by norm_num [initialGame, initializeGame, generateField]) (by decide) (by decide), ?_,
    h2 .herdSpeed (fun _ => 0)⟩
  have htb : timeBank 1000 (initialGame (fun _ => 5) 0)
      = { initialGame (fun _ => 5) 0 with
          lastDay := 1000,
          superExtra := (0 : ℚ) + (((1000 : Int) - 0 - 1000 : Int) : ℚ) } := by
    unfold timeBank
    simp only
    rw [if_neg (by norm_num [initialGame, initializeGame, generateField])]
    rfl
  obtain ⟨_, g2⟩ := gameUpdate_speed_one 1000 (fun _ => 0) (initialGame (fun _ => 5) 0) rfl
  rw [htb] at g2
  obtain ⟨_, k2, _⟩ := herdSubMove_spec 10 10 { initialGame (fun _ => 5) 0 with
          lastDay := 1000,
          superExtra := (0 : ℚ) + (((1000 : Int) - 0 - 1000 : Int) : ℚ) }
  have hn : ripeCount 10 10 { initialGame (fun _ => 5) 0 with
          lastDay := 1000,
          superExtra := (0 : ℚ) + (((1000 : Int) - 0 - 1000 : Int) : ℚ) } = 1 := by decide
  rw [hn] at k2
  have hk : min 1 ({ initialGame (fun _ => 5) 0 with
          lastDay := 1000,
          superExtra := (0 : ℚ) + (((1000 : Int) - 0 - 1000 : Int) : ℚ) } : Game).superDays.toNat
      = 0 := by decide
  rw [hk] at k2
  have e2 : ((Action.tick 1000 (fun _ => 0)).apply (initialGame (fun _ => 5) 0)).totalMoney
      = roundDouble ((0 : ℚ) + 1) :=
    g2.trans k2
  rw [e2]
  have := roundDouble_natCast 1 (by norm_num)
  norm_num at this ⊢
  exact this

/-! ## Lookup by key -/

/-- C18: in a reachable state the lookup of a key that is none of the five
upgrade names finds nothing and the purchase body run with that key returns
the state unchanged; the lookup of each of the five names returns an upgrade
carrying that name. -/
theorem C18_lookup_by_key (s : Game) (h : Reachable s) :
    (∀ name : String, name ≠ "herdSpeed" → name ≠ "herdSize" → name ≠ "fieldSize" →
      name ≠ "growthRate" → name ≠ "dayRate" →
      getUpgrade name s = none ∧ ∀ r, buyNamed name r s = s) ∧
    (∀ k : UpgradeKind, ∃ i u, getUpgrade k.key s = some i ∧ s.upgrades[i]? = some u ∧
      u.name = k.key) := by
  have hi := Inv_of_Reachable s h
  constructor
  · intro name h0 h1 h2 h3 h4
    obtain ⟨u0, u1, u2, u3, u4, hl, n0, n1, n2, n3, n4, _⟩ := upgrades_shape s hi
    have hnone : getUpgrade name s = none := by
      unfold getUpgrade
      rw [hl]
      simp [List.findIdx?, n0, n1, n2, n3, n4, Ne.symm h0, Ne.symm h1, Ne.symm h2,
        Ne.symm h3, Ne.symm h4]
    refine ⟨hnone, fun r => ?_⟩
    unfold buyNamed
    rw [hnone]
  · intro k
    obtain ⟨u, hg, hu, _, hn, _⟩ := upgradeOf_of_Inv k s hi
    exact ⟨k.index, u, hg, hu, hn⟩

/-- Witness for C18: the key `"herdSped"` in the state `sampleRun`. -/
theorem C18_lookup_by_key_witness :
    getUpgrade "herdSped" sampleRun = none ∧
    buyNamed "herdSped" (fun _ => 0) sampleRun = sampleRun :=
  ⟨((C18_lookup_by_key sampleRun Reachable_sampleRun).1 "herdSped"
      (by decide) (by decide) (by decide) (by decide) (by decide)).1,
   ((C18_lookup_by_key sampleRun Reachable_sampleRun).1 "herdSped"
      (by decide) (by decide) (by decide) (by decide) (by decide)).2 (fun _ => 0)⟩

/-! ## One move step -/

/-- C19: for a herd whose row `y` is in bounds (`0 ≤ y ≤ H - h`) on a `W x H`
grid, one move step does exactly one of: (a) inside a column, `y` goes to
`y + 1` (moving down, `y < H - h`) or `y - 1` (moving up, `y > 0`) with `x`
and the direction kept; (b) at a column end with `x ≥ W - w`, the herd goes to
`(0, 0)` moving down; (c) at a column end with `x < W - w`, `x` becomes
`min (x + w) (W - w)`, `y` is kept and the direction flips. The herd size is
kept, and the sub-move of `herdDay` moves the herd the same way. -/
theorem C19_move_step_cases (W H : Int) (s : Game)
    (hy0 : 0 ≤ s.herdY) (hy1 : s.herdY ≤ H - s.herdHeight) :
    ((s.herdDirectionUp = false ∧ s.herdY < H - s.herdHeight) →
      (moveHerd W H s).herdY = s.herdY + 1 ∧ (moveHerd W H s).herdX = s.herdX ∧
      (moveHerd W H s).herdDirectionUp = s.herdDirectionUp) ∧
    ((s.herdDirectionUp = true ∧ s.herdY > 0) →
      (moveHerd W H s).herdY = s.herdY - 1 ∧ (moveHerd W H s).herdX = s.herdX ∧
      (moveHerd W H s).herdDirectionUp = s.herdDirectionUp) ∧
    (((s.herdDirectionUp = false ∧ s.herdY = H - s.herdHeight) ∨
        (s.herdDirectionUp = true ∧ s.herdY = 0)) →
      (s.herdX ≥ W - s.herdWidth →
        (moveHerd W H s).herdX = 0 ∧ (moveHerd W H s).herdY = 0 ∧
        (moveHerd W H s).herdDirectionUp = false) ∧
      (s.herdX < W - s.herdWidth →
        (moveHerd W H s).herdX = min (s.herdX + s.herdWidth) (W - s.herdWidth) ∧
        (moveHerd W H s).herdY = s.herdY ∧
        (moveHerd W H s).herdDirectionUp = !s.herdDirectionUp)) ∧
    (((s.herdDirectionUp = false ∧ s.herdY < H - s.herdHeight) ∨
        (s.herdDirectionUp = true ∧ s.herdY > 0)) ↔
      ¬ ((s.herdDirectionUp = false ∧ s.herdY = H - s.herdHeight) ∨
        (s.herdDirectionUp = true ∧ s.herdY = 0))) ∧
    (moveHerd W H s).herdWidth = s.herdWidth ∧
    (moveHerd W H s).herdHeight = s.herdHeight ∧
    (herdSubMove W H s).herdX = (moveHerd W H s).herdX ∧
    (herdSubMove W H s).herdY = (moveHerd W H s).herdY ∧
    (herdSubMove W H s).herdDirectionUp = (moveHerd W H s).herdDirectionUp := by
  have hsub : samePos (moveHerd W H s) (herdSubMove W H s) :=
    moveHerd_samePos W H s (harvest W H s) (samePos_of_sameHerd (harvest_sameHerd W H s))
  refine ⟨?_, ?_, ?_, ?_, (moveHerd_frame W H s).2.2.2.2.2.1,
    (moveHerd_frame W H s).2.2.2.2.2.2.1, hsub.1, hsub.2.1, hsub.2.2.2.2.2.1⟩
  · rintro ⟨hd, hlt⟩
    have hneg : ¬ (s.herdDirectionUp = true) := by rw [hd]; exact Bool.false_ne_true
    unfold moveHerd
    rw [if_neg hneg, if_pos hlt]
    exact ⟨rfl, rfl, rfl⟩
  · rintro ⟨hd, hgt⟩
    unfold moveHerd
    rw [if_pos hd, if_pos hgt]
    exact ⟨rfl, rfl, rfl⟩
  · intro hend
    rcases hend with ⟨hd, he⟩ | ⟨hd, he⟩
    · have hneg : ¬ (s.herdDirectionUp = true) := by rw [hd]; exact Bool.false_ne_true
      have hnlt : ¬ (s.herdY < H - s.herdHeight) := by omega
      constructor
      · intro hx
        unfold moveHerd
        rw [if_neg hneg, if_neg hnlt, if_pos hx]
        exact ⟨rfl, rfl, rfl⟩
      · intro hx
        have hnx : ¬ (s.herdX ≥ W - s.herdWidth) := by omega
        unfold moveHerd
        rw [if_neg hneg, if_neg hnlt, if_neg hnx]
        exact ⟨rfl, rfl, by rw [hd]; rfl⟩
    · have hngt : ¬ (s.herdY > 0) := by omega
      constructor
      · intro hx
        unfold moveHerd
        rw [if_pos hd, if_neg hngt, if_pos hx]
        exact ⟨rfl, rfl, rfl⟩
      · intro hx
        have hnx : ¬ (s.herdX ≥ W - s.herdWidth) := by omega
        unfold moveHerd
        rw [if_pos hd, if_neg hngt, if_neg hnx]
        exact ⟨rfl, rfl, by rw [hd]; rfl⟩
  · cases hd : s.herdDirectionUp with
    | false =>
        simp only [true_and, Bool.false_eq_true, false_and, or_false]
        omega
    | true =>
        simp only [true_and, Bool.true_eq_false, false_and, false_or]
        omega

/-- Witness for C19: the constructor state on the 10 x 10 grid moves one row
down. -/
theorem C19_move_step_cases_witness :
    (moveHerd 10 10 (initialGame (fun _ => 0) 0)).herdY = 1 ∧
    (moveHerd 10 10 (initialGame (fun _ => 0) 0)).herdX = 0 ∧
    (moveHerd 10 10 (initialGame (fun _ => 0) 0)).herdDirectionUp = false :=
  (C19_move_step_cases 10 10 (initialGame (fun _ => 0) 0) (by decide) (by decide)).1
    ⟨rfl, by decide⟩

/-! ## One day of growth -/

theorem growCell_other (gw gh : Int) (g : List (List Int)) (rx ry : Nat) (x y : Int)
    (hne : (x, y) ≠ ((rx : Int) % gw, (ry : Int) % gh)) :
    getCell (growCell gw gh g rx ry) x y = getCell g x y := by
  unfold growCell
  simp only
  split
  · exact getCell_setCell_ne g ((rx : Int) % gw, (ry : Int) % gh) (x, y) _ hne
  · rfl

theorem foldl_growCell_count (w h : Nat) (gw gh : Int) (hw : (w : Int) = gw)
    (hh : (h : Int) = gh) (hwpos : 0 < gw) (hhpos : 0 < gh) (r : Rand) (x y : Int)
    (l : List Nat) :
    ∀ (g : List (List Int)), GridOk w h g →
      getCell (l.foldl (fun g i => growCell gw gh g (r (2 * i)) (r (2 * i + 1))) g) x y
        = min 15 (getCell g x y
            + ((l.map (fun i => (((r (2 * i) : Nat) : Int) % gw,
                ((r (2 * i + 1) : Nat) : Int) % gh))).count (x, y) : Nat)) := by
  induction l with
  | nil =>
      intro g hg
      have hr := getCell_range w h g x y hg
      unfold maxGrowth at hr
      simp only [List.foldl_nil, List.map_nil, List.count_nil, Nat.cast_zero, add_zero]
      omega
  | cons i l ih =>
      intro g hg
      simp only [List.foldl_cons, List.map_cons]
      rw [ih _ (GridOk_growCell w h gw gh g _ _ hg), List.count_cons]
      by_cases hc : (x, y) = (((r (2 * i) : Nat) : Int) % gw, ((r (2 * i + 1) : Nat) : Int) % gh)
      · have hx : ((r (2 * i) : Nat) : Int) % gw = x := (Prod.ext_iff.mp hc).1.symm
        have hy : ((r (2 * i + 1) : Nat) : Int) % gh = y := (Prod.ext_iff.mp hc).2.symm
        have hx0 : 0 ≤ x := by rw [← hx]; exact Int.emod_nonneg _ (by omega)
        have hx1 : x < (w : Int) := by rw [← hx, hw]; exact Int.emod_lt_of_pos _ hwpos
        have hy0 : 0 ≤ y := by rw [← hy]; exact Int.emod_nonneg _ (by omega)
        have hy1 : y < (h : Int) := by rw [← hy, hh]; exact Int.emod_lt_of_pos _ hhpos
        rw [growCell_target w h gw gh g hg x y hx0 hx1 hy0 hy1 _ _ hx hy]
        have hbeq : ((((r (2 * i) : Nat) : Int) % gw, ((r (2 * i + 1) : Nat) : Int) % gh)
            == (x, y)) = true := by
          rw [beq_iff_eq]; exact hc.symm
        rw [hbeq]
        simp only [if_true]
        push_cast
        omega
      · rw [growCell_other gw gh g _ _ x y hc]
        have hbeq : ((((r (2 * i) : Nat) : Int) % gw, ((r (2 * i + 1) : Nat) : Int) % gh)
            == (x, y)) = false := by
          rw [beq_eq_false_iff_ne]; exact fun e => hc e.symm
        rw [hbeq]
        simp only [Bool.false_eq_true, if_false, Nat.add_zero]

/-- C20: on a grid of `gridWidth x gridHeight` cells with levels in `[0, 15]`,
the growth step leaves every cell at `min 15 (old level + number of times the
cell was picked)`, where the picks are the `growthAmount` cells drawn from the
random source (with repetition); a cell that was never picked keeps its level
and no cell decreases. -/
theorem C20_growth_counts_picks (r : Rand) (s : Game)
    (hg : GridOk (gridWidth s).toNat (gridHeight s).toNat s.grid)
    (hw : 0 < gridWidth s) (hh : 0 < gridHeight s) (x y : Int) :
    (growthPicks r s).length = s.growthAmount.toNat ∧
    getCell (growthDay r s).grid x y
      = min 15 (getCell s.grid x y + ((growthPicks r s).count (x, y) : Nat)) ∧
    ((growthPicks r s).count (x, y) = 0 →
      getCell (growthDay r s).grid x y = getCell s.grid x y) ∧
    getCell s.grid x y ≤ getCell (growthDay r s).grid x y := by
  have key := foldl_growCell_count (gridWidth s).toNat (gridHeight s).toNat
    (gridWidth s) (gridHeight s) (Int.toNat_of_nonneg (by omega))
    (Int.toNat_of_nonneg (by omega)) hw hh r x y (List.range s.growthAmount.toNat)
    s.grid hg
  have hr := getCell_range _ _ s.grid x y hg
  unfold maxGrowth at hr
  have hgrid : getCell (growthDay r s).grid x y
      = min 15 (getCell s.grid x y + ((growthPicks r s).count (x, y) : Nat)) := by
    unfold growthDay growthPicks
    simp only
    exact key
  refine ⟨by simp [growthPicks], hgrid, ?_, ?_⟩
  · intro h0
    rw [hgrid, h0]
    simp only [Nat.cast_zero, add_zero]
    omega
  · rw [hgrid]
    omega

/-- Witness for C20: the constructor state, whose grid was generated in
bounds, with every pick of the day landing on cell `(0, 0)`. -/
theorem C20_growth_counts_picks_witness :
    getCell (growthDay (fun _ => 0) (initialGame (fun _ => 0) 0)).grid 0 0
      = min 15 (getCell (initialGame (fun _ => 0) 0).grid 0 0
          + ((growthPicks (fun _ => 0) (initialGame (fun _ => 0) 0)).count (0, 0) : Nat)) :=
  (C20_growth_counts_picks (fun _ => 0) (initialGame (fun _ => 0) 0)
    (Inv_initialGame (fun _ => 0) 0).grid_ok (by decide) (by decide) 0 0).2.1

/-! ## Accesses stay in bounds -/

theorem herd_cell_inbounds (u v : Game) (hu : Inv u) (hv : Inv v) (hsame : sameHerd u v)
    (c : Int × Int) (hc : c ∈ herdCells u) :
    c.1 < gridWidth u ∧ c.2 < gridHeight u ∧ InBounds v.grid c.1 c.2 := by
  have hin : inHerd u c.1 c.2 := (mem_herdCells u c.1 c.2).mp hc
  obtain ⟨i1, i2, i3, i4⟩ := hin
  have a1 := hu.x_lo
  have a2 := hu.x_hi
  have a3 := hu.y_lo
  have a4 := hu.y_hi
  have hf : v.fieldSize = u.fieldSize := hsame.2.2.2.2.2.2.2.1
  have hg := hv.grid_ok
  rw [gridWidth_congr u v hf, gridHeight_congr u v hf] at hg
  have hx : c.1 < gridWidth u := by omega
  have hy : c.2 < gridHeight u := by omega
  exact ⟨hx, hy, GridOk_inbounds _ _ v.grid hg c.1 c.2 (by omega) (by omega) (by omega)
    (by omega)⟩

theorem fieldSizes_lookup (z : Int) (h0 : 0 ≤ z) (h7 : z ≤ 7) :
    z.toNat < fieldSizes.length ∧ fieldSizes[z.toNat]? = some (fieldSizeAt z) := by
  unfold fieldSizeAt
  rw [if_pos h0]
  interval_cases z <;> exact ⟨by decide, by decide⟩

/-- C21: in every reachable state the grid has exactly
`500 / fieldSizes[fieldSize]` columns of as many cells and `fieldSize` is a
valid index of `fieldSizes`; during any tick every cell the harvest loops
touch passes the bounds check of the harvest and lies inside the grid as it
is at that moment, and every cell the growth loop picks lies inside the grid
as it is at that moment. -/
theorem C21_accesses_in_bounds (s : Game) (h : Reachable s) :
    ((s.grid.length : Int) = 500 / fieldSizeAt s.fieldSize ∧
      ∀ col ∈ s.grid, (col.length : Int) = 500 / fieldSizeAt s.fieldSize) ∧
    (0 ≤ s.fieldSize ∧ s.fieldSize.toNat < fieldSizes.length ∧
      fieldSizes[s.fieldSize.toNat]? = some (fieldSizeAt s.fieldSize)) ∧
    (∀ (t : Int) (n : Nat), n < (timeBank t s).herdSpeed.toNat →
      ∀ (k : Nat) (c : Int × Int),
        (herdCells ((herdSubMove (gridWidth (timeBank t s))
          (gridHeight (timeBank t s)))^[n] (timeBank t s)))[k]? = some c →
        c.1 < gridWidth (timeBank t s) ∧ c.2 < gridHeight (timeBank t s) ∧
        InBounds
          (harvestList (gridWidth (timeBank t s)) (gridHeight (timeBank t s))
            ((herdCells ((herdSubMove (gridWidth (timeBank t s))
              (gridHeight (timeBank t s)))^[n] (timeBank t s))).take k)
            ((herdSubMove (gridWidth (timeBank t s))
              (gridHeight (timeBank t s)))^[n] (timeBank t s))).grid
          c.1 c.2) ∧
    (∀ (t : Int) (r : Rand) (k : Nat), k < (herdDay t s).growthAmount.toNat →
      InBounds
        (((List.range (herdDay t s).growthAmount.toNat).take k).foldl
          (fun g i => growCell (gridWidth (herdDay t s)) (gridHeight (herdDay t s)) g
            (r (2 * i)) (r (2 * i + 1)))
          (herdDay t s).grid)
        (((r (2 * k) : Nat) : Int) % gridWidth (herdDay t s))
        (((r (2 * k + 1) : Nat) : Int) % gridHeight (herdDay t s))) := by
  have hi := Inv_of_Reachable s h
  have hw := gridWidth_cases s hi.zoom_lo hi.zoom_hi
  refine ⟨⟨?_, ?_⟩, ⟨hi.zoom_lo, fieldSizes_lookup s.fieldSize hi.zoom_lo hi.zoom_hi⟩, ?_, ?_⟩
  · rw [hi.grid_ok.1]
    exact Int.toNat_of_nonneg (by omega)
  · intro col hcol
    rw [(hi.grid_ok.2 col hcol).1, gridHeight_eq_gridWidth]
    exact Int.toNat_of_nonneg (by omega)
  · intro t n _ k c hc
    have hit := Inv_timeBank t s hi
    obtain ⟨hu, hf⟩ := Inv_iterate_herdSubMove n (timeBank t s) hit
    have hv := Inv_harvestList (gridWidth (timeBank t s)) (gridHeight (timeBank t s))
      ((herdCells ((herdSubMove (gridWidth (timeBank t s))
        (gridHeight (timeBank t s)))^[n] (timeBank t s))).take k) _ hu
    have hsame := harvestList_sameHerd (gridWidth (timeBank t s)) (gridHeight (timeBank t s))
      ((herdCells ((herdSubMove (gridWidth (timeBank t s))
        (gridHeight (timeBank t s)))^[n] (timeBank t s))).take k)
      ((herdSubMove (gridWidth (timeBank t s)) (gridHeight (timeBank t s)))^[n] (timeBank t s))
    obtain ⟨b1, b2, b3⟩ := herd_cell_inbounds _ _ hu hv hsame c (List.getElem?_mem hc)
    rw [gridWidth_congr _ _ hf] at b1
    rw [gridHeight_congr _ _ hf] at b2
    exact ⟨b1, b2, b3⟩
  · intro t r k _
    obtain ⟨hd, _⟩ := Inv_herdDay t s hi
    have hwd := gridWidth_cases (herdDay t s) hd.zoom_lo hd.zoom_hi
    have hgd : gridHeight (herdDay t s) = gridWidth (herdDay t s) := rfl
    have hg := GridOk_foldl_growCell _ _ (gridWidth (herdDay t s)) (gridHeight (herdDay t s))
      r ((List.range (herdDay t s).growthAmount.toNat).take k) (herdDay t s).grid hd.grid_ok
    exact GridOk_inbounds _ _ _ hg _ _
      (Int.emod_nonneg _ (by omega))
      (by rw [Int.toNat_of_nonneg (by omega)]; exact Int.emod_lt_of_pos _ (by omega))
      (Int.emod_nonneg _ (by omega))
      (by rw [Int.toNat_of_nonneg (by omega)]; exact Int.emod_lt_of_pos _ (by omega))

/-- Witness for C21 at the state `sampleRun`. -/
theorem C21_accesses_in_bounds_witness :
    (sampleRun.grid.length : Int) = 500 / fieldSizeAt sampleRun.fieldSize ∧
    0 ≤ sampleRun.fieldSize ∧ sampleRun.fieldSize.toNat < fieldSizes.length :=
  ⟨(C21_accesses_in_bounds sampleRun Reachable_sampleRun).1.1,
   (C21_accesses_in_bounds sampleRun Reachable_sampleRun).2.1.1,
   (C21_accesses_in_bounds sampleRun Reachable_sampleRun).2.1.2.1⟩

/-! ## Period of the sweep -/

theorem SweepAt_last_turn (W H : Int) (s t : Game) (k : Nat)
    (hh : s.herdHeight ≤ H)
    (ht : SweepAt W H s t k (H - s.herdHeight).toNat)
    (hk : W - s.herdWidth ≤ (k : Int) * s.herdWidth) :
    atStart (herdSubMove W H t) := by
  obtain ⟨a1, a2, a3, a4, a5⟩ := ht
  obtain ⟨_, _, fup, fdown⟩ := herdSubMove_fields W H t
  have hx : t.herdX = W - s.herdWidth := by
    rw [a3]; exact min_eq_right hk
  have hL : (((H - s.herdHeight).toNat : Nat) : Int) = H - s.herdHeight :=
    Int.toNat_of_nonneg (by omega)
  rw [hL] at a4
  rcases Nat.mod_two_eq_zero_or_one k with hk2 | hk2
  · have hd : t.herdDirectionUp = false := by rw [a5, hk2]; rfl
    rw [hk2] at a4
    simp only [if_true] at a4
    exact (fdown hd).2.1 (by rw [a4, a2]; omega) (by rw [hx, a1])
  · have hd : t.herdDirectionUp = true := by rw [a5, hk2]; rfl
    rw [hk2] at a4
    simp only [Nat.one_ne_zero, if_false] at a4
    exact (fup hd).2.1 (by rw [a4]; omega) (by rw [hx, a1])

theorem no_early_return (W H : Int) (s : Game)
    (hw1 : 1 ≤ s.herdWidth) (hwW : s.herdWidth ≤ W) (hhH : s.herdHeight ≤ H)
    (hs : atStart s) (m : Nat) (hm0 : 0 < m)
    (hm : ((m / ((H - s.herdHeight).toNat + 1) : Nat) : Int) * s.herdWidth < W) :
    ¬ atStart ((herdSubMove W H)^[m] s) := by
  intro hat
  have hLpos : 0 < (H - s.herdHeight).toNat + 1 := Nat.succ_pos _
  have hL : (((H - s.herdHeight).toNat : Nat) : Int) = H - s.herdHeight :=
    Int.toNat_of_nonneg (by omega)
  have hmod : m % ((H - s.herdHeight).toNat + 1) < (H - s.herdHeight).toNat + 1 :=
    Nat.mod_lt _ hLpos
  have hsplit : m / ((H - s.herdHeight).toNat + 1) * ((H - s.herdHeight).toNat + 1)
      + m % ((H - s.herdHeight).toNat + 1) = m := by
    rw [Nat.mul_comm]; exact Nat.div_add_mod _ _
  generalize m / ((H - s.herdHeight).toNat + 1) = k at hm hsplit
  generalize m % ((H - s.herdHeight).toNat + 1) = j at hmod hsplit
  obtain ⟨_, _, a3, a4, a5⟩ := sweep_closed_form W H s hw1 hwW hhH hs k j hm (by omega)
  rw [hsplit] at a3 a4 a5
  obtain ⟨b1, b2, b3⟩ := hat
  rw [b3] at a5
  have hpar : k % 2 = 0 := by
    rcases Nat.mod_two_eq_zero_or_one k with h0 | h1
    · exact h0
    · rw [h1] at a5; exact absurd a5 (by decide)
  rw [b2, hpar] at a4
  simp only [if_true] at a4
  have hj0 : j = 0 := by omega
  have hk1 : 1 ≤ k := by
    rcases Nat.eq_zero_or_pos k with h0 | hp
    · rw [h0, hj0] at hsplit; omega
    · exact hp
  have hkw1 : s.herdWidth ≤ (k : Int) * s.herdWidth := by
    have : (1 : Int) * s.herdWidth ≤ (k : Int) * s.herdWidth :=
      mul_le_mul_of_nonneg_right (by exact_mod_cast hk1) (by omega)
    linarith
  rw [b1] at a3
  rcases le_total ((k : Int) * s.herdWidth) (W - s.herdWidth) with hle | hle
  · rw [min_eq_left hle] at a3; omega
  · rw [min_eq_right hle] at a3; omega

theorem strips_count (W w : Int) (hw1 : 1 ≤ w) (hwW : w ≤ W) :
    1 ≤ ((W + w - 1) / w).toNat ∧
    ((((W + w - 1) / w).toNat : Nat) : Int) = (W + w - 1) / w ∧
    W ≤ (W + w - 1) / w * w ∧ ((W + w - 1) / w - 1) * w < W := by
  have hwpos : (0 : Int) < w := by omega
  have h1 : (W + w - 1) / w * w ≤ W + w - 1 := Int.ediv_mul_le _ (by omega)
  have h2 : W + w - 1 < ((W + w - 1) / w + 1) * w := Int.lt_ediv_add_one_mul_self _ hwpos
  have h3 : ((W + w - 1) / w + 1) * w = (W + w - 1) / w * w + w := by ring
  have h4 : ((W + w - 1) / w - 1) * w = (W + w - 1) / w * w - w := by ring
  have hq1 : 1 ≤ (W + w - 1) / w := by
    by_contra hc
    have hq0 : (W + w - 1) / w ≤ 0 := by omega
    have : (W + w - 1) / w * w ≤ 0 := mul_nonpos_of_nonpos_of_nonneg hq0 (by omega)
    omega
  refine ⟨by omega, Int.toNat_of_nonneg (by omega), by omega, by omega⟩

/-- C22: on a `W x H` grid a `w x h` herd with `1 ≤ w ≤ W` and `1 ≤ h ≤ H`
that starts at the origin moving down is back at the origin moving down after
exactly `⌈W / w⌉ * (H - h + 1)` sub-moves and not before (the bound `1 ≤ h` is
not needed), and from then on
its position, direction and size repeat with that period. -/
theorem C22_sweep_period (W H : Int) (s : Game)
    (hw1 : 1 ≤ s.herdWidth) (hwW : s.herdWidth ≤ W)
    (hhH : s.herdHeight ≤ H) (hs : atStart s) :
    ((sweepPeriod W H s.herdWidth s.herdHeight : Nat) : Int)
      = (W + s.herdWidth - 1) / s.herdWidth * (H - s.herdHeight + 1) ∧
    (W ≤ (W + s.herdWidth - 1) / s.herdWidth * s.herdWidth ∧
      ((W + s.herdWidth - 1) / s.herdWidth - 1) * s.herdWidth < W) ∧
    0 < sweepPeriod W H s.herdWidth s.herdHeight ∧
    atStart ((herdSubMove W H)^[sweepPeriod W H s.herdWidth s.herdHeight] s) ∧
    (∀ m : Nat, 0 < m → m < sweepPeriod W H s.herdWidth s.herdHeight →
      ¬ atStart ((herdSubMove W H)^[m] s)) ∧
    (∀ n : Nat, samePos ((herdSubMove W H)^[n] s)
      ((herdSubMove W H)^[n + sweepPeriod W H s.herdWidth s.herdHeight] s)) := by
  obtain ⟨k1, kc, kup, klo⟩ := strips_count W s.herdWidth hw1 hwW
  have hL : (((H - s.herdHeight).toNat : Nat) : Int) = H - s.herdHeight :=
    Int.toNat_of_nonneg (by omega)
  have hLpos : 0 < (H - s.herdHeight).toNat + 1 := Nat.succ_pos _
  -- the last strip
  obtain ⟨K1, hK1⟩ : ∃ K1 : Nat, ((W + s.herdWidth - 1) / s.herdWidth).toNat = K1 + 1 :=
    ⟨((W + s.herdWidth - 1) / s.herdWidth).toNat - 1, by omega⟩
  have hK1c : (K1 : Int) = (W + s.herdWidth - 1) / s.herdWidth - 1 := by
    rw [← kc, hK1]; push_cast; ring
  have hlast_lt : (K1 : Int) * s.herdWidth < W := by rw [hK1c]; exact klo
  have hlast_ge : W - s.herdWidth ≤ (K1 : Int) * s.herdWidth := by
    have e : ((W + s.herdWidth - 1) / s.herdWidth - 1) * s.herdWidth
        = (W + s.herdWidth - 1) / s.herdWidth * s.herdWidth - s.herdWidth := by ring
    rw [hK1c, e]
    omega
  have hP : sweepPeriod W H s.herdWidth s.herdHeight
      = K1 * ((H - s.herdHeight).toNat + 1) + (H - s.herdHeight).toNat + 1 := by
    unfold sweepPeriod
    rw [hK1]
    ring
  have hstart : atStart ((herdSubMove W H)^[sweepPeriod W H s.herdWidth s.herdHeight] s) := by
    rw [hP, Function.iterate_succ_apply']
    exact SweepAt_last_turn W H s _ K1 hhH
      (sweep_closed_form W H s hw1 hwW hhH hs K1 (H - s.herdHeight).toNat hlast_lt
        (by rw [hL]))
      hlast_ge
  refine ⟨?_, ⟨kup, klo⟩, by rw [hP]; omega, hstart, ?_, ?_⟩
  · unfold sweepPeriod
    push_cast
    rw [kc, hL]
  · intro m hm0 hm
    apply no_early_return W H s hw1 hwW hhH hs m hm0
    have hdiv : m / ((H - s.herdHeight).toNat + 1) ≤ K1 := by
      have : m < (K1 + 1) * ((H - s.herdHeight).toNat + 1) := by
        rw [hP] at hm
        rw [Nat.add_mul, Nat.one_mul]
        omega
      exact Nat.lt_succ_iff.mp ((Nat.div_lt_iff_lt_mul hLpos).mpr this)
    have hkw : ((m / ((H - s.herdHeight).toNat + 1) : Nat) : Int) * s.herdWidth
        ≤ (K1 : Int) * s.herdWidth :=
      mul_le_mul_of_nonneg_right (by exact_mod_cast hdiv) (by omega)
    omega
  · intro n
    rw [Function.iterate_add_apply]
    apply iterate_herdSubMove_samePos
    obtain ⟨c1, c2, c3, _, c5, _⟩ :=
      iterate_herdSubMove_sameConfig W H (sweepPeriod W H s.herdWidth s.herdHeight) s
    obtain ⟨s1, s2, s3⟩ := hs
    obtain ⟨t1, t2, t3⟩ := hstart
    exact ⟨by rw [t1, s1], by rw [t2, s2], c1, c2, c3, by rw [t3, s3], c5⟩

/-- Witness for C22: the 1 x 1 herd of the constructor state on the 10 x 10
grid is back at the origin after 100 sub-moves. -/
theorem C22_sweep_period_witness :
    ((sweepPeriod 10 10 (initialGame (fun _ => 0) 0).herdWidth
        (initialGame (fun _ => 0) 0).herdHeight : Nat) : Int)
      = (10 + (initialGame (fun _ => 0) 0).herdWidth - 1)
          / (initialGame (fun _ => 0) 0).herdWidth
          * (10 - (initialGame (fun _ => 0) 0).herdHeight + 1) ∧
    atStart ((herdSubMove 10 10)^[sweepPeriod 10 10 (initialGame (fun _ => 0) 0).herdWidth
      (initialGame (fun _ => 0) 0).herdHeight] (initialGame (fun _ => 0) 0)) :=
  ⟨(C22_sweep_period 10 10 (initialGame (fun _ => 0) 0)
      (by decide) (by decide) (by decide) ⟨rfl, rfl, rfl⟩).1,
   (C22_sweep_period 10 10 (initialGame (fun _ => 0) 0)
      (by decide) (by decide) (by decide) ⟨rfl, rfl, rfl⟩).2.2.2.1⟩

/-! ## Shape of the herd -/

/-- C23: in every reachable state `herdHeight ≤ herdWidth ≤ herdHeight + 1`,
`herdWidth` is at most the grid extent `500 / fieldSizes[fieldSize]` and
`herdHeight` is strictly below it; at the largest cell size (extent 10) the
herd is at most 10 x 9 and the herd size upgrade is unavailable exactly when
the herd is 10 x 9. -/
theorem C23_herd_shape (s : Game) (h : Reachable s) :
    s.herdHeight ≤ s.herdWidth ∧ s.herdWidth ≤ s.herdHeight + 1 ∧
    s.herdWidth ≤ 500 / fieldSizeAt s.fieldSize ∧
    s.herdHeight < 500 / fieldSizeAt s.fieldSize ∧
    (s.fieldSize = 0 →
      500 / fieldSizeAt s.fieldSize = 10 ∧ s.herdWidth ≤ 10 ∧ s.herdHeight ≤ 9 ∧
      (canBuy .herdSize s = false ↔ (s.herdWidth = 10 ∧ s.herdHeight = 9))) := by
  have hi := Inv_of_Reachable s h
  have h1 := hi.height_le_width
  have h2 := hi.width_le_succ
  have h3 : s.herdWidth ≤ 500 / fieldSizeAt s.fieldSize := hi.width_le
  have h4 : s.herdHeight < 500 / fieldSizeAt s.fieldSize := hi.height_lt
  refine ⟨h1, h2, h3, h4, ?_⟩
  intro hz
  have he : (500 : Int) / fieldSizeAt s.fieldSize = 10 := by rw [hz]; decide
  rw [he] at h3 h4
  refine ⟨he, h3, by omega, ?_⟩
  have hm : height / fieldSizeAt s.fieldSize = 10 := he
  simp only [canBuy, hm, Bool.and_eq_false_imp, decide_eq_true_eq, decide_eq_false_iff_not]
  constructor
  · intro hc
    by_cases hlt : s.herdHeight < 10
    · have := hc hlt
      omega
    · omega
  · intro hc _
    omega

/-- Witness for C23: a reachable state at the largest cell size with a
10 x 9 herd, where the herd size upgrade is unavailable. -/
theorem C23_herd_shape_witness :
    ∃ s, Reachable s ∧ s.fieldSize = 0 ∧ s.herdWidth = 10 ∧ s.herdHeight = 9 ∧
      canBuy .herdSize s = false := by
  obtain ⟨s, hr, hf, hw, hh, _⟩ := reach_full_herd
  exact ⟨s, hr, hf, hw, hh,
    ((C23_herd_shape s hr).2.2.2.2 hf).2.2.2.mpr ⟨hw, hh⟩⟩

/-! ## What a sub-move leaves alone -/

theorem harvestList_grid (gw gh : Int) (cs : List (Int × Int)) (hnd : cs.Nodup) :
    ∀ (s : Game) (x y : Int),
      getCell (harvestList gw gh cs s).grid x y =
        if (x, y) ∈ cs ∧ ripe gw gh s.grid (x, y) = true then 0 else getCell s.grid x y := by
  induction cs with
  | nil =>
      intro s x y
      simp [harvestList]
  | cons c cs ih =>
      intro s x y
      have hc : c ∉ cs := (List.nodup_cons.mp hnd).1
      have hstep : harvestList gw gh (c :: cs) s
          = harvestList gw gh cs (harvestCell gw gh s c.1 c.2) := rfl
      rw [hstep, ih (List.nodup_cons.mp hnd).2]
      cases hr : ripe gw gh s.grid c with
      | false =>
          rw [harvestCell_not_ripe gw gh s c hr]
          by_cases hxy : (x, y) = c
          · have : ripe gw gh s.grid (x, y) = false := by rw [hxy]; exact hr
            simp [this]
          · simp [hxy]
      | true =>
          rw [harvestCell_ripe gw gh s c hr]
          simp only
          by_cases hxy : (x, y) = c
          · have hm : (x, y) ∉ cs := by rw [hxy]; exact hc
            have hr2 : ripe gw gh s.grid (x, y) = true := by rw [hxy]; exact hr
            have hx : x = c.1 := by rw [← hxy]
            have hy : y = c.2 := by rw [← hxy]
            rw [if_neg (fun h => hm h.1),
              if_pos ⟨by rw [hxy]; exact List.mem_cons_self _ _, hr2⟩, hx, hy]
            exact getCell_setCell_ripe gw gh s.grid c 0 hr
          · have e1 := getCell_setCell_ne s.grid c (x, y) 0 hxy
            have e2 := ripe_setCell_ne gw gh s.grid c (x, y) 0 hxy
            simp only at e1
            rw [e1, e2]
            simp [hxy]

theorem harvestList_none (gw gh : Int) (cs : List (Int × Int)) (s : Game)
    (h : ∀ c ∈ cs, ripe gw gh s.grid c = false) : harvestList gw gh cs s = s := by
  induction cs with
  | nil => rfl
  | cons c cs ih =>
      have hstep : harvestList gw gh (c :: cs) s
          = harvestList gw gh cs (harvestCell gw gh s c.1 c.2) := rfl
      rw [hstep, harvestCell_not_ripe gw gh s c (h c (List.mem_cons_self _ _))]
      exact ih (fun d hd => h d (List.mem_cons_of_mem _ hd))

/-- C24: in every sub-move a cell outside the herd rectangle and a cell with
growth level below 5 keep their level and no cell gets a higher level; if no
cell of the rectangle has level 5 or more, the sub-move leaves money, lifetime
money, the cleared count, the super days and the whole grid unchanged. -/
theorem C24_sub_move_frame (W H : Int) (s : Game) (x y : Int) :
    (¬ inHerd s x y →
      getCell (herdSubMove W H s).grid x y = getCell s.grid x y) ∧
    (getCell s.grid x y < 5 →
      getCell (herdSubMove W H s).grid x y = getCell s.grid x y) ∧
    getCell (herdSubMove W H s).grid x y ≤ getCell s.grid x y ∧
    ((∀ a b, inHerd s a b → getCell s.grid a b < 5) →
      (herdSubMove W H s).money = s.money ∧
      (herdSubMove W H s).totalMoney = s.totalMoney ∧
      (herdSubMove W H s).totalCleared = s.totalCleared ∧
      (herdSubMove W H s).superDays = s.superDays ∧
      (herdSubMove W H s).grid = s.grid) := by
  obtain ⟨m1, m2, m3, m4, m5, _⟩ := moveHerd_frame W H (harvest W H s)
  have hg := harvestList_grid W H (herdCells s) (nodup_herdCells s) s x y
  unfold herdSubMove
  rw [m1, m2, m3, m4, m5, harvest_eq_harvestList, hg]
  refine ⟨?_, ?_, ?_, ?_⟩
  · intro hout
    rw [if_neg]
    intro hc
    exact hout ((mem_herdCells s x y).mp hc.1)
  · intro hlow
    rw [if_neg]
    intro hc
    have hr := hc.2
    unfold ripe at hr
    simp only [Bool.and_eq_true, decide_eq_true_eq] at hr
    omega
  · split
    · rename_i hc
      have hr := hc.2
      unfold ripe at hr
      simp only [Bool.and_eq_true, decide_eq_true_eq] at hr
      omega
    · exact le_refl _
  · intro hnone
    have hsame : harvestList W H (herdCells s) s = s := by
      apply harvestList_none
      intro c hc
      have hin := (mem_herdCells s c.1 c.2).mp hc
      have hl := hnone c.1 c.2 hin
      unfold ripe
      have : decide (5 ≤ getCell s.grid c.1 c.2) = false := by
        rw [decide_eq_false_iff_not]; omega
      rw [this]
      simp
    rw [hsame]
    exact ⟨rfl, rfl, rfl, rfl, rfl⟩

/-! ## Reaching a state in which the herd moves up -/

theorem descend (W H : Int) (s : Game) (hd : s.herdDirectionUp = false) (j : Nat) :
    s.herdY + j ≤ H - s.herdHeight →
    ((herdSubMove W H)^[j] s).herdX = s.herdX ∧
    ((herdSubMove W H)^[j] s).herdY = s.herdY + j ∧
    ((herdSubMove W H)^[j] s).herdDirectionUp = false ∧
    ((herdSubMove W H)^[j] s).herdWidth = s.herdWidth ∧
    ((herdSubMove W H)^[j] s).herdHeight = s.herdHeight := by
  induction j with
  | zero =>
      intro _
      exact ⟨rfl, by simp, hd, rfl, rfl⟩
  | succ j ih =>
      intro hj
      push_cast at hj
      obtain ⟨a1, a2, a3, a4, a5⟩ := ih (by omega)
      rw [Function.iterate_succ_apply']
      obtain ⟨f1, f2, _, fdown⟩ := herdSubMove_fields W H ((herdSubMove W H)^[j] s)
      obtain ⟨g1, g2, g3⟩ := (fdown a3).1 (by rw [a2, a5]; omega)
      refine ⟨g1.trans a1, ?_, g3, f1.trans a4, f2.trans a5⟩
      rw [g2, a2]
      push_cast
      ring

theorem eventually_up (W H : Int) (s : Game)
    (hw1 : 1 ≤ s.herdWidth) (hwW : s.herdWidth < W) (hhH : s.herdHeight ≤ H)
    (hy1 : s.herdY ≤ H - s.herdHeight) :
    ∃ n : Nat, ((herdSubMove W H)^[n] s).herdDirectionUp = true := by
  cases hd : s.herdDirectionUp with
  | true => exact ⟨0, hd⟩
  | false =>
      have hj : s.herdY + ((H - s.herdHeight - s.herdY).toNat : Int) ≤ H - s.herdHeight := by
        omega
      obtain ⟨a1, a2, a3, a4, a5⟩ := descend W H s hd (H - s.herdHeight - s.herdY).toNat hj
      obtain ⟨f1, f2, _, fdown⟩ :=
        herdSubMove_fields W H ((herdSubMove W H)^[(H - s.herdHeight - s.herdY).toNat] s)
      have hend : ¬ (((herdSubMove W H)^[(H - s.herdHeight - s.herdY).toNat] s).herdY
          < H - ((herdSubMove W H)^[(H - s.herdHeight - s.herdY).toNat] s).herdHeight) := by
        rw [a2, a5]; omega
      by_cases hx : ((herdSubMove W H)^[(H - s.herdHeight - s.herdY).toNat] s).herdX
          ≥ W - ((herdSubMove W H)^[(H - s.herdHeight - s.herdY).toNat] s).herdWidth
      · -- the sweep starts over at the origin: one more column, then up
        have hstart := (fdown a3).2.1 hend hx
        have hat : atStart ((herdSubMove W H)^[(H - s.herdHeight - s.herdY).toNat + 1] s) := by
          rw [Function.iterate_succ_apply']
          exact hstart
        have hw' : ((herdSubMove W H)^[(H - s.herdHeight - s.herdY).toNat + 1] s).herdWidth
            = s.herdWidth := by
          rw [Function.iterate_succ_apply']
          exact f1.trans a4
        have hh' : ((herdSubMove W H)^[(H - s.herdHeight - s.herdY).toNat + 1] s).herdHeight
            = s.herdHeight := by
          rw [Function.iterate_succ_apply']
          exact f2.trans a5
        have hcf := sweep_closed_form W H
          ((herdSubMove W H)^[(H - s.herdHeight - s.herdY).toNat + 1] s)
          (by rw [hw']; exact hw1) (by rw [hw']; omega) (by rw [hh']; exact hhH) hat 1 0
          (by rw [hw']; push_cast; omega) (by rw [hh']; push_cast; omega)
        refine ⟨(1 * ((H - ((herdSubMove W H)^[(H - s.herdHeight - s.herdY).toNat + 1]
          s).herdHeight).toNat + 1) + 0) + ((H - s.herdHeight - s.herdY).toNat + 1), ?_⟩
        rw [Function.iterate_add_apply, hcf.2.2.2.2]
        rfl
      · exact ⟨(H - s.herdHeight - s.herdY).toNat + 1, by
          rw [Function.iterate_succ_apply']
          exact ((fdown a3).2.2 hend hx).2.2⟩

theorem tick_speed_one (t : Int) (r : Rand) (s : Game) (hs : s.herdSpeed = 1) :
    samePos (herdSubMove (gridWidth s) (gridHeight s) s) (gameUpdate t r s) := by
  have hp := timeBank_samePos t s
  have hday : herdDay t s
      = herdSubMove (gridWidth (timeBank t s)) (gridHeight (timeBank t s)) (timeBank t s) := by
    unfold herdDay
    simp only
    rw [hp.2.2.2.2.1, hs]
    rfl
  have hg : samePos (herdDay t s) (gameUpdate t r s) := ⟨rfl, rfl, rfl, rfl, rfl, rfl, rfl⟩
  refine samePos_trans ?_ hg
  rw [hday, gridWidth_congr s _ hp.2.2.2.2.2.2, gridHeight_congr s _ hp.2.2.2.2.2.2]
  exact herdSubMove_samePos _ _ _ _ hp

theorem walk_by_ticks (n : Nat) :
    ∀ (s : Game), Inv s → s.herdSpeed = 1 →
      ∃ as : List Action,
        samePos ((herdSubMove (gridWidth s) (gridHeight s))^[n] s) (run as s) ∧
        sameConfig s (run as s) ∧ s.money ≤ (run as s).money := by
  induction n with
  | zero =>
      intro s _ _
      exact ⟨[], samePos_refl s, sameConfig_refl s, le_refl _⟩
  | succ n ih =>
      intro s hinv hs
      have hcfg := gameUpdate_sameConfig (s.lastDay + s.dayRate) (fun _ => 0) s
      have hpos := tick_speed_one (s.lastDay + s.dayRate) (fun _ => 0) s hs
      have hm := gameUpdate_money_le (s.lastDay + s.dayRate) (fun _ => 0) s hinv
      obtain ⟨as, p1, p2, p3⟩ := ih (gameUpdate (s.lastDay + s.dayRate) (fun _ => 0) s)
        (Inv_gameUpdate _ _ s hinv) (by rw [hcfg.2.2.1]; exact hs)
      rw [gridWidth_congr s _ hcfg.2.2.2.2.1, gridHeight_congr s _ hcfg.2.2.2.2.1] at p1
      refine ⟨Action.tick (s.lastDay + s.dayRate) (fun _ => 0) :: as, ?_, ?_, ?_⟩
      · rw [Function.iterate_succ_apply]
        exact samePos_trans (iterate_herdSubMove_samePos _ _ n _ _ hpos) p1
      · exact sameConfig_trans hcfg p2
      · exact le_trans hm p3

theorem reach_moving_up (s : Game) (h : Reachable s) (hs : s.herdSpeed = 1)
    (hw : s.herdWidth < gridWidth s) :
    ∃ s2, Reachable s2 ∧ sameConfig s s2 ∧ s.money ≤ s2.money ∧
      s2.herdDirectionUp = true := by
  have hi := Inv_of_Reachable s h
  have h1 := hi.height_pos
  have h2 := hi.height_le_width
  have h3 := hi.height_lt
  obtain ⟨n, hn⟩ := eventually_up (gridWidth s) (gridHeight s) s (by omega) hw (by omega)
    hi.y_hi
  obtain ⟨as, p1, p2, p3⟩ := walk_by_ticks n s hi hs
  exact ⟨run as s, Reachable_run as s h, p2, p3, by rw [p1.2.2.2.2.2.1]; exact hn⟩

/-! ## A herd size purchase keeps the direction -/

theorem move_from_origin_up (W H : Int) (t : Game) (hx : t.herdX = 0) (hy : t.herdY = 0)
    (hd : t.herdDirectionUp = true) (hw : t.herdWidth < W) :
    ((moveHerd W H t).herdX = min t.herdWidth (W - t.herdWidth) ∧
      (moveHerd W H t).herdY = 0 ∧ (moveHerd W H t).herdDirectionUp = false) ∧
    ((herdSubMove W H t).herdX = min t.herdWidth (W - t.herdWidth) ∧
      (herdSubMove W H t).herdY = 0 ∧ (herdSubMove W H t).herdDirectionUp = false) := by
  have hny : ¬ (t.herdY > 0) := by omega
  have hnx : ¬ (t.herdX ≥ W - t.herdWidth) := by omega
  constructor
  · unfold moveHerd
    rw [if_pos hd, if_neg hny, if_neg hnx]
    simp [hx, hy]
  · obtain ⟨_, _, fup, _⟩ := herdSubMove_fields W H t
    obtain ⟨g1, g2, g3⟩ := (fup hd).2.2 hny hnx
    rw [hx, zero_add] at g1
    exact ⟨g1, g2.trans hy, g3⟩

/-- C25: in a reachable state a successful herd size purchase puts the herd
at `(0, 0)` and leaves the direction flag, the grid and the time bank
(`lastDay`, `superExtra`, `superDays`) as they were; if the herd was moving up
and the new width is below the grid width, the next move step takes the herd
to `x = min herdWidth (gridWidth - herdWidth)`, `y = 0`, moving down. -/
theorem C25_size_purchase_keeps_direction (s : Game) (h : Reachable s) (r : Rand)
    (hb : buySucceeds .herdSize s = true) :
    ((Action.buy .herdSize r).apply s).herdX = 0 ∧
    ((Action.buy .herdSize r).apply s).herdY = 0 ∧
    ((Action.buy .herdSize r).apply s).herdDirectionUp = s.herdDirectionUp ∧
    ((Action.buy .herdSize r).apply s).grid = s.grid ∧
    ((Action.buy .herdSize r).apply s).lastDay = s.lastDay ∧
    ((Action.buy .herdSize r).apply s).superExtra = s.superExtra ∧
    ((Action.buy .herdSize r).apply s).superDays = s.superDays ∧
    (s.herdDirectionUp = true →
      ((Action.buy .herdSize r).apply s).herdWidth
        < gridWidth ((Action.buy .herdSize r).apply s) →
      ((moveHerd (gridWidth ((Action.buy .herdSize r).apply s))
          (gridHeight ((Action.buy .herdSize r).apply s))
          ((Action.buy .herdSize r).apply s)).herdX
        = min ((Action.buy .herdSize r).apply s).herdWidth
            (gridWidth ((Action.buy .herdSize r).apply s)
              - ((Action.buy .herdSize r).apply s).herdWidth) ∧
       (moveHerd (gridWidth ((Action.buy .herdSize r).apply s))
          (gridHeight ((Action.buy .herdSize r).apply s))
          ((Action.buy .herdSize r).apply s)).herdY = 0 ∧
       (moveHerd (gridWidth ((Action.buy .herdSize r).apply s))
          (gridHeight ((Action.buy .herdSize r).apply s))
          ((Action.buy .herdSize r).apply s)).herdDirectionUp = false) ∧
      ((herdSubMove (gridWidth ((Action.buy .herdSize r).apply s))
          (gridHeight ((Action.buy .herdSize r).apply s))
          ((Action.buy .herdSize r).apply s)).herdX
        = min ((Action.buy .herdSize r).apply s).herdWidth
            (gridWidth ((Action.buy .herdSize r).apply s)
              - ((Action.buy .herdSize r).apply s).herdWidth) ∧
       (herdSubMove (gridWidth ((Action.buy .herdSize r).apply s))
          (gridHeight ((Action.buy .herdSize r).apply s))
          ((Action.buy .herdSize r).apply s)).herdY = 0 ∧
       (herdSubMove (gridWidth ((Action.buy .herdSize r).apply s))
          (gridHeight ((Action.buy .herdSize r).apply s))
          ((Action.buy .herdSize r).apply s)).herdDirectionUp = false)) := by
  have hi := Inv_of_Reachable s h
  obtain ⟨u, _, _, hk, _, _, hbuy⟩ := buy_of_succeeds .herdSize r s hi hb
  obtain ⟨p1, p2, _, _, _, p6, p7, p8, p9, p10⟩ :=
    purchased_herdSize UpgradeKind.herdSize.index u r s hk
  rw [hbuy]
  refine ⟨p1, p2, p6, p7, p8, p9, p10, ?_⟩
  intro hup hw
  exact move_from_origin_up _ _ _ p1 p2 (p6.trans hup) hw

/-- Witness for C25: a reachable state with a 1 x 1 herd moving up on the
10 x 10 grid and money for the herd size upgrade; the purchase leaves a 2 x 1
herd at the origin still moving up, and the next move step takes it to
`x = 2`, `y = 0`, moving down. -/
theorem C25_size_purchase_keeps_direction_witness :
    ∃ s, Reachable s ∧ buySucceeds .herdSize s = true ∧ s.herdDirectionUp = true ∧
      ((Action.buy .herdSize (fun _ => 0)).apply s).herdX = 0 ∧
      ((Action.buy .herdSize (fun _ => 0)).apply s).herdY = 0 ∧
      ((Action.buy .herdSize (fun _ => 0)).apply s).herdDirectionUp = true ∧
      (moveHerd 10 10 ((Action.buy .herdSize (fun _ => 0)).apply s)).herdX = 2 ∧
      (moveHerd 10 10 ((Action.buy .herdSize (fun _ => 0)).apply s)).herdY = 0 ∧
      (moveHerd 10 10 ((Action.buy .herdSize (fun _ => 0)).apply s)).herdDirectionUp
        = false := by
  obtain ⟨s1, hr1, ⟨c1, c2, c3, _, c5, _, _⟩, hb1⟩ :=
    reach_buyable .herdSize (initialGame (fun _ => 0) 0) ⟨fun _ => 0, 0, [], rfl⟩ (by decide)
      (by rw [(priceOf_initialGame _ _).2.1]; norm_num)
  have hw1 : s1.herdWidth = 1 := c1
  have hh1 : s1.herdHeight = 1 := c2
  have hf1 : s1.fieldSize = 0 := c5
  have hg1 : gridWidth s1 = 10 := by unfold gridWidth; rw [hf1]; decide
  obtain ⟨s, hr, hcfg, hm, hup⟩ := reach_moving_up s1 hr1 c3 (by rw [hw1, hg1]; decide)
  have hi := Inv_of_Reachable s hr
  have hb : buySucceeds .herdSize s = true := by
    rw [buySucceeds_iff .herdSize s hi]
    obtain ⟨q1, q2⟩ := (buySucceeds_iff .herdSize s1 (Inv_of_Reachable s1 hr1)).mp hb1
    constructor
    · unfold priceOf at q1 ⊢
      rw [upgradeOf_congr .herdSize s1 s hcfg.2.2.2.2.2.2]
      exact le_trans q1 hm
    · rw [canBuy_congr .herdSize s1 s hcfg]
      exact q2
  obtain ⟨e1, e2, e3, _, _, _, _, e8⟩ :=
    C25_size_purchase_keeps_direction s hr (fun _ => 0) hb
  obtain ⟨u, _, _, hk, _, _, hbuy⟩ := buy_of_succeeds .herdSize (fun _ => 0) s hi hb
  obtain ⟨_, _, p3, _, p5, _⟩ :=
    purchased_herdSize UpgradeKind.herdSize.index u (fun _ => 0) s hk
  have hw2 : ((Action.buy .herdSize (fun _ => 0)).apply s).herdWidth = 2 := by
    rw [hbuy, p3, hcfg.1, hcfg.2.1, hw1, hh1]
    decide
  have hg2 : gridWidth ((Action.buy .herdSize (fun _ => 0)).apply s) = 10 := by
    unfold gridWidth
    rw [hbuy, p5, hcfg.2.2.2.2.1, hf1]
    decide
  have hh2 : gridHeight ((Action.buy .herdSize (fun _ => 0)).apply s) = 10 := hg2
  have hmove := (e8 hup (by rw [hw2, hg2]; decide)).1
  rw [hg2, hh2, hw2] at hmove
  exact ⟨s, hr, hb, hup, e1, e2, e3.trans hup, hmove.1, hmove.2.1, hmove.2.2⟩

/-! ## The price after a purchase is a rounded product -/

theorem size_price_after_two :
    ∃ s, Reachable s ∧ s.fieldSize = 0 ∧ s.herdWidth = 2 ∧ s.herdHeight = 2 ∧
      priceOf .herdSize s = 507 / 4 := by
  have e1 : roundDouble ((75 : ℚ) * sizeMultiplier) = 195 / 2 := by
    rw [sizeMultiplier_eq, roundDouble_eval _ 6 6860952557322240 (by norm_num) (by norm_num)
      (by norm_num) (by rw [abs_lt]; constructor <;> norm_num)]
    norm_num
  have e2 : roundDouble ((195 / 2 : ℚ) * sizeMultiplier) = 507 / 4 := by
    rw [sizeMultiplier_eq, roundDouble_eval _ 6 8919238324518912 (by norm_num) (by norm_num)
      (by norm_num) (by rw [abs_lt]; constructor <;> norm_num)]
    norm_num
  obtain ⟨s1, hr1, hf1, hw1, hh1, hp1, _⟩ := buy_size_step (initialGame (fun _ => 0) 0)
    ⟨fun _ => 0, 0, [], rfl⟩ rfl (by decide) (by decide)
    (by rw [(priceOf_initialGame _ _).2.1]; norm_num)
  rw [(priceOf_initialGame _ _).2.1, e1] at hp1
  have hw1' : s1.herdWidth = 2 := by rw [hw1]; decide
  have hh1' : s1.herdHeight = 1 := by rw [hh1]; decide
  obtain ⟨s2, hr2, hf2, hw2, hh2, hp2, _⟩ := buy_size_step s1 hr1 hf1
    (by rw [hw1']; decide) (by rw [hh1']; decide) (by rw [hp1]; norm_num)
  rw [hp1, e2] at hp2
  refine ⟨s2, hr2, hf2, ?_, ?_, hp2⟩
  · rw [hw2, hw1', hh1']; decide
  · rw [hh2, hw1', hh1']; decide

/-- C13 (fails on the code): there is a reachable state (after two herd size
purchases) in which the herd size upgrade costs 126.75 and a purchase
succeeds; the new price is the double 5797504910937293 / 2^45 (about
164.775), which is neither 126.75 times the stored multiplier (the double
nearest to 1.3) nor 126.75 times 1.3: the product is rounded to double. -/
theorem C13_price_product_is_rounded :
    ∃ (s : Game) (r : Rand), Reachable s ∧ buySucceeds .herdSize s = true ∧
      priceOf .herdSize s = 507 / 4 ∧
      multiplierOf .herdSize s = 5854679515581645 / 4503599627370496 ∧
      priceOf .herdSize ((Action.buy .herdSize r).apply s)
        = 5797504910937293 / 35184372088832 ∧
      priceOf .herdSize ((Action.buy .herdSize r).apply s)
        ≠ priceOf .herdSize s * multiplierOf .herdSize s ∧
      priceOf .herdSize ((Action.buy .herdSize r).apply s) ≠ priceOf .herdSize s * 1.3 := by
  have e3 : roundDouble ((507 / 4 : ℚ) * sizeMultiplier)
      = 5797504910937293 / 35184372088832 := by
    rw [sizeMultiplier_eq, roundDouble_eval _ 7 5797504910937293 (by norm_num) (by norm_num)
      (by norm_num) (by rw [abs_lt]; constructor <;> norm_num)]
    norm_num
  obtain ⟨s0, hr0, hf0, hw0, hh0, hp0⟩ := size_price_after_two
  have hc0 : canBuy .herdSize s0 = true := by
    simp only [canBuy, hf0, hw0, hh0]
    decide
  obtain ⟨s, hr, hcfg, hb⟩ := reach_buyable .herdSize s0 hr0 hc0 (by rw [hp0]; norm_num)
  have hi := Inv_of_Reachable s hr
  have hp : priceOf .herdSize s = 507 / 4 := by
    unfold priceOf
    rw [upgradeOf_congr .herdSize s0 s hcfg.2.2.2.2.2.2]
    exact hp0
  have hm := (multiplierOf_eq s hi (PricesOk_of_Reachable s hr)).2.1
  obtain ⟨u, ho, ho2⟩ := upgradeOf_buy_succeeds .herdSize (fun _ => 0) s hi hb
  have hpu : u.price = 507 / 4 := by
    unfold priceOf at hp
    rw [ho] at hp
    exact hp
  have hmu : u.multiplier = sizeMultiplier := by
    unfold multiplierOf at hm
    rw [ho] at hm
    exact hm
  have hnew : priceOf .herdSize ((Action.buy .herdSize (fun _ => 0)).apply s)
      = 5797504910937293 / 35184372088832 := by
    unfold priceOf
    rw [ho2]
    simp only
    rw [hpu, hmu, e3]
  refine ⟨s, fun _ => 0, hr, hb, hp, by rw [hm, sizeMultiplier_eq], hnew, ?_, ?_⟩
  · rw [hnew, hp, hm, sizeMultiplier_eq]
    norm_num
  · rw [hnew, hp]
    norm_num

/-- Witness for C13 (amended): a reachable state in which the herd size
purchase succeeds; the level goes up by 1 and the price becomes the rounded
product, which is not smaller. -/
theorem C13_price_and_level_witness :
    ∃ s, Reachable s ∧ buySucceeds .herdSize s = true ∧
      levelOf .herdSize ((Action.buy .herdSize (fun _ => 0)).apply s)
        = levelOf .herdSize s + 1 ∧
      priceOf .herdSize ((Action.buy .herdSize (fun _ => 0)).apply s)
        = roundDouble (priceOf .herdSize s * multiplierOf .herdSize s) ∧
      priceOf .herdSize s ≤ priceOf .herdSize ((Action.buy .herdSize (fun _ => 0)).apply s) := by
  obtain ⟨s, hr, _, hb⟩ := reach_buyable .herdSize (initialGame (fun _ => 0) 0)
    ⟨fun _ => 0, 0, [], rfl⟩ (by decide) (by rw [(priceOf_initialGame _ _).2.1]; norm_num)
  obtain ⟨h1, h2, h3, _⟩ := (C13_price_and_level s hr .herdSize).1 (fun _ => 0) hb
  exact ⟨s, hr, hb, h1, h2, by rw [h2]; exact h3⟩

end HerdOfGrazingCows
